import Mathlib

/-!
The record decoder of go-emf (`src/emf`).

A shallow embedding of the decoding half of the package: the byte cursor
(`bytes.Reader` with `binary.Read`), the bitmap-transfer record readers of
`records_bitmap.go`, the text payload reader of `objects.go` and the
container assembly of `file.go`.

Conventions.
* A byte is a `Nat`; the little-endian decoders reduce every byte modulo 256,
  so a decoded `uint32` is below `2^32` and a decoded `uint16` below `2^16`.
* `uint32` arithmetic of the source is written with an explicit `% 2^32`.
* Go's `int` is taken to be 64 bits wide; positions and seek distances stay far
  below `2^63`, so `int`/`int64` arithmetic is exact and is done in `Int`.
* A reader is a function from the cursor state to either an error or a value
  with the new cursor state (`StateT Reader (Except Err)`).
-/

namespace Emf

/-! ## Errors and the byte cursor -/

/-- The failures a run can end in: the two `io` errors that `bytes.Reader` and
`io.ReadFull` produce, a run-time index panic, exhaustion of the iteration
budget of a modelled loop, the panic of a nil pointer dereference, and the
panic of `image.NewRGBA` on a rectangle whose pixel buffer length does not fit
an `int`. -/
inductive Err where
  | EOF
  | ErrUnexpectedEOF
  | indexOutOfRange
  | outOfFuel
  | nilDereference
  | hugeImage
deriving DecidableEq, Repr

/-- The `bytes.Reader`: the buffer `s` and the read index `i`. -/
structure Reader where
  s : List Nat
  i : Nat
deriving DecidableEq, Repr

/-- A decoder over the byte cursor. -/
abbrev Dec (α : Type) : Type := StateT Reader (Except Err) α

/-- The method `(*bytes.Reader).Len`: the number of unread bytes. -/
def Reader.Len (rd : Reader) : Nat :=
  if rd.s.length ≤ rd.i then 0 else rd.s.length - rd.i

/-- The call `reader.Len()` inside a decoder. -/
def Len : Dec Nat := fun rd => .ok (rd.Len, rd)

/-- The call `reader.Seek(delta, os.SEEK_CUR)` with its results ignored, as the
source does: the new index is `i + delta`; a negative result is an error of
`Seek` that leaves the index where it was. A seek past the end is allowed. -/
def Seek (delta : Int) : Dec Unit := fun rd =>
  if (rd.i : Int) + delta < 0 then .ok ((), rd)
  else .ok ((), { rd with i := ((rd.i : Int) + delta).toNat })

/-- The function `io.ReadFull` on a fresh buffer of `n` bytes over a `bytes.Reader`, as
`binary.Read` calls it: nothing is read for `n = 0`; otherwise `io.EOF` when no
byte is left, `io.ErrUnexpectedEOF` when fewer than `n` are left. -/
def ReadFull (n : Nat) : Dec (List Nat) := fun rd =>
  if n = 0 then .ok ([], rd)
  else if rd.s.length ≤ rd.i then .error .EOF
  else if rd.s.length - rd.i < n then .error .ErrUnexpectedEOF
  else .ok ((rd.s.drop rd.i).take n, { rd with i := rd.i + n })

/-- The method `(*bytes.Reader).Read` into a zeroed buffer of `n` bytes (`make([]byte, n)`):
`io.EOF` when the index is at or past the end; otherwise it copies the
`min n (len - i)` bytes that are there, reports no error, and the rest of the
buffer keeps its zeroes. The count it returns is dropped by the source. -/
def Read (n : Nat) : Dec (List Nat) := fun rd =>
  if rd.s.length ≤ rd.i then .error .EOF
  else
    let m := min n (rd.s.length - rd.i)
    .ok ((rd.s.drop rd.i).take m ++ List.replicate (n - m) 0, { rd with i := rd.i + m })

/-! ## Little-endian scalars (`binary.Read` with `binary.LittleEndian`) -/

/-- Little-endian value of a byte string. -/
def leNat : List Nat → Nat
  | [] => 0
  | b :: bs => b % 256 + 256 * leNat bs

/-- Two's-complement reading of a 32-bit pattern. -/
def toInt32 (u : Nat) : Int :=
  if u < 2 ^ 31 then (u : Int) else (u : Int) - 2 ^ 32

/-- A `uint16` from two bytes. -/
def readUint16 : Dec Nat := do
  let bs ← ReadFull 2
  pure (leNat bs)

/-- A `uint32` from four bytes. -/
def readUint32 : Dec Nat := do
  let bs ← ReadFull 4
  pure (leNat bs)

/-- An `int32` from four bytes. -/
def readInt32 : Dec Int := do
  let bs ← ReadFull 4
  pure (toInt32 (leNat bs))

/-- The elements of a `[]uint16` from its encoding. -/
def uint16s : List Nat → List Nat
  | b0 :: b1 :: rest => leNat [b0, b1] :: uint16s rest
  | _ => []

/-- The elements of a `[]int32` from its encoding. -/
def int32s : List Nat → List Int
  | b0 :: b1 :: b2 :: b3 :: rest => toInt32 (leNat [b0, b1, b2, b3]) :: int32s rest
  | _ => []

/-- The call `binary.Read` into a `[]uint16` of length `n`: `2 * n` bytes in one `io.ReadFull`. -/
def readUint16s (n : Nat) : Dec (List Nat) := do
  let bs ← ReadFull (2 * n)
  pure (uint16s bs)

/-- The call `binary.Read` into a `[]int32` of length `n`: `4 * n` bytes in one `io.ReadFull`. -/
def readInt32s (n : Nat) : Dec (List Int) := do
  let bs ← ReadFull (4 * n)
  pure (int32s bs)

/-! ## The `w32` aggregates

The package `w32` and the file of record-type constants are not among the
sources. The aggregates below are the Windows structures of those names, with
the fields the sources use; their encoded sizes (16, 8, 24, 4 and 40 bytes) are
the ones behind the constants 80, 100 and 108 that `records_bitmap.go` itself
uses for the length of the fixed fields. -/

/-- Modelled from the spec: `w32.RECT`, absent from the sources; four `int32`. -/
structure RECT where
  Left : Int
  Top : Int
  Right : Int
  Bottom : Int
deriving DecidableEq, Repr

/-- Modelled from the spec: `w32.POINT`, absent from the sources; two `int32`. -/
structure POINT where
  X : Int
  Y : Int
deriving DecidableEq, Repr

/-- Modelled from the spec: `w32.XFORM`, absent from the sources; six `float32`, kept
as their 32-bit patterns. -/
structure XFORM where
  M11 : Nat
  M12 : Nat
  M21 : Nat
  M22 : Nat
  Dx : Nat
  Dy : Nat
deriving DecidableEq, Repr

/-- Modelled from the spec: `w32.BITMAPINFOHEADER`, absent from the sources; the
40-byte bitmap header whose fields `BiSize`, `BiPlanes` and `BiBitCount` the
sources use. -/
structure BITMAPINFOHEADER where
  BiSize : Nat
  BiWidth : Int
  BiHeight : Int
  BiPlanes : Nat
  BiBitCount : Nat
  BiCompression : Nat
  BiSizeImage : Nat
  BiXPelsPerMeter : Int
  BiYPelsPerMeter : Int
  BiClrUsed : Nat
  BiClrImportant : Nat
deriving DecidableEq, Repr

/-- Modelled from the spec: `w32.BITMAPINFO`, absent from the sources; it embeds the
header (the sources write `r.BmiSrc.BITMAPINFOHEADER` and `r.BmiSrc.BiSize`);
whatever fixed-size colour fields follow the header are kept as raw bytes. -/
structure BITMAPINFO extends BITMAPINFOHEADER where
  BmiColors : List Nat
deriving DecidableEq, Repr

/-- The call `binary.Read` into a `w32.RECT`: one `io.ReadFull` of 16 bytes. -/
def readRECT : Dec RECT := do
  let bs ← ReadFull 16
  pure { Left := toInt32 (leNat (bs.take 4))
         Top := toInt32 (leNat ((bs.drop 4).take 4))
         Right := toInt32 (leNat ((bs.drop 8).take 4))
         Bottom := toInt32 (leNat ((bs.drop 12).take 4)) }

/-- The call `binary.Read` into a `w32.POINT`: one `io.ReadFull` of 8 bytes. -/
def readPOINT : Dec POINT := do
  let bs ← ReadFull 8
  pure { X := toInt32 (leNat (bs.take 4)), Y := toInt32 (leNat ((bs.drop 4).take 4)) }

/-- The call `binary.Read` into a `w32.XFORM`: one `io.ReadFull` of 24 bytes. -/
def readXFORM : Dec XFORM := do
  let bs ← ReadFull 24
  pure { M11 := leNat (bs.take 4)
         M12 := leNat ((bs.drop 4).take 4)
         M21 := leNat ((bs.drop 8).take 4)
         M22 := leNat ((bs.drop 12).take 4)
         Dx := leNat ((bs.drop 16).take 4)
         Dy := leNat ((bs.drop 20).take 4) }

/-- The fields of a bitmap header from its 40 bytes. -/
def decodeBITMAPINFOHEADER (bs : List Nat) : BITMAPINFOHEADER :=
  { BiSize := leNat (bs.take 4)
    BiWidth := toInt32 (leNat ((bs.drop 4).take 4))
    BiHeight := toInt32 (leNat ((bs.drop 8).take 4))
    BiPlanes := leNat ((bs.drop 12).take 2)
    BiBitCount := leNat ((bs.drop 14).take 2)
    BiCompression := leNat ((bs.drop 16).take 4)
    BiSizeImage := leNat ((bs.drop 20).take 4)
    BiXPelsPerMeter := toInt32 (leNat ((bs.drop 24).take 4))
    BiYPelsPerMeter := toInt32 (leNat ((bs.drop 28).take 4))
    BiClrUsed := leNat ((bs.drop 32).take 4)
    BiClrImportant := leNat ((bs.drop 36).take 4) }

/-- The fields of a `w32.BITMAPINFO` from its bytes: the header, then the colour
fields as they are. -/
def decodeBITMAPINFO (bs : List Nat) : BITMAPINFO :=
  { toBITMAPINFOHEADER := decodeBITMAPINFOHEADER bs, BmiColors := bs.drop 40 }

/-- The call `binary.Read` into a `w32.BITMAPINFOHEADER`: one `io.ReadFull` of 40 bytes. -/
def readBITMAPINFOHEADER : Dec BITMAPINFOHEADER := do
  let bs ← ReadFull 40
  pure (decodeBITMAPINFOHEADER bs)

/-- The call `binary.Read` into a `w32.BITMAPINFO` whose fields after the header take
`bmiColors` bytes: one `io.ReadFull` of `40 + bmiColors` bytes. -/
def readBITMAPINFO (bmiColors : Nat) : Dec BITMAPINFO := do
  let bs ← ReadFull (40 + bmiColors)
  pure (decodeBITMAPINFO bs)

/-! ## Bitmap-transfer records (`records_bitmap.go`) -/

/-- Modelled from the spec: the record-type tags are declared in a file that is not
among the sources; these are the tags of the format. Only that they differ
from one another is used. -/
def EMR_HEADER : Nat := 1

/-- Modelled from the spec: tag of the end-of-file record (see `EMR_HEADER`). -/
def EMR_EOF : Nat := 14

/-- Modelled from the spec: tag of the bit-block transfer record (see `EMR_HEADER`). -/
def EMR_BITBLT : Nat := 76

/-- Modelled from the spec: tag of the stretching transfer record (see `EMR_HEADER`). -/
def EMR_STRETCHBLT : Nat := 77

/-- Modelled from the spec: tag of the stretching DIB transfer record (see `EMR_HEADER`). -/
def EMR_STRETCHDIBITS : Nat := 81

/-- The common header of a record: `Type` (here `Typ`) and `Size`. -/
structure Record where
  Typ : Nat
  Size : Nat
deriving DecidableEq, Repr

/-- The struct `CommonBitmapRecord`. -/
structure CommonBitmapRecord extends Record where
  Bounds : RECT
  xDest : Int
  yDest : Int
  cxDest : Int
  cyDest : Int
  BitBltRasterOperation : Nat
  xSrc : Int
  ySrc : Int
  XformSrc : XFORM
  BkColorSrc : Nat
  UsageSrc : Nat
  offBmiSrc : Nat
  cbBmiSrc : Nat
  offBitsSrc : Nat
  cbBitsSrc : Nat
  cxSrc : Int
  cySrc : Int
  BmiSrc : BITMAPINFO
  BitsSrc : List Nat
  BitsSrc24 : List Nat
deriving DecidableEq, Repr

/-- The zero value of `w32.XFORM`. -/
def XFORM.zero : XFORM := ⟨0, 0, 0, 0, 0, 0⟩

/-- The zero value of `w32.BITMAPINFOHEADER`. -/
def BITMAPINFOHEADER.zero : BITMAPINFOHEADER := ⟨0, 0, 0, 0, 0, 0, 0, 0, 0, 0, 0⟩

/-- The zero value of `w32.BITMAPINFO` with `bmiColors` bytes after the header. -/
def BITMAPINFO.zero (bmiColors : Nat) : BITMAPINFO :=
  { toBITMAPINFOHEADER := BITMAPINFOHEADER.zero, BmiColors := List.replicate bmiColors 0 }

/-- Subtraction of two `uint32` values (both below `2^32`): it wraps around. -/
def subU32 (a b : Nat) : Nat := (a + 2 ^ 32 - b) % 2 ^ 32

/-- The indexed read `src[i]` of a Go slice. -/
def getByte (src : List Nat) (i : Nat) : Except Err Nat :=
  match src[i]? with
  | some v => .ok v
  | none => .error .indexOutOfRange

/-- The indexed write `dst[j] = v` of a Go slice. -/
def setByte (dst : List Nat) (j v : Nat) : Except Err (List Nat) :=
  if j < dst.length then .ok (dst.set j v) else .error .indexOutOfRange

/-- The loop `for i := 0; i < len(r.BitsSrc); i += 4` of `CommonBitmapRecord.read`,
entered with the current `i`, `j` and destination, for at most `fuel`
iterations. -/
def repackLoop (src : List Nat) : Nat → Nat → Nat → List Nat → Except Err (List Nat)
  | 0, i, _, dst => if i < src.length then .error .outOfFuel else .ok dst
  | fuel + 1, i, j, dst =>
    if i < src.length then do
      let v1 ← getByte src (i + 1)
      let dst ← setByte dst j v1
      let v2 ← getByte src (i + 2)
      let dst ← setByte dst (j + 1) v2
      let v3 ← getByte src (i + 3)
      let dst ← setByte dst (j + 2) v3
      repackLoop src fuel (i + 4) (j + 3) dst
    else .ok dst

/-- Lines 130-137 of `CommonBitmapRecord.read`: `BitsSrc24` is made with
`(cbBitsSrc*3)/4` zero bytes (`uint32` arithmetic) and filled by the loop.
The loop advances `i` by 4 from 0, so `len(BitsSrc)` iterations always
suffice. -/
def repack (cbBitsSrc : Nat) (BitsSrc : List Nat) : Except Err (List Nat) :=
  repackLoop BitsSrc BitsSrc.length 0 0 (List.replicate (cbBitsSrc * 3 % 2 ^ 32 / 4) 0)

/-- The method `(r *CommonBitmapRecord).read`, the unified reader of EMR_BITBLT and
EMR_STRETCHBLT. `rec` is the `Record` the caller has stored in `r`; every
other field of `r` is zero on entry. `bmiColors` is the number of bytes that
`w32.BITMAPINFO` holds after its header. -/
def CommonBitmapRecord.read (bmiColors : Nat) (rec : Record) : Dec CommonBitmapRecord := do
  let Bounds ← readRECT
  let xDest ← readInt32
  let yDest ← readInt32
  let cxDest ← readInt32
  let cyDest ← readInt32
  let BitBltRasterOperation ← readUint32
  let xSrc ← readInt32
  let ySrc ← readInt32
  let XformSrc ← readXFORM
  let BkColorSrc ← readUint32
  let UsageSrc ← readUint32
  let offBmiSrc ← readUint32
  let cbBmiSrc ← readUint32
  let offBitsSrc ← readUint32
  let cbBitsSrc ← readUint32
  let src ← (if rec.Typ = EMR_STRETCHBLT then do
      let cx ← readInt32
      let cy ← readInt32
      pure (cx, cy)
    else pure (0, 0))
  let r : CommonBitmapRecord :=
    { toRecord := rec, Bounds := Bounds, xDest := xDest, yDest := yDest, cxDest := cxDest,
      cyDest := cyDest, BitBltRasterOperation := BitBltRasterOperation, xSrc := xSrc,
      ySrc := ySrc, XformSrc := XformSrc, BkColorSrc := BkColorSrc, UsageSrc := UsageSrc,
      offBmiSrc := offBmiSrc, cbBmiSrc := cbBmiSrc, offBitsSrc := offBitsSrc,
      cbBitsSrc := cbBitsSrc, cxSrc := src.1, cySrc := src.2,
      BmiSrc := BITMAPINFO.zero bmiColors, BitsSrc := [], BitsSrc24 := [] }
  -- no bitmap data
  if offBmiSrc = 0 then pure r
  else do
    -- defined record size to skip UndefinedSpace
    let rsize : Nat :=
      if rec.Typ = EMR_STRETCHBLT then 108 else if rec.Typ = EMR_BITBLT then 100 else 0
    -- skipping UndefinedSpace1
    Seek (subU32 offBmiSrc rsize)
    let BmiSrc ← readBITMAPINFO bmiColors
    -- skipping UndefinedSpace2
    Seek (subU32 (subU32 offBitsSrc rsize) BmiSrc.BiSize)
    let BitsSrc ← Read cbBitsSrc
    let BitsSrc24 ← (repack cbBitsSrc BitsSrc : Except Err (List Nat))
    pure { r with BmiSrc := BmiSrc, BitsSrc := BitsSrc, BitsSrc24 := BitsSrc24 }

/-- The function `readBitbltRecord`. -/
def readBitbltRecord (bmiColors : Nat) (size : Nat) : Dec CommonBitmapRecord :=
  CommonBitmapRecord.read bmiColors { Typ := EMR_BITBLT, Size := size }

/-- The function `readStretchbltRecord`. -/
def readStretchbltRecord (bmiColors : Nat) (size : Nat) : Dec CommonBitmapRecord :=
  CommonBitmapRecord.read bmiColors { Typ := EMR_STRETCHBLT, Size := size }

/-- The function `readStretchdibitsRecord`. It reads only the header part of
`r.BmiSrc` (`&r.BmiSrc.BITMAPINFOHEADER`); the colour fields stay zero. -/
def readStretchdibitsRecord (bmiColors : Nat) (size : Nat) : Dec CommonBitmapRecord := do
  let Bounds ← readRECT
  let xDest ← readInt32
  let yDest ← readInt32
  let xSrc ← readInt32
  let ySrc ← readInt32
  let cxSrc ← readInt32
  let cySrc ← readInt32
  let offBmiSrc ← readUint32
  let cbBmiSrc ← readUint32
  let offBitsSrc ← readUint32
  let cbBitsSrc ← readUint32
  let UsageSrc ← readUint32
  let BitBltRasterOperation ← readUint32
  let cxDest ← readInt32
  let cyDest ← readInt32
  -- BitmapBuffer
  let sizeUndefinedSpace1 := subU32 offBmiSrc 80
  (if sizeUndefinedSpace1 > 0 then Seek sizeUndefinedSpace1 else pure () : Dec Unit)
  let hdr ← readBITMAPINFOHEADER
  let sizeUndefinedSpace2 := subU32 (subU32 offBitsSrc offBmiSrc) cbBmiSrc
  (if sizeUndefinedSpace2 > 0 then Seek sizeUndefinedSpace2 else pure () : Dec Unit)
  let BitsSrc ← Read cbBitsSrc
  pure
    { Typ := EMR_STRETCHDIBITS, Size := size, Bounds := Bounds, xDest := xDest, yDest := yDest,
      cxDest := cxDest, cyDest := cyDest, BitBltRasterOperation := BitBltRasterOperation,
      xSrc := xSrc, ySrc := ySrc, XformSrc := XFORM.zero, BkColorSrc := 0,
      UsageSrc := UsageSrc, offBmiSrc := offBmiSrc, cbBmiSrc := cbBmiSrc,
      offBitsSrc := offBitsSrc, cbBitsSrc := cbBitsSrc, cxSrc := cxSrc, cySrc := cySrc,
      BmiSrc := { toBITMAPINFOHEADER := hdr, BmiColors := List.replicate bmiColors 0 },
      BitsSrc := BitsSrc, BitsSrc24 := [] }

/-! ## The text payload (`objects.go`) -/

/-- Constant `surr1` of `unicode/utf16`. -/
def surr1 : Nat := 0xd800

/-- Constant `surr2` of `unicode/utf16`. -/
def surr2 : Nat := 0xdc00

/-- Constant `surr3` of `unicode/utf16`. -/
def surr3 : Nat := 0xe000

/-- Constant `surrSelf` of `unicode/utf16`. -/
def surrSelf : Nat := 0x10000

/-- Constant `replacementChar` of `unicode/utf16`. -/
def replacementChar : Nat := 0xFFFD

/-- The function `utf16.DecodeRune` on a high and a low surrogate. -/
def DecodeRune (r1 r2 : Nat) : Nat :=
  (((r1 - surr1) <<< 10) ||| (r2 - surr2)) + surrSelf

/-- The function `utf16.Decode`: the runes of a sequence of UTF-16 code units. A unit
outside the surrogate range is a rune; a high surrogate followed by a low
one makes one rune and both units are consumed; any other surrogate becomes
the replacement character. -/
def utf16Decode : List Nat → List Nat
  | [] => []
  | r :: rest =>
    if r < surr1 ∨ surr3 ≤ r then r :: utf16Decode rest
    else
      match rest with
      | [] => [replacementChar]
      | r2 :: rest2 =>
        if surr1 ≤ r ∧ r < surr2 ∧ surr2 ≤ r2 ∧ r2 < surr3 then
          DecodeRune r r2 :: utf16Decode rest2
        else replacementChar :: utf16Decode (r2 :: rest2)

/-- The struct `EmrText`. `OutputString` is kept as the sequence of runes of the Go
string `string(utf16.Decode(b))`; its length in characters is the length of
that sequence. -/
structure EmrText where
  Reference : POINT
  Chars : Nat
  offString : Nat
  Options : Nat
  Rectangle : RECT
  offDx : Nat
  OutputString : List Nat
  OutputDx : List Int
deriving DecidableEq, Repr

/-- The function `readEmrText(reader, offset)`. -/
def readEmrText (offset : Int) : Dec EmrText := do
  let Reference ← readPOINT
  let Chars ← readUint32
  let offString ← readUint32
  let Options ← readUint32
  let Rectangle ← readRECT
  let offDx ← readUint32
  -- UndefinedSpace1
  let len1 ← Len
  Seek ((offString : Int) - (offset - (len1 : Int)))
  let b ← readUint16s Chars
  -- UndefinedSpace2
  let len2 ← Len
  Seek ((offDx : Int) - (offset - (len2 : Int)))
  let OutputDx ← readInt32s Chars
  pure
    { Reference := Reference, Chars := Chars, offString := offString, Options := Options,
      Rectangle := Rectangle, offDx := offDx, OutputString := utf16Decode b,
      OutputDx := OutputDx }

/-! ## Container assembly (`file.go`) -/

/-- A decoded record as `ReadFile` tells them apart in its type switch: a
`*HeaderRecord`, an `*EofRecord`, or any other record. -/
inductive Recorder (H E O : Type) where
  | header (h : H)
  | eof (e : E)
  | other (o : O)
deriving DecidableEq, Repr

/-- Whether a record is a `*HeaderRecord`. -/
def Recorder.isHeader {H E O : Type} : Recorder H E O → Bool
  | .header _ => true
  | _ => false

/-- Whether a record is an `*EofRecord`. -/
def Recorder.isEof {H E O : Type} : Recorder H E O → Bool
  | .eof _ => true
  | _ => false

/-- The struct `EmfFile`; a nil `Header` or `Eof` is `none`. -/
structure EmfFile (H E O : Type) where
  Header : Option H
  Records : List (Recorder H E O)
  Eof : Option E
deriving DecidableEq, Repr

/-- The type switch in the body of the loop of `ReadFile`. -/
def ReadFile.store {H E O : Type} (file : EmfFile H E O) :
    Recorder H E O → EmfFile H E O
  | .header h => { file with Header := some h }
  | .eof e => { file with Eof := some e }
  | .other o => { file with Records := file.Records ++ [.other o] }

/-- The loop `for reader.Len() > 0` of `ReadFile`, run for at most `fuel` iterations.
`readRecord` is not among the sources and is an argument. -/
def ReadFile.loop {H E O : Type} (readRecord : Dec (Recorder H E O)) :
    Nat → EmfFile H E O → Reader → Except Err (EmfFile H E O)
  | 0, file, rd => if rd.Len > 0 then .error .outOfFuel else .ok file
  | fuel + 1, file, rd =>
    if rd.Len > 0 then
      match readRecord rd with
      | .error e => .error e
      | .ok (rec, rd1) => ReadFile.loop readRecord fuel (ReadFile.store file rec) rd1
    else .ok file

/-- The function `ReadFile(data)`, for at most `fuel` iterations of its loop. -/
def ReadFile {H E O : Type} (readRecord : Dec (Recorder H E O)) (fuel : Nat)
    (data : List Nat) : Except Err (EmfFile H E O) :=
  ReadFile.loop readRecord fuel { Header := none, Records := [], Eof := none } ⟨data, 0⟩

/-- Modelled from the spec: `readRecord` is not among the sources. It reads the 8-byte
common header (type tag, byte size) and leaves the cursor `byteSize` bytes
past the start of the record; the record is a header or an end-of-file
record by its tag, and an opaque record carrying tag and size otherwise. -/
def readRecord : Dec (Recorder Record Record Record) := do
  let ty ← readUint32
  let size ← readUint32
  Seek (subU32 size 8)
  if ty = EMR_HEADER then pure (.header ⟨ty, size⟩)
  else if ty = EMR_EOF then pure (.eof ⟨ty, size⟩)
  else pure (.other ⟨ty, size⟩)

/-- A run of `n` zero bytes. -/
def zeros (n : Nat) : List Nat := List.replicate n 0

/-! ## Definitions for the statements: positions reached by the readers, record
sequences, sample records and buffers -/

/-- Where `readStretchdibitsRecord` starts to read the pixel bytes, for a record that
starts at `p`: after the 80 bytes of fixed fields, the first skip, the 40
bytes of the header and the second skip. -/
def stretchdibitsPixelPos (p offBmiSrc cbBmiSrc offBitsSrc : Nat) : Nat :=
  p + 80 + subU32 offBmiSrc 80 + 40 + subU32 (subU32 offBitsSrc offBmiSrc) cbBmiSrc

/-- Length of the fixed fields (common header included) that `CommonBitmapRecord.read`
has consumed when it tests `offBmiSrc`. -/
def bitmapFixedLen (ty : Nat) : Nat := if ty = EMR_STRETCHBLT then 108 else 100

/-- The value of `rsize` in `CommonBitmapRecord.read`. -/
def bitmapRsize (ty : Nat) : Nat :=
  if ty = EMR_STRETCHBLT then 108 else if ty = EMR_BITBLT then 100 else 0

/-- Where `CommonBitmapRecord.read` starts to read the bitmap header, for a record that
starts at `p`: after the fixed fields and the first seek. -/
def bitmapHeaderPos (p ty offBmiSrc : Nat) : Nat :=
  p + bitmapFixedLen ty + subU32 offBmiSrc (bitmapRsize ty)

/-- Where `CommonBitmapRecord.read` starts to read the pixel bytes: after the bitmap
header of `40 + c` bytes and the second seek. -/
def bitmapPixelPos (p ty c offBmiSrc offBitsSrc biSize : Nat) : Nat :=
  bitmapHeaderPos p ty offBmiSrc + (40 + c) +
    subU32 (subU32 offBitsSrc (bitmapRsize ty)) biSize

/-- An EMR_STRETCHDIBITS record of 128 bytes at the start of the buffer: the fixed
fields with offBmiSrc = 80, cbBmiSrc = 44, offBitsSrc = 124, cbBitsSrc = 4;
at 80 the 40-byte bitmap header, at 120 the four further bytes 1, 2, 3, 4 of
the bitmap-header section, at 124 the pixel bytes 5, 6, 7, 8. -/
def stretchdibitsWideHeader : List Nat :=
  [81, 0, 0, 0, 128, 0, 0, 0] ++ zeros 40 ++
    [80, 0, 0, 0, 44, 0, 0, 0, 124, 0, 0, 0, 4, 0, 0, 0] ++ zeros 16 ++
    [40, 0, 0, 0] ++ zeros 36 ++ [1, 2, 3, 4] ++ [5, 6, 7, 8]

/-- An EMR_BITBLT record of 152 bytes at the start of the buffer: the 100 bytes of
fixed fields with offBmiSrc = 104, cbBmiSrc = 40, offBitsSrc = 144,
cbBitsSrc = 4; four bytes of undefined space at 100; at 104 the 40-byte bitmap
header (BiSize = 40); at 144 the pixel bytes 1, 2, 3, 4; at 148 four more
bytes 5, 6, 7, 8. -/
def bitbltWithGap : List Nat :=
  [76, 0, 0, 0, 152, 0, 0, 0] ++ zeros 76 ++
    [104, 0, 0, 0, 40, 0, 0, 0, 144, 0, 0, 0, 4, 0, 0, 0] ++ zeros 4 ++
    [40, 0, 0, 0] ++ zeros 36 ++ [1, 2, 3, 4] ++ [5, 6, 7, 8]

/-- An EMR_BITBLT record without bitmap (offBmiSrc = 0) whose header declares 104
bytes: the 100 bytes of fixed fields and four bytes of padding. -/
def bitbltNoBitmapPadded : List Nat :=
  [76, 0, 0, 0, 104, 0, 0, 0] ++ zeros 96

/-- An EMR_STRETCHDIBITS record whose header declares 132 bytes: offBmiSrc = 80,
cbBmiSrc = 40, offBitsSrc = 120, cbBitsSrc = 4, the pixel bytes 1, 2, 3, 4 at
120 and eight bytes of padding after them. -/
def stretchdibitsPadded : List Nat :=
  [81, 0, 0, 0, 132, 0, 0, 0] ++ zeros 40 ++
    [80, 0, 0, 0, 40, 0, 0, 0, 120, 0, 0, 0, 4, 0, 0, 0] ++ zeros 16 ++
    [40, 0, 0, 0] ++ zeros 36 ++ [1, 2, 3, 4] ++ zeros 8

/-- The record that `readStretchdibitsRecord` decodes from `stretchdibitsPadded`. -/
def stretchdibitsPaddedRecord : CommonBitmapRecord :=
  { Typ := EMR_STRETCHDIBITS, Size := 132, Bounds := ⟨0, 0, 0, 0⟩, xDest := 0, yDest := 0,
    cxDest := 0, cyDest := 0, BitBltRasterOperation := 0, xSrc := 0, ySrc := 0,
    XformSrc := XFORM.zero, BkColorSrc := 0, UsageSrc := 0, offBmiSrc := 80, cbBmiSrc := 40,
    offBitsSrc := 120, cbBitsSrc := 4, cxSrc := 0, cySrc := 0,
    BmiSrc := { toBITMAPINFOHEADER := ⟨40, 0, 0, 0, 0, 0, 0, 0, 0, 0, 0⟩, BmiColors := [] },
    BitsSrc := [1, 2, 3, 4], BitsSrc24 := [] }

/-- The record that `readBitbltRecord` decodes from `bitbltNoBitmapPadded`. -/
def bitbltNoBitmapPaddedRecord : CommonBitmapRecord :=
  { Typ := EMR_BITBLT, Size := 104, Bounds := ⟨0, 0, 0, 0⟩, xDest := 0, yDest := 0,
    cxDest := 0, cyDest := 0, BitBltRasterOperation := 0, xSrc := 0, ySrc := 0,
    XformSrc := XFORM.zero, BkColorSrc := 0, UsageSrc := 0, offBmiSrc := 0, cbBmiSrc := 0,
    offBitsSrc := 0, cbBitsSrc := 0, cxSrc := 0, cySrc := 0,
    BmiSrc := BITMAPINFO.zero 0, BitsSrc := [], BitsSrc24 := [] }

/-- The record that `readBitbltRecord` decodes from `bitbltTwoPixels`. -/
def bitbltTwoPixelsRecord : CommonBitmapRecord :=
  { Typ := EMR_BITBLT, Size := 148, Bounds := ⟨0, 0, 0, 0⟩, xDest := 0, yDest := 0,
    cxDest := 0, cyDest := 0, BitBltRasterOperation := 0, xSrc := 0, ySrc := 0,
    XformSrc := XFORM.zero, BkColorSrc := 0, UsageSrc := 0, offBmiSrc := 100, cbBmiSrc := 40,
    offBitsSrc := 140, cbBitsSrc := 8, cxSrc := 0, cySrc := 0,
    BmiSrc := { toBITMAPINFOHEADER := ⟨40, 2, 1, 1, 32, 0, 0, 0, 0, 0, 0⟩, BmiColors := [] },
    BitsSrc := [10, 20, 30, 255, 40, 50, 60, 255], BitsSrc24 := [20, 30, 255, 50, 60, 255] }

/-- An EMR_STRETCHDIBITS record whose header declares 124 bytes (offBmiSrc = 80,
cbBmiSrc = 40, offBitsSrc = 120, cbBitsSrc = 4) in a buffer of 121 bytes: it
ends after the first of the four pixel bytes. -/
def stretchdibitsTruncated : List Nat :=
  [81, 0, 0, 0, 124, 0, 0, 0] ++ zeros 40 ++
    [80, 0, 0, 0, 40, 0, 0, 0, 120, 0, 0, 0, 4, 0, 0, 0] ++ zeros 16 ++
    [40, 0, 0, 0] ++ zeros 36 ++ [5]

/-- An EMR_BITBLT record whose header declares 144 bytes (offBmiSrc = 100,
cbBmiSrc = 40, offBitsSrc = 140, cbBitsSrc = 4) in a buffer of 141 bytes: it
ends after the first of the four pixel bytes. -/
def bitbltTruncated : List Nat :=
  [76, 0, 0, 0, 144, 0, 0, 0] ++ zeros 76 ++
    [100, 0, 0, 0, 40, 0, 0, 0, 140, 0, 0, 0, 4, 0, 0, 0] ++
    [40, 0, 0, 0] ++ zeros 36 ++ [5]

/-- An EMR_BITBLT record of 148 bytes with a 32-bit bitmap of two pixels: offBmiSrc = 100,
cbBmiSrc = 40, offBitsSrc = 140, cbBitsSrc = 8, BiBitCount = 32 and the pixel
bytes 10, 20, 30, 255, 40, 50, 60, 255. -/
def bitbltTwoPixels : List Nat :=
  [76, 0, 0, 0, 148, 0, 0, 0] ++ zeros 76 ++
    [100, 0, 0, 0, 40, 0, 0, 0, 140, 0, 0, 0, 8, 0, 0, 0] ++
    [40, 0, 0, 0, 2, 0, 0, 0, 1, 0, 0, 0, 1, 0, 32, 0] ++ zeros 24 ++
    [10, 20, 30, 255, 40, 50, 60, 255]

/-- What the loop of `CommonBitmapRecord.read` makes of a source of whole 4-byte
pixels: of every pixel the second, third and fourth byte, in this order. -/
def lastThreeOfFour : List Nat → List Nat
  | _ :: b :: c :: d :: rest => b :: c :: d :: lastThreeOfFour rest
  | _ => []

/-- A text record at the start of the buffer whose advance array lies before its
string: the text payload at 36 with Chars = 2, offString = 88, offDx = 76; the
advances 7 and 9 at 76, four bytes of undefined space at 84, the code units
72 and 105 at 88. -/
def textDxBeforeString : List Nat :=
  [84, 0, 0, 0, 92, 0, 0, 0] ++ zeros 28 ++ zeros 8 ++ [2, 0, 0, 0] ++ [88, 0, 0, 0] ++
    zeros 4 ++ zeros 16 ++ [76, 0, 0, 0] ++ [7, 0, 0, 0, 9, 0, 0, 0] ++ zeros 4 ++
    [72, 0, 105, 0]

/-- The payload that `readEmrText` decodes from `textDxBeforeString`. -/
def textDxBeforeStringPayload : EmrText :=
  { Reference := ⟨0, 0⟩, Chars := 2, offString := 88, Options := 0, Rectangle := ⟨0, 0, 0, 0⟩,
    offDx := 76, OutputString := [72, 105], OutputDx := [7, 9] }

/-- A text record of 80 bytes at the start of the buffer with one character and no
advance array: the payload at 36 with Chars = 1, offString = 76, offDx = 0, the
code unit 65 at 76. -/
def textNoDx : List Nat :=
  [84, 0, 0, 0, 80, 0, 0, 0] ++ zeros 28 ++ zeros 8 ++ [1, 0, 0, 0] ++ [76, 0, 0, 0] ++
    zeros 4 ++ zeros 16 ++ [0, 0, 0, 0] ++ [65, 0, 0, 0]

/-- A buffer of 100 bytes that starts with a text record whose header declares 84
bytes: the payload at 36 with Chars = 2, offString = 82, offDx = 76, so that the
string section (82 to 86) runs two bytes past the end of the record; at 84 the
next record follows. -/
def textPastRecord : List Nat :=
  [84, 0, 0, 0, 84, 0, 0, 0] ++ zeros 28 ++ zeros 8 ++ [2, 0, 0, 0] ++ [82, 0, 0, 0] ++
    zeros 4 ++ zeros 16 ++ [76, 0, 0, 0] ++ [7, 0, 0, 0, 9, 0, 0, 0] ++
    [14, 0, 0, 0, 16, 0, 0, 0] ++ zeros 8

/-- A buffer of 84 bytes with a text record whose advance section (80 to 88) runs
past the end of the buffer: Chars = 2, offString = 76, offDx = 80. -/
def textPastBuffer : List Nat :=
  [84, 0, 0, 0, 88, 0, 0, 0] ++ zeros 28 ++ zeros 8 ++ [2, 0, 0, 0] ++ [76, 0, 0, 0] ++
    zeros 4 ++ zeros 16 ++ [80, 0, 0, 0] ++ [72, 0, 105, 0] ++ [7, 0, 0, 0]

/-- Whether a sequence of UTF-16 code units holds a surrogate pair: a unit of
D800..DBFF directly followed by a unit of DC00..DFFF. -/
def hasSurrogatePair : List Nat → Bool
  | [] => false
  | a :: rest =>
    match rest with
    | [] => false
    | b :: _ => decide (surr1 ≤ a ∧ a < surr2 ∧ surr2 ≤ b ∧ b < surr3) || hasSurrogatePair rest

/-- A text record of 88 bytes whose string is one surrogate pair: the payload at 36 with
Chars = 2, offString = 76, offDx = 80; the code units D83D and DE00 at 76, the
advances 7 and 9 at 80. -/
def textSurrogatePair : List Nat :=
  [84, 0, 0, 0, 88, 0, 0, 0] ++ zeros 28 ++ zeros 8 ++ [2, 0, 0, 0] ++ [76, 0, 0, 0] ++
    zeros 4 ++ zeros 16 ++ [80, 0, 0, 0] ++ [0x3D, 0xD8, 0x00, 0xDE] ++
    [7, 0, 0, 0, 9, 0, 0, 0]

/-- The payload that `readEmrText` decodes from `textSurrogatePair`. -/
def textSurrogatePairPayload : EmrText :=
  { Reference := ⟨0, 0⟩, Chars := 2, offString := 76, Options := 0, Rectangle := ⟨0, 0, 0, 0⟩,
    offDx := 80, OutputString := [0x1F600], OutputDx := [7, 9] }

/-- The record sequence of a buffer: what `readRecord` returns when it is called again
and again, from the cursor on, until no byte is left (at most `fuel` calls).
Nothing in it looks at the kind of a record. -/
def decodeAll {H E O : Type} (readRecord : Dec (Recorder H E O)) :
    Nat → Reader → Except Err (List (Recorder H E O))
  | 0, rd => if rd.Len > 0 then .error .outOfFuel else .ok []
  | fuel + 1, rd =>
    if rd.Len > 0 then
      match readRecord rd with
      | .error e => .error e
      | .ok (rec, rd1) =>
        match decodeAll readRecord fuel rd1 with
        | .error e => .error e
        | .ok recs => .ok (rec :: recs)
    else .ok []

/-- Whether `ReadFile` appends a record to `Records`: it is neither a header nor an
end-of-file record. -/
def Recorder.isGeneric {H E O : Type} (x : Recorder H E O) : Bool :=
  !x.isHeader && !x.isEof

/-- A buffer of three records: a header record of 88 bytes, an end-of-file record of
20 bytes, and after it a record of type 37 and 12 bytes. -/
def fileRecordAfterEof : List Nat :=
  ([1, 0, 0, 0, 88, 0, 0, 0] ++ zeros 80) ++
    ([14, 0, 0, 0, 20, 0, 0, 0] ++ zeros 8 ++ [20, 0, 0, 0]) ++
    [37, 0, 0, 0, 12, 0, 0, 0, 1, 0, 0, 0]

/-- The file that `ReadFile` returns for `fileRecordAfterEof`. -/
def fileRecordAfterEofResult : EmfFile Record Record Record :=
  { Header := some ⟨1, 88⟩, Records := [.other ⟨37, 12⟩], Eof := some ⟨14, 20⟩ }

/-! ## The type `float64`

The values of IEEE 754 binary64 and the operations of Go on them that `file.go`
and the transformation matrix of draw2d use: conversion from an integer,
negation, sum, product and quotient. Every operation gives the exact result
rounded to the nearest value, ties to the even mantissa, with the infinities,
the two zeros and NaN of the standard; each operation is rounded on its own
(no fused multiply-add). The NaNs are not told apart. -/

/-- A value of the type `float64`: a finite value other than negative zero, given by the
rational number it is; negative zero; an infinity with its sign (`true` for the
negative one); or a NaN. -/
inductive float64 where
  | fin (q : ℚ)
  | negZero
  | inf (neg : Bool)
  | nan
deriving DecidableEq, Repr

/-- The power of two with the exponent `p`, as a rational number. -/
def pow2 (p : Int) : ℚ :=
  if 0 ≤ p then ((2 ^ p.toNat : Nat) : ℚ) else 1 / ((2 ^ (-p).toNat : Nat) : ℚ)

/-- The exponent of the greatest power of two that is at most the positive rational
number `a`. -/
def ilog2 (a : ℚ) : Int :=
  let k : Int := (Nat.log2 a.num.natAbs : Int) - (Nat.log2 a.den : Int)
  if pow2 k ≤ a then k else k - 1

/-- The integer nearest to `m`; of two nearest integers, the even one. -/
def roundHalfEven (m : ℚ) : Int :=
  let fl := ⌊m⌋
  let fr := m - (fl : ℚ)
  if fr < 1 / 2 then fl else if 1 / 2 < fr then fl + 1 else if fl % 2 = 0 then fl else fl + 1

/-- The positive rational number `a` rounded to a mantissa of 53 bits, or to a multiple
of 2^-1074 where `a` lies below the normal range. The result may be zero, and
it may be 2^1024, which no `float64` holds. -/
def roundMag (a : ℚ) : ℚ :=
  let p := max (ilog2 a) (-1022) - 52
  (roundHalfEven (a / pow2 p) : ℚ) * pow2 p

/-- The zero with the sign `neg`. -/
def float64.zero (neg : Bool) : float64 := if neg then .negZero else .fin 0

/-- The `float64` nearest to the number with the sign `neg` and the magnitude `a`, which
is not negative. -/
def float64.round (neg : Bool) (a : ℚ) : float64 :=
  if a = 0 then float64.zero neg
  else
    let r := roundMag a
    if pow2 1024 ≤ r then .inf neg
    else if r = 0 then float64.zero neg
    else .fin (if neg then -r else r)

/-- The conversion `float64(i)` of an integer. -/
def float64.ofInt (i : Int) : float64 := float64.round (decide (i < 0)) (i.natAbs : ℚ)

/-- Whether the value is a NaN. -/
def float64.isNaN : float64 → Bool
  | .nan => true
  | _ => false

/-- Whether the value is an infinity. -/
def float64.isInf : float64 → Bool
  | .inf _ => true
  | _ => false

/-- Whether the value is one of the two zeros. -/
def float64.isZero : float64 → Bool
  | .fin q => decide (q = 0)
  | .negZero => true
  | _ => false

/-- The sign bit of the value; that of a NaN plays no part. -/
def float64.sign : float64 → Bool
  | .fin q => decide (q < 0)
  | .negZero => true
  | .inf b => b
  | .nan => false

/-- The number a finite value is; 0 for the others. -/
def float64.val : float64 → ℚ
  | .fin q => q
  | _ => 0

/-- The operation `-x`. -/
def float64.neg : float64 → float64
  | .fin q => if q = 0 then .negZero else .fin (-q)
  | .negZero => .fin 0
  | .inf b => .inf (!b)
  | .nan => .nan

/-- The operation `x * y`. -/
def float64.mul (x y : float64) : float64 :=
  if x.isNaN ∨ y.isNaN then .nan
  else if x.isInf ∨ y.isInf then
    (if x.isZero ∨ y.isZero then .nan else .inf (xor x.sign y.sign))
  else float64.round (xor x.sign y.sign) (|x.val| * |y.val|)

/-- The operation `x / y`. -/
def float64.div (x y : float64) : float64 :=
  if x.isNaN ∨ y.isNaN then .nan
  else if x.isInf then (if y.isInf then .nan else .inf (xor x.sign y.sign))
  else if y.isInf then float64.zero (xor x.sign y.sign)
  else if y.isZero then (if x.isZero then .nan else .inf (xor x.sign y.sign))
  else float64.round (xor x.sign y.sign) (|x.val| / |y.val|)

/-- The operation `x + y`. A sum that is exactly zero is the positive zero unless both
terms are negative zeros. -/
def float64.add (x y : float64) : float64 :=
  if x.isNaN ∨ y.isNaN then .nan
  else if x.isInf then (if y.isInf ∧ x.sign ≠ y.sign then .nan else x)
  else if y.isInf then y
  else if x.val + y.val = 0 then float64.zero (x.sign && y.sign)
  else float64.round (decide (x.val + y.val < 0)) |x.val + y.val|

/-! ## Rendering (`file.go`) -/

/-- Modelled from the spec: the method `Width` of the header's bounds rectangle, whose
type is declared in a file that is not among the sources: right - left. -/
def RECT.Width (r : RECT) : Int := r.Right - r.Left

/-- Modelled from the spec: the method `Height` of the header's bounds rectangle (see
`RECT.Width`): bottom - top. -/
def RECT.Height (r : RECT) : Int := r.Bottom - r.Top

/-- Modelled from the spec: the field `Original` of `HeaderRecord`, absent from the
sources; `Draw` reads its `Bounds`. -/
structure HeaderOriginal where
  Bounds : RECT
deriving DecidableEq, Repr

/-- Modelled from the spec: `HeaderRecord`, absent from the sources. -/
structure HeaderRecord extends Record where
  Original : HeaderOriginal
deriving DecidableEq, Repr

/-- Modelled from the spec: `PointL`, absent from the sources; two 32-bit integers. -/
structure PointL where
  X : Int
  Y : Int
deriving DecidableEq, Repr

/-- Modelled from the spec: `SizeL`, absent from the sources; two 32-bit integers. -/
structure SizeL where
  Cx : Int
  Cy : Int
deriving DecidableEq, Repr

/-- Modelled from the spec: the mapping-mode constants are declared in a file that
is not among the sources; these are the values of the format. Only that
they differ from one another is used. -/
def MM_TEXT : Nat := 1

/-- Modelled from the spec: the isotropic mapping mode (see `MM_TEXT`). -/
def MM_ISOTROPIC : Nat := 7

/-- Modelled from the spec: the anisotropic mapping mode (see `MM_TEXT`). -/
def MM_ANISOTROPIC : Nat := 8

/-- The type `draw2d.Matrix`, an affine transformation `[6]float64`. -/
structure Matrix where
  m0 : float64
  m1 : float64
  m2 : float64
  m3 : float64
  m4 : float64
  m5 : float64
deriving DecidableEq

/-- The function `draw2d.NewIdentityMatrix`: `Matrix{1, 0, 0, 1, 0, 0}`. -/
def Matrix.identity : Matrix := ⟨.fin 1, .fin 0, .fin 0, .fin 1, .fin 0, .fin 0⟩

/-- The method `(*draw2d.Matrix).Scale`: `tr[0] = sx * tr[0]`, `tr[1] = sx * tr[1]`,
`tr[2] = sy * tr[2]`, `tr[3] = sy * tr[3]`. -/
def Matrix.Scale (tr : Matrix) (sx sy : float64) : Matrix :=
  { tr with m0 := sx.mul tr.m0, m1 := sx.mul tr.m1, m2 := sy.mul tr.m2, m3 := sy.mul tr.m3 }

/-- The method `(*draw2d.Matrix).Translate`: `tr[4] = tx*tr[0] + ty*tr[2] + tr[4]`,
`tr[5] = ty*tr[3] + tx*tr[1] + tr[5]`. -/
def Matrix.Translate (tr : Matrix) (tx ty : float64) : Matrix :=
  { tr with m4 := ((tx.mul tr.m0).add (ty.mul tr.m2)).add tr.m4,
            m5 := ((ty.mul tr.m3).add (tx.mul tr.m1)).add tr.m5 }

/-- The method `draw2d.Matrix.TransformPoint`: `x*tr[0] + y*tr[2] + tr[4]` and
`x*tr[1] + y*tr[3] + tr[5]`. -/
def Matrix.TransformPoint (tr : Matrix) (x y : float64) : float64 × float64 :=
  (((x.mul tr.m0).add (y.mul tr.m2)).add tr.m4, ((x.mul tr.m1).add (y.mul tr.m3)).add tr.m5)

/-- The type `image.Rectangle`. -/
structure Rectangle where
  MinX : Int
  MinY : Int
  MaxX : Int
  MaxY : Int
deriving DecidableEq, Repr

/-- The method `image.Rectangle.Dx`: the width. -/
def Rectangle.Dx (r : Rectangle) : Int := r.MaxX - r.MinX

/-- The method `image.Rectangle.Dy`: the height. -/
def Rectangle.Dy (r : Rectangle) : Int := r.MaxY - r.MinY

/-- The function `image.Rect`: the rectangle of two corners, with minimum and maximum
swapped where necessary so that it is well-formed. -/
def imageRect (x0 y0 x1 y1 : Int) : Rectangle :=
  { MinX := if x0 > x1 then x1 else x0
    MinY := if y0 > y1 then y1 else y0
    MaxX := if x0 > x1 then x0 else x1
    MaxY := if y0 > y1 then y0 else y1 }

/-- The function `image.NewRGBA`: an image is kept as its bounds. It panics when the
length `4 * Dx * Dy` of the pixel buffer is negative or does not fit an `int`.
The limits of the allocator are not modelled. -/
def NewRGBA (r : Rectangle) : Except Err Rectangle :=
  if r.Dx < 0 ∨ r.Dy < 0 ∨ 2 ^ 63 ≤ 4 * r.Dx * r.Dy then .error .hugeImage else .ok r

/-- The struct `context`. `gc` is the state of the embedded `draw2dimg.GraphicContext`
other than its current transformation, which is `Tr`; `img` is the raster,
kept as its bounds; `objects` holds the handles of the object table. -/
structure context (G : Type) where
  gc : G
  Tr : Matrix
  img : Rectangle
  objects : List Nat
  w : Int
  h : Int
  wo : Option PointL
  vo : Option PointL
  we : Option SizeL
  ve : Option SizeL
  mm : Nat

/-- The method `Scale` of the embedded graphic context. -/
def context.Scale {G : Type} (ctx : context G) (sx sy : float64) : context G :=
  { ctx with Tr := ctx.Tr.Scale sx sy }

/-- The method `Translate` of the embedded graphic context. -/
def context.Translate {G : Type} (ctx : context G) (tx ty : float64) : context G :=
  { ctx with Tr := ctx.Tr.Translate tx ty }

/-- The method `(f *EmfFile).initContext(w, h)`. `newGC` stands for
`draw2dimg.NewGraphicContext`, whose context starts with the identity
transformation. The font settings it installs are global and not part of
the context. -/
def initContext {G : Type} (newGC : Rectangle → G) (w h : Int) : Except Err (context G) := do
  let img ← NewRGBA (imageRect 0 0 w h)
  pure
    { gc := newGC img, Tr := Matrix.identity, img := img, w := w, h := h, mm := MM_TEXT,
      objects := [], wo := none, vo := none, we := none, ve := none }

/-- The method `(ctx context).applyTransformation`. The receiver is a copy, but the
transformation it scales is reached through a pointer shared with the
original, so the effect is on the context. -/
def context.applyTransformation {G : Type} (ctx : context G) : context G :=
  match ctx.we, ctx.ve with
  | some we, some ve =>
    if ctx.mm = MM_ISOTROPIC ∨ ctx.mm = MM_ANISOTROPIC then
      let sx := (float64.ofInt ve.Cx).div (float64.ofInt we.Cx)
      let sy := (float64.ofInt ve.Cy).div (float64.ofInt we.Cy)
      ctx.Scale sx sy
    else
      let sx := (float64.ofInt ctx.w).div (float64.ofInt we.Cx)
      let sy := (float64.ofInt ctx.h).div (float64.ofInt we.Cy)
      ctx.Scale sx sy
  | _, _ => ctx

/-- Lines 101 to 111 of `(f *EmfFile).Draw`: the context in which the first record is
drawn. A nil `Header` is a nil pointer dereference. -/
def EmfFile.drawSetup {G E O : Type} (newGC : Rectangle → G)
    (f : EmfFile HeaderRecord E O) : Except Err (context G) :=
  match f.Header with
  | none => .error .nilDereference
  | some hdr => do
    let bounds := hdr.Original.Bounds
    -- inclusive-inclusive bounds
    let width := bounds.Width + 1
    let height := bounds.Height + 1
    let ctx ← initContext newGC width height
    if bounds.Left ≠ 0 ∨ bounds.Top ≠ 0 then
      pure (ctx.Translate (float64.ofInt bounds.Left).neg (float64.ofInt bounds.Top).neg)
    else pure ctx

/-- The loop `for _, rec := range f.Records { rec.Draw(ctx) }` of `Draw`, from the
records still to draw. `draw` stands for the `Draw` methods of the record
types, most of which are not among the sources. -/
def EmfFile.drawLoop {G R : Type} (draw : R → context G → context G) :
    List R → context G → context G
  | [], ctx => ctx
  | rec :: rest, ctx => EmfFile.drawLoop draw rest (draw rec ctx)

/-- The method `(f *EmfFile).Draw`; the result is the context whose `img` it returns. -/
def EmfFile.Draw {G E O : Type} (newGC : Rectangle → G)
    (draw : Recorder HeaderRecord E O → context G → context G)
    (f : EmfFile HeaderRecord E O) : Except Err (context G) := do
  let ctx ← EmfFile.drawSetup newGC f
  pure (EmfFile.drawLoop draw f.Records ctx)

/-- The records of a buffer, one after another: from the cursor `rd`, `readRecord`
returns the records `recs` in turn, each called with bytes left, and leaves
the cursor at `rd2`. -/
inductive Decodes {H E O : Type} (readRecord : Dec (Recorder H E O)) :
    Reader → List (Recorder H E O) → Reader → Prop where
  | done (rd : Reader) : Decodes readRecord rd [] rd
  | next (rd rd1 rd2 : Reader) (rec : Recorder H E O) (recs : List (Recorder H E O)) :
      rd.Len > 0 → readRecord rd = .ok (rec, rd1) → Decodes readRecord rd1 recs rd2 →
      Decodes readRecord rd (rec :: recs) rd2

/-- The header of a record, if it is a `*HeaderRecord`. -/
def Recorder.header? {H E O : Type} : Recorder H E O → Option H
  | .header h => some h
  | _ => none

/-- The end-of-file record of a record, if it is an `*EofRecord`. -/
def Recorder.eof? {H E O : Type} : Recorder H E O → Option E
  | .eof e => some e
  | _ => none

/-- Modelled from the spec: `readRecord` with the header record decoded. As
`readRecord`, it reads the 8-byte common header and leaves the cursor
`byteSize` bytes past the start of the record; the bounds rectangle of a header
record is the 16 bytes that follow the common header. -/
def readRecordHeader : Dec (Recorder HeaderRecord Record Record) := do
  let ty ← readUint32
  let size ← readUint32
  if ty = EMR_HEADER then do
    let bounds ← readRECT
    Seek (subU32 size 24)
    pure (.header { Typ := ty, Size := size, Original := ⟨bounds⟩ })
  else do
    Seek (subU32 size 8)
    if ty = EMR_EOF then pure (.eof ⟨ty, size⟩) else pure (.other ⟨ty, size⟩)

/-- A buffer of three records: a header record of 88 bytes, a second header record of
100 bytes, and an end-of-file record of 20 bytes. -/
def fileTwoHeaders : List Nat :=
  ([1, 0, 0, 0, 88, 0, 0, 0] ++ zeros 80) ++ ([1, 0, 0, 0, 100, 0, 0, 0] ++ zeros 92) ++
    ([14, 0, 0, 0, 20, 0, 0, 0] ++ zeros 8 ++ [20, 0, 0, 0])

/-- The file that `ReadFile` returns for `fileTwoHeaders`. -/
def fileTwoHeadersResult : EmfFile Record Record Record :=
  { Header := some ⟨1, 100⟩, Records := [], Eof := some ⟨14, 20⟩ }

/-- A buffer that holds a header record of 88 bytes followed by four bytes, too few
for the common header of a further record. -/
def fileTruncatedSecond : List Nat :=
  ([1, 0, 0, 0, 88, 0, 0, 0] ++ zeros 80) ++ [37, 0, 0, 0]

/-- A buffer that holds one record of type 37 and 12 bytes, and neither a header nor
an end-of-file record. -/
def fileOnlyGeneric : List Nat := [37, 0, 0, 0, 12, 0, 0, 0, 1, 0, 0, 0]

/-- A buffer of three records and no header record: a record of type 37, a record of
type 39, and an end-of-file record. -/
def fileNoHeader : List Nat :=
  [37, 0, 0, 0, 12, 0, 0, 0, 1, 0, 0, 0] ++ [39, 0, 0, 0, 12, 0, 0, 0, 2, 0, 0, 0] ++
    ([14, 0, 0, 0, 20, 0, 0, 0] ++ zeros 8 ++ [20, 0, 0, 0])

/-- The file that `ReadFile` returns for `fileNoHeader`. -/
def fileNoHeaderResult : EmfFile HeaderRecord Record Record :=
  { Header := none, Records := [.other ⟨37, 12⟩, .other ⟨39, 12⟩], Eof := some ⟨14, 20⟩ }

/-- A `Draw` method that does nothing but note the record it is applied to, at the
end of the list the context carries. -/
def noteRecord {R : Type} (rec : R) (ctx : context (List R)) : context (List R) :=
  { ctx with gc := ctx.gc ++ [rec] }

/-- A buffer of four records: a header record of 88 bytes with the bounds
(0, 0, 99, 49), a record of type 37, an end-of-file record, and a record of
type 39. -/
def fileDrawOrder : List Nat :=
  ([1, 0, 0, 0, 88, 0, 0, 0] ++ [0, 0, 0, 0, 0, 0, 0, 0, 99, 0, 0, 0, 49, 0, 0, 0] ++ zeros 64) ++
    [37, 0, 0, 0, 12, 0, 0, 0, 1, 0, 0, 0] ++
    ([14, 0, 0, 0, 20, 0, 0, 0] ++ zeros 8 ++ [20, 0, 0, 0]) ++
    [39, 0, 0, 0, 12, 0, 0, 0, 2, 0, 0, 0]

/-- The file that `ReadFile` returns for `fileDrawOrder`. -/
def fileDrawOrderResult : EmfFile HeaderRecord Record Record :=
  { Header := some { Typ := 1, Size := 88, Original := ⟨⟨0, 0, 99, 49⟩⟩ },
    Records := [.other ⟨37, 12⟩, .other ⟨39, 12⟩], Eof := some ⟨14, 20⟩ }

/-- A file whose header declares the bounds (left 5, top 0, right 0, bottom 0): the
right edge lies left of the left edge. -/
def fileInvertedBounds : EmfFile HeaderRecord Record Record :=
  { Header := some { Typ := 1, Size := 88, Original := ⟨⟨5, 0, 0, 0⟩⟩ }, Records := [],
    Eof := none }

/-- A file whose header declares the bounds (left 10, top 20, right 109, bottom 69). -/
def fileShiftedBounds : EmfFile HeaderRecord Record Record :=
  { Header := some { Typ := 1, Size := 88, Original := ⟨⟨10, 20, 109, 69⟩⟩ }, Records := [],
    Eof := none }

/-- A context with the identity transformation, a raster of 300 by 300, the window
extent (200, 100), the viewport extent (100, 100) and the mapping mode `mm`. -/
def extentContext (mm : Nat) : context Unit :=
  { gc := (), Tr := Matrix.identity, img := imageRect 0 0 300 300, objects := [], w := 300,
    h := 300, wo := none, vo := none, we := some ⟨200, 100⟩, ve := some ⟨100, 100⟩, mm := mm }

/-- The context that `Draw` sets up for `fileInvertedBounds`, with the window extent
(2, 1) and the viewport extent (1, 1) set as a record that sets the extents
leaves them; the mapping mode is still `MM_TEXT`. -/
def invertedBoundsContext : Except Err (context Unit) :=
  (EmfFile.drawSetup (fun _ => ()) fileInvertedBounds).map
    (fun ctx => { ctx with we := some ⟨2, 1⟩, ve := some ⟨1, 1⟩ })

/-- The loop of `repackLoop` with a note of the indices of `BitsSrc24` it has written,
in the order of the writes. -/
def repackLoopLog (src : List Nat) :
    Nat → Nat → Nat → List Nat → List Nat → Except Err (List Nat × List Nat)
  | 0, i, _, dst, log => if i < src.length then .error .outOfFuel else .ok (dst, log)
  | fuel + 1, i, j, dst, log =>
    if i < src.length then do
      let v1 ← getByte src (i + 1)
      let dst ← setByte dst j v1
      let v2 ← getByte src (i + 2)
      let dst ← setByte dst (j + 1) v2
      let v3 ← getByte src (i + 3)
      let dst ← setByte dst (j + 2) v3
      repackLoopLog src fuel (i + 4) (j + 3) dst (log ++ [j, j + 1, j + 2])
    else .ok (dst, log)

/-- Lines 130 to 137 with the note of the written indices. -/
def repackLog (cbBitsSrc : Nat) (BitsSrc : List Nat) : Except Err (List Nat × List Nat) :=
  repackLoopLog BitsSrc BitsSrc.length 0 0 (List.replicate (cbBitsSrc * 3 % 2 ^ 32 / 4) 0) []

/-- The device context of `records_bitmap.go`: the handle of the memory device context
and the bit depth of the target. -/
structure EmfContext where
  MDC : Nat
  BitCount : Int
deriving DecidableEq, Repr

/-- What `StretchdibitsRecord.Draw` passes to `w32.StretchDIBits` as pixel data and as
bitmap header. -/
structure StretchDIBitsCall where
  BitsData : List Nat
  BmiSrc : BITMAPINFO
deriving DecidableEq, Repr

/-- The method `(r *StretchdibitsRecord).Draw(ctx)`: the record as the method leaves it,
and what it passes to `w32.StretchDIBits`. `PixelConvert` is not among the
sources and is an argument (pixel bytes, width, height, source bit depth,
target bit depth); the calls into `w32` act on the device, not on the
record. The conversion `uint16(ctx.BitCount)` is the remainder modulo 2^16. -/
def StretchdibitsRecord.Draw (PixelConvert : List Nat → Int → Int → Int → Int → List Nat)
    (r : CommonBitmapRecord) (ctx : EmfContext) : CommonBitmapRecord × StretchDIBitsCall :=
  let BitsData := PixelConvert r.BitsSrc r.cxSrc r.cySrc (r.BmiSrc.BiBitCount : Int) ctx.BitCount
  let r1 : CommonBitmapRecord :=
    { r with BmiSrc := { r.BmiSrc with BiBitCount := (ctx.BitCount % 2 ^ 16).toNat } }
  (r1, { BitsData := BitsData, BmiSrc := r1.BmiSrc })

/-- A stand-in for `PixelConvert` that returns the two bit depths it is called with. -/
def depthsOnly (_bits : List Nat) (_width _height : Int) (srcBits dstBits : Int) : List Nat :=
  [srcBits.toNat, dstBits.toNat]

/-- The record of `stretchdibitsPadded` with a bitmap header that declares 32 bits per
pixel. -/
def stretchdibitsRecord32 : CommonBitmapRecord :=
  { stretchdibitsPaddedRecord with
    BmiSrc := { toBITMAPINFOHEADER := ⟨40, 1, 1, 1, 32, 0, 0, 0, 0, 0, 0⟩, BmiColors := [] } }

/-! ## Basic facts about the cursor -/

theorem Dec.bind_ok {α β : Type} (x : Dec α) (f : α → Dec β) (rd rd2 : Reader) (b : β) :
    (x >>= f) rd = .ok (b, rd2) ↔ ∃ a rd1, x rd = .ok (a, rd1) ∧ f a rd1 = .ok (b, rd2) := by
  simp only [bind, StateT.bind, Except.bind]
  cases hx : x rd with
  | error e => simp
  | ok p =>
    obtain ⟨a, rd1⟩ := p
    simp only [Except.ok.injEq, Prod.mk.injEq]
    constructor
    · intro h; exact ⟨a, rd1, ⟨rfl, rfl⟩, h⟩
    · rintro ⟨a2, rd3, ⟨rfl, rfl⟩, h⟩; exact h

theorem Dec.pure_ok {α : Type} (a b : α) (rd rd2 : Reader) :
    (pure a : Dec α) rd = .ok (b, rd2) ↔ b = a ∧ rd2 = rd := by
  show Except.ok (a, rd) = Except.ok (b, rd2) ↔ _
  constructor
  · intro h; injection h with h; injection h with h1 h2; exact ⟨h1.symm, h2.symm⟩
  · rintro ⟨rfl, rfl⟩; rfl

theorem ReadFull_ok {n : Nat} {rd rd2 : Reader} {bs : List Nat}
    (h : ReadFull n rd = .ok (bs, rd2)) :
    rd2 = ⟨rd.s, rd.i + n⟩ ∧ (n = 0 ∨ rd.i + n ≤ rd.s.length) ∧
      bs = (rd.s.drop rd.i).take n := by
  unfold ReadFull at h
  split at h
  · next h0 =>
    injection h with h; injection h with h1 h2
    subst h0; subst h1; subst h2; simp
  · split at h
    · exact absurd h (by simp)
    · split at h
      · exact absurd h (by simp)
      · injection h with h; injection h with h1 h2
        subst h1; subst h2
        refine ⟨rfl, Or.inr (by omega), rfl⟩

theorem ReadFull_map_ok {α : Type} (n : Nat) (f : List Nat → α) {rd rd2 : Reader} {v : α}
    (h : (ReadFull n >>= fun bs => (pure (f bs) : Dec α)) rd = .ok (v, rd2)) :
    rd2 = ⟨rd.s, rd.i + n⟩ ∧ (n = 0 ∨ rd.i + n ≤ rd.s.length) ∧
      v = f ((rd.s.drop rd.i).take n) := by
  rw [Dec.bind_ok] at h
  obtain ⟨bs, rd1, h1, h2⟩ := h
  obtain ⟨e1, e2, e3⟩ := ReadFull_ok h1
  rw [Dec.pure_ok] at h2
  obtain ⟨rfl, rfl⟩ := h2
  exact ⟨e1, e2, by rw [e3]⟩

theorem readUint32_ok {rd rd2 : Reader} {v : Nat} (h : readUint32 rd = .ok (v, rd2)) :
    rd2 = ⟨rd.s, rd.i + 4⟩ ∧ rd.i + 4 ≤ rd.s.length ∧ v = leNat ((rd.s.drop rd.i).take 4) := by
  obtain ⟨e1, e2, e3⟩ := ReadFull_map_ok 4 leNat h
  exact ⟨e1, by omega, e3⟩

theorem readInt32_ok {rd rd2 : Reader} {v : Int} (h : readInt32 rd = .ok (v, rd2)) :
    rd2 = ⟨rd.s, rd.i + 4⟩ ∧ rd.i + 4 ≤ rd.s.length := by
  obtain ⟨e1, e2, _⟩ := ReadFull_map_ok 4 (fun bs => toInt32 (leNat bs)) h
  exact ⟨e1, by omega⟩

theorem readRECT_ok {rd rd2 : Reader} {v : RECT} (h : readRECT rd = .ok (v, rd2)) :
    rd2 = ⟨rd.s, rd.i + 16⟩ ∧ rd.i + 16 ≤ rd.s.length := by
  obtain ⟨e1, e2, _⟩ := ReadFull_map_ok 16 _ h
  exact ⟨e1, by omega⟩

theorem readPOINT_ok {rd rd2 : Reader} {v : POINT} (h : readPOINT rd = .ok (v, rd2)) :
    rd2 = ⟨rd.s, rd.i + 8⟩ ∧ rd.i + 8 ≤ rd.s.length := by
  obtain ⟨e1, e2, _⟩ := ReadFull_map_ok 8 _ h
  exact ⟨e1, by omega⟩

theorem readXFORM_ok {rd rd2 : Reader} {v : XFORM} (h : readXFORM rd = .ok (v, rd2)) :
    rd2 = ⟨rd.s, rd.i + 24⟩ ∧ rd.i + 24 ≤ rd.s.length := by
  obtain ⟨e1, e2, _⟩ := ReadFull_map_ok 24 _ h
  exact ⟨e1, by omega⟩

theorem readBITMAPINFOHEADER_ok {rd rd2 : Reader} {v : BITMAPINFOHEADER}
    (h : readBITMAPINFOHEADER rd = .ok (v, rd2)) :
    rd2 = ⟨rd.s, rd.i + 40⟩ ∧ rd.i + 40 ≤ rd.s.length ∧
      v = decodeBITMAPINFOHEADER ((rd.s.drop rd.i).take 40) := by
  obtain ⟨e1, e2, e3⟩ := ReadFull_map_ok 40 decodeBITMAPINFOHEADER h
  exact ⟨e1, by omega, e3⟩

theorem readBITMAPINFO_ok {c : Nat} {rd rd2 : Reader} {v : BITMAPINFO}
    (h : readBITMAPINFO c rd = .ok (v, rd2)) :
    rd2 = ⟨rd.s, rd.i + (40 + c)⟩ ∧ rd.i + (40 + c) ≤ rd.s.length ∧
      v = decodeBITMAPINFO ((rd.s.drop rd.i).take (40 + c)) := by
  obtain ⟨e1, e2, e3⟩ := ReadFull_map_ok (40 + c) decodeBITMAPINFO h
  exact ⟨e1, by omega, e3⟩

theorem Seek_nat_ok (d : Nat) {rd rd2 : Reader} {u : Unit}
    (h : Seek (d : Int) rd = .ok (u, rd2)) : rd2 = ⟨rd.s, rd.i + d⟩ := by
  unfold Seek at h
  have hneg : ¬ ((rd.i : Int) + (d : Int) < 0) := by omega
  rw [if_neg hneg] at h
  injection h with h; injection h with h1 h2
  rw [← h2]
  have e : ((rd.i : Int) + (d : Int)).toNat = rd.i + d := by omega
  rw [e]

theorem Read_ok {n : Nat} {rd rd2 : Reader} {bs : List Nat} (h : Read n rd = .ok (bs, rd2)) :
    rd.i < rd.s.length ∧
      bs = (rd.s.drop rd.i).take (min n (rd.s.length - rd.i)) ++
        List.replicate (n - min n (rd.s.length - rd.i)) 0 ∧
      rd2 = ⟨rd.s, rd.i + min n (rd.s.length - rd.i)⟩ := by
  unfold Read at h
  split at h
  · exact absurd h (by simp)
  · injection h with h; injection h with h1 h2
    exact ⟨by omega, h1.symm, h2.symm⟩

theorem leNat_lt (bs : List Nat) : leNat bs < 256 ^ bs.length := by
  induction bs with
  | nil => simp [leNat]
  | cons b bs ih =>
    simp only [leNat, List.length_cons, pow_succ]
    have : b % 256 < 256 := Nat.mod_lt _ (by norm_num)
    omega

theorem readUint32_lt {rd rd2 : Reader} {v : Nat} (h : readUint32 rd = .ok (v, rd2)) :
    v < 2 ^ 32 := by
  obtain ⟨_, h2, rfl⟩ := readUint32_ok h
  have := leNat_lt ((rd.s.drop rd.i).take 4)
  have hl : ((rd.s.drop rd.i).take 4).length ≤ 4 := by simp
  calc leNat ((rd.s.drop rd.i).take 4) < 256 ^ ((rd.s.drop rd.i).take 4).length := this
    _ ≤ 256 ^ 4 := Nat.pow_le_pow_right (by norm_num) hl
    _ = 2 ^ 32 := by norm_num

theorem skip_ok (d : Nat) {rd rd2 : Reader} {u : Unit}
    (h : (if d > 0 then Seek (d : Int) else (pure () : Dec Unit)) rd = .ok (u, rd2)) :
    rd2 = ⟨rd.s, rd.i + d⟩ := by
  split at h
  · exact Seek_nat_ok d h
  · next hd =>
    rw [Dec.pure_ok] at h
    have : d = 0 := by omega
    subst this
    exact h.2

theorem readStretchdibitsRecord_ok {c size : Nat} {s : List Nat} {p : Nat}
    {r : CommonBitmapRecord} {rd2 : Reader}
    (h : readStretchdibitsRecord c size ⟨s, p + 8⟩ = .ok (r, rd2)) :
    r.offBmiSrc < 2 ^ 32 ∧ r.cbBmiSrc < 2 ^ 32 ∧ r.offBitsSrc < 2 ^ 32 ∧ r.cbBitsSrc < 2 ^ 32 ∧
    stretchdibitsPixelPos p r.offBmiSrc r.cbBmiSrc r.offBitsSrc < s.length ∧
    r.BitsSrc =
      (s.drop (stretchdibitsPixelPos p r.offBmiSrc r.cbBmiSrc r.offBitsSrc)).take
          (min r.cbBitsSrc
            (s.length - stretchdibitsPixelPos p r.offBmiSrc r.cbBmiSrc r.offBitsSrc)) ++
        List.replicate (r.cbBitsSrc - min r.cbBitsSrc
          (s.length - stretchdibitsPixelPos p r.offBmiSrc r.cbBmiSrc r.offBitsSrc)) 0 ∧
    rd2 = ⟨s, stretchdibitsPixelPos p r.offBmiSrc r.cbBmiSrc r.offBitsSrc +
      min r.cbBitsSrc
        (s.length - stretchdibitsPixelPos p r.offBmiSrc r.cbBmiSrc r.offBitsSrc)⟩ := by
  unfold readStretchdibitsRecord at h
  rw [Dec.bind_ok] at h; obtain ⟨_, r1, h1, h⟩ := h
  rw [Dec.bind_ok] at h; obtain ⟨_, r2, h2, h⟩ := h
  rw [Dec.bind_ok] at h; obtain ⟨_, r3, h3, h⟩ := h
  rw [Dec.bind_ok] at h; obtain ⟨_, r4, h4, h⟩ := h
  rw [Dec.bind_ok] at h; obtain ⟨_, r5, h5, h⟩ := h
  rw [Dec.bind_ok] at h; obtain ⟨_, r6, h6, h⟩ := h
  rw [Dec.bind_ok] at h; obtain ⟨_, r7, h7, h⟩ := h
  rw [Dec.bind_ok] at h; obtain ⟨offBmi, r8, h8, h⟩ := h
  rw [Dec.bind_ok] at h; obtain ⟨cbBmi, r9, h9, h⟩ := h
  rw [Dec.bind_ok] at h; obtain ⟨offBits, r10, h10, h⟩ := h
  rw [Dec.bind_ok] at h; obtain ⟨cbBits, r11, h11, h⟩ := h
  rw [Dec.bind_ok] at h; obtain ⟨_, r12, h12, h⟩ := h
  rw [Dec.bind_ok] at h; obtain ⟨_, r13, h13, h⟩ := h
  rw [Dec.bind_ok] at h; obtain ⟨_, r14, h14, h⟩ := h
  rw [Dec.bind_ok] at h; obtain ⟨_, r15, h15, h⟩ := h
  rw [Dec.bind_ok] at h; obtain ⟨_, r16, h16, h⟩ := h
  rw [Dec.bind_ok] at h; obtain ⟨hdr, r17, h17, h⟩ := h
  rw [Dec.bind_ok] at h; obtain ⟨_, r18, h18, h⟩ := h
  rw [Dec.bind_ok] at h; obtain ⟨bits, r19, h19, h⟩ := h
  have h20 := h
  rw [Dec.pure_ok] at h20
  obtain ⟨rfl, rfl⟩ := h20
  have b8 := readUint32_lt h8
  have b9 := readUint32_lt h9
  have b10 := readUint32_lt h10
  have b11 := readUint32_lt h11
  obtain ⟨rfl, _⟩ := readRECT_ok h1
  obtain ⟨rfl, _⟩ := readInt32_ok h2
  obtain ⟨rfl, _⟩ := readInt32_ok h3
  obtain ⟨rfl, _⟩ := readInt32_ok h4
  obtain ⟨rfl, _⟩ := readInt32_ok h5
  obtain ⟨rfl, _⟩ := readInt32_ok h6
  obtain ⟨rfl, _⟩ := readInt32_ok h7
  obtain ⟨rfl, _, _⟩ := readUint32_ok h8
  obtain ⟨rfl, _, _⟩ := readUint32_ok h9
  obtain ⟨rfl, _, _⟩ := readUint32_ok h10
  obtain ⟨rfl, _, _⟩ := readUint32_ok h11
  obtain ⟨rfl, _, _⟩ := readUint32_ok h12
  obtain ⟨rfl, _, _⟩ := readUint32_ok h13
  obtain ⟨rfl, _⟩ := readInt32_ok h14
  obtain ⟨rfl, _⟩ := readInt32_ok h15
  have e16 := skip_ok _ h16
  subst e16
  obtain ⟨rfl, _, _⟩ := readBITMAPINFOHEADER_ok h17
  have e18 := skip_ok _ h18
  subst e18
  obtain ⟨hlt, hbits, rfl⟩ := Read_ok h19
  simp only at hlt hbits ⊢
  have epos : p + 8 + 16 + 4 + 4 + 4 + 4 + 4 + 4 + 4 + 4 + 4 + 4 + 4 + 4 + 4 + 4 +
      subU32 offBmi 80 + 40 + subU32 (subU32 offBits offBmi) cbBmi =
      stretchdibitsPixelPos p offBmi cbBmi offBits := by
    unfold stretchdibitsPixelPos; omega
  rw [epos] at hlt hbits
  refine ⟨b8, b9, b10, b11, hlt, hbits, ?_⟩
  rw [epos]

theorem Dec.lift_ok {α : Type} (x : Except Err α) (rd rd2 : Reader) (a : α) :
    (liftM x : Dec α) rd = .ok (a, rd2) ↔ x = .ok a ∧ rd2 = rd := by
  cases x with
  | error e =>
    simp [liftM, monadLift, MonadLift.monadLift, StateT.lift, bind, Except.bind]
  | ok v =>
    simp only [liftM, monadLift, MonadLift.monadLift, StateT.lift, bind, Except.bind, pure,
      Except.pure, Except.ok.injEq, Prod.mk.injEq]
    constructor
    · rintro ⟨rfl, rfl⟩; exact ⟨rfl, rfl⟩
    · rintro ⟨rfl, rfl⟩; exact ⟨rfl, rfl⟩

theorem readSrcExtent_ok {ty : Nat} {rd rd2 : Reader} {v : Int × Int}
    (h : (if ty = EMR_STRETCHBLT then do
        let cx ← readInt32
        let cy ← readInt32
        pure (cx, cy)
      else (pure (0, 0) : Dec (Int × Int))) rd = .ok (v, rd2)) :
    rd2 = ⟨rd.s, rd.i + (bitmapFixedLen ty - 100)⟩ := by
  unfold bitmapFixedLen
  split at h
  · next hty =>
    rw [Dec.bind_ok] at h; obtain ⟨_, r1, h1, h⟩ := h
    rw [Dec.bind_ok] at h; obtain ⟨_, r2, h2, h⟩ := h
    rw [Dec.pure_ok] at h
    obtain ⟨rfl, _⟩ := readInt32_ok h1
    obtain ⟨rfl, _⟩ := readInt32_ok h2
    rw [h.2, if_pos hty]
  · next hty =>
    rw [Dec.pure_ok] at h
    rw [h.2, if_neg hty]
    rfl

theorem CommonBitmapRecord.read_ok {c : Nat} {rec : Record} {s : List Nat} {p : Nat}
    {r : CommonBitmapRecord} {rd2 : Reader}
    (h : CommonBitmapRecord.read c rec ⟨s, p + 8⟩ = .ok (r, rd2)) :
    r.toRecord = rec ∧ r.offBmiSrc < 2 ^ 32 ∧ r.offBitsSrc < 2 ^ 32 ∧ r.cbBitsSrc < 2 ^ 32 ∧
    (r.offBmiSrc = 0 → rd2 = ⟨s, p + bitmapFixedLen rec.Typ⟩ ∧ r.BitsSrc = [] ∧
      r.BitsSrc24 = []) ∧
    (r.offBmiSrc ≠ 0 →
      bitmapHeaderPos p rec.Typ r.offBmiSrc + (40 + c) ≤ s.length ∧
      r.BmiSrc = decodeBITMAPINFO
        ((s.drop (bitmapHeaderPos p rec.Typ r.offBmiSrc)).take (40 + c)) ∧
      bitmapPixelPos p rec.Typ c r.offBmiSrc r.offBitsSrc r.BmiSrc.BiSize < s.length ∧
      r.BitsSrc =
        (s.drop (bitmapPixelPos p rec.Typ c r.offBmiSrc r.offBitsSrc r.BmiSrc.BiSize)).take
          (min r.cbBitsSrc (s.length -
            bitmapPixelPos p rec.Typ c r.offBmiSrc r.offBitsSrc r.BmiSrc.BiSize)) ++
        List.replicate (r.cbBitsSrc - min r.cbBitsSrc (s.length -
            bitmapPixelPos p rec.Typ c r.offBmiSrc r.offBitsSrc r.BmiSrc.BiSize)) 0 ∧
      rd2 = ⟨s, bitmapPixelPos p rec.Typ c r.offBmiSrc r.offBitsSrc r.BmiSrc.BiSize +
        min r.cbBitsSrc (s.length -
          bitmapPixelPos p rec.Typ c r.offBmiSrc r.offBitsSrc r.BmiSrc.BiSize)⟩ ∧
      repack r.cbBitsSrc r.BitsSrc = .ok r.BitsSrc24) := by
  unfold CommonBitmapRecord.read at h
  rw [Dec.bind_ok] at h; obtain ⟨_, r1, h1, h⟩ := h
  rw [Dec.bind_ok] at h; obtain ⟨_, r2, h2, h⟩ := h
  rw [Dec.bind_ok] at h; obtain ⟨_, r3, h3, h⟩ := h
  rw [Dec.bind_ok] at h; obtain ⟨_, r4, h4, h⟩ := h
  rw [Dec.bind_ok] at h; obtain ⟨_, r5, h5, h⟩ := h
  rw [Dec.bind_ok] at h; obtain ⟨_, r6, h6, h⟩ := h
  rw [Dec.bind_ok] at h; obtain ⟨_, r7, h7, h⟩ := h
  rw [Dec.bind_ok] at h; obtain ⟨_, r8, h8, h⟩ := h
  rw [Dec.bind_ok] at h; obtain ⟨_, r9, h9, h⟩ := h
  rw [Dec.bind_ok] at h; obtain ⟨_, r10, h10, h⟩ := h
  rw [Dec.bind_ok] at h; obtain ⟨_, r11, h11, h⟩ := h
  rw [Dec.bind_ok] at h; obtain ⟨offBmi, r12, h12, h⟩ := h
  rw [Dec.bind_ok] at h; obtain ⟨cbBmi, r13, h13, h⟩ := h
  rw [Dec.bind_ok] at h; obtain ⟨offBits, r14, h14, h⟩ := h
  rw [Dec.bind_ok] at h; obtain ⟨cbBits, r15, h15, h⟩ := h
  rw [Dec.bind_ok] at h; obtain ⟨src, r16, h16, h⟩ := h
  have b12 := readUint32_lt h12
  have b14 := readUint32_lt h14
  have b15 := readUint32_lt h15
  obtain ⟨rfl, _⟩ := readRECT_ok h1
  obtain ⟨rfl, _⟩ := readInt32_ok h2
  obtain ⟨rfl, _⟩ := readInt32_ok h3
  obtain ⟨rfl, _⟩ := readInt32_ok h4
  obtain ⟨rfl, _⟩ := readInt32_ok h5
  obtain ⟨rfl, _, _⟩ := readUint32_ok h6
  obtain ⟨rfl, _⟩ := readInt32_ok h7
  obtain ⟨rfl, _⟩ := readInt32_ok h8
  obtain ⟨rfl, _⟩ := readXFORM_ok h9
  obtain ⟨rfl, _, _⟩ := readUint32_ok h10
  obtain ⟨rfl, _, _⟩ := readUint32_ok h11
  obtain ⟨rfl, _, _⟩ := readUint32_ok h12
  obtain ⟨rfl, _, _⟩ := readUint32_ok h13
  obtain ⟨rfl, _, _⟩ := readUint32_ok h14
  obtain ⟨rfl, _, _⟩ := readUint32_ok h15
  have e16 := readSrcExtent_ok h16
  subst e16
  have hfix : p + 8 + 16 + 4 + 4 + 4 + 4 + 4 + 4 + 4 + 24 + 4 + 4 + 4 + 4 + 4 + 4 +
      (bitmapFixedLen rec.Typ - 100) = p + bitmapFixedLen rec.Typ := by
    unfold bitmapFixedLen; split <;> omega
  simp only at h
  rw [hfix] at h
  split at h
  · next h0 =>
    rw [Dec.pure_ok] at h
    obtain ⟨rfl, rfl⟩ := h
    exact ⟨rfl, b12, b14, b15, fun _ => ⟨rfl, rfl, rfl⟩, fun hne => absurd h0 hne⟩
  · next h0 =>
    rw [Dec.bind_ok] at h; obtain ⟨_, r17, h17, h⟩ := h
    rw [Dec.bind_ok] at h; obtain ⟨bmi, r18, h18, h⟩ := h
    rw [Dec.bind_ok] at h; obtain ⟨_, r19, h19, h⟩ := h
    rw [Dec.bind_ok] at h; obtain ⟨bits, r20, h20, h⟩ := h
    rw [Dec.bind_ok] at h; obtain ⟨b24, r21, h21, h⟩ := h
    rw [Dec.pure_ok] at h
    obtain ⟨rfl, rfl⟩ := h
    rw [Dec.lift_ok] at h21
    obtain ⟨hrepack, rfl⟩ := h21
    have e17 := Seek_nat_ok _ h17
    subst e17
    obtain ⟨rfl, hlen, hbmi⟩ := readBITMAPINFO_ok h18
    have e19 := Seek_nat_ok _ h19
    subst e19
    obtain ⟨hlt, hbits, rfl⟩ := Read_ok h20
    simp only at hlen hbmi hlt hbits
    refine ⟨rfl, b12, b14, b15, fun h00 => absurd h00 h0, fun _ => ?_⟩
    exact ⟨hlen, hbmi, hlt, hbits, rfl, hrepack⟩

theorem subU32_of_le {a b : Nat} (hb : b ≤ a) (ha : a < 2 ^ 32) : subU32 a b = a - b := by
  unfold subU32
  have e : a + 2 ^ 32 - b = (a - b) + 2 ^ 32 := by omega
  rw [e, Nat.add_mod_right, Nat.mod_eq_of_lt (by omega)]

/-! ## Bitmap-transfer records: where the pixel bytes are read -/

/-- The position at which a successful `readStretchdibitsRecord` reads `BitsSrc`, under
the layout conditions of the record format: `cbBmiSrc - 40` bytes before
`recordStart + offBitsSrc`. -/
theorem readStretchdibitsRecord_BitsSrc {c size : Nat} {s : List Nat} {p : Nat}
    {r : CommonBitmapRecord} {rd2 : Reader}
    (h : readStretchdibitsRecord c size ⟨s, p + 8⟩ = .ok (r, rd2))
    (h1 : 80 ≤ r.offBmiSrc) (h2 : 40 ≤ r.cbBmiSrc)
    (h3 : r.offBmiSrc + r.cbBmiSrc ≤ r.offBitsSrc)
    (h4 : p + r.offBitsSrc + r.cbBitsSrc ≤ s.length) :
    r.BitsSrc = (s.drop (p + r.offBitsSrc - (r.cbBmiSrc - 40))).take r.cbBitsSrc ∧
      rd2 = ⟨s, p + r.offBitsSrc - (r.cbBmiSrc - 40) + r.cbBitsSrc⟩ := by
  obtain ⟨b1, b2, b3, b4, hlt, hbits, hrd⟩ := readStretchdibitsRecord_ok h
  have e1 : subU32 r.offBmiSrc 80 = r.offBmiSrc - 80 := subU32_of_le h1 b1
  have e2 : subU32 r.offBitsSrc r.offBmiSrc = r.offBitsSrc - r.offBmiSrc :=
    subU32_of_le (by omega) b3
  have e3 : subU32 (r.offBitsSrc - r.offBmiSrc) r.cbBmiSrc =
      r.offBitsSrc - r.offBmiSrc - r.cbBmiSrc := subU32_of_le (by omega) (by omega)
  have epos : stretchdibitsPixelPos p r.offBmiSrc r.cbBmiSrc r.offBitsSrc =
      p + r.offBitsSrc - (r.cbBmiSrc - 40) := by
    unfold stretchdibitsPixelPos
    rw [e1, e2, e3]
    omega
  rw [epos] at hbits hrd
  have emin : min r.cbBitsSrc (s.length - (p + r.offBitsSrc - (r.cbBmiSrc - 40))) =
      r.cbBitsSrc := by
    apply Nat.min_eq_left
    omega
  rw [emin] at hbits hrd
  rw [Nat.sub_self, List.replicate_zero, List.append_nil] at hbits
  exact ⟨hbits, hrd⟩

set_option maxRecDepth 100000 in
/-- C1: the claim fails on the code. For the 128-byte EMR_STRETCHDIBITS record
`stretchdibitsWideHeader` (offBmiSrc = 80, cbBmiSrc = 44, offBitsSrc = 124,
cbBitsSrc = 4, whole record in the buffer) `readStretchdibitsRecord` succeeds
and returns BitsSrc = [1, 2, 3, 4], the four bytes at recordStart + 120,
while the four bytes at recordStart + offBitsSrc are [5, 6, 7, 8]: after the
40 bytes of the header it skips offBitsSrc - offBmiSrc - cbBmiSrc bytes, as if
it had consumed cbBmiSrc bytes. -/
theorem readStretchdibitsRecord_wide_header_misplaced :
    (readStretchdibitsRecord 0 128 ⟨stretchdibitsWideHeader, 0 + 8⟩).map
        (fun x => (x.1.offBmiSrc, x.1.cbBmiSrc, x.1.offBitsSrc, x.1.cbBitsSrc, x.1.BitsSrc)) =
      .ok (80, 44, 124, 4, [1, 2, 3, 4]) ∧
    (stretchdibitsWideHeader.drop (0 + 124)).take 4 = [5, 6, 7, 8] ∧
    stretchdibitsWideHeader.length = 128 := by
  refine ⟨?_, ?_, ?_⟩ <;> rfl

/-- Where a successful `CommonBitmapRecord.read` reads the bitmap header and the pixel
bytes of an EMR_BITBLT or EMR_STRETCHBLT record: the header at
`recordStart + offBmiSrc`, the pixel bytes at the end of the header plus
`offBitsSrc - rsize - BiSize`, which is `offBmiSrc - rsize` bytes (plus the
difference between the header's size and its `BiSize`) past
`recordStart + offBitsSrc`. -/
theorem CommonBitmapRecord.read_BitsSrc {c : Nat} {rec : Record} {s : List Nat} {p : Nat}
    {r : CommonBitmapRecord} {rd2 : Reader}
    (h : CommonBitmapRecord.read c rec ⟨s, p + 8⟩ = .ok (r, rd2))
    (hty : rec.Typ = EMR_BITBLT ∨ rec.Typ = EMR_STRETCHBLT)
    (h1 : bitmapRsize rec.Typ ≤ r.offBmiSrc)
    (h2 : bitmapRsize rec.Typ + r.BmiSrc.BiSize ≤ r.offBitsSrc)
    (h3 : p + r.offBmiSrc + (40 + c) + (r.offBitsSrc - bitmapRsize rec.Typ - r.BmiSrc.BiSize) +
      r.cbBitsSrc ≤ s.length) :
    r.BmiSrc = decodeBITMAPINFO ((s.drop (p + r.offBmiSrc)).take (40 + c)) ∧
    r.BitsSrc = (s.drop (p + r.offBmiSrc + (40 + c) +
        (r.offBitsSrc - bitmapRsize rec.Typ - r.BmiSrc.BiSize))).take r.cbBitsSrc ∧
    rd2 = ⟨s, p + r.offBmiSrc + (40 + c) +
        (r.offBitsSrc - bitmapRsize rec.Typ - r.BmiSrc.BiSize) + r.cbBitsSrc⟩ := by
  obtain ⟨_, b1, b2, b3, _, hne⟩ := CommonBitmapRecord.read_ok h
  have hfix : bitmapFixedLen rec.Typ = bitmapRsize rec.Typ := by
    unfold bitmapFixedLen bitmapRsize
    rcases hty with hb | hs
    · rw [hb]; decide
    · rw [hs]; decide
  have hpos : 0 < bitmapRsize rec.Typ := by
    unfold bitmapRsize
    rcases hty with hb | hs
    · rw [hb]; decide
    · rw [hs]; decide
  obtain ⟨hlen, hbmi, hlt, hbits, hrd, _⟩ := hne (by omega)
  have e1 : subU32 r.offBmiSrc (bitmapRsize rec.Typ) = r.offBmiSrc - bitmapRsize rec.Typ :=
    subU32_of_le h1 b1
  have e2 : subU32 r.offBitsSrc (bitmapRsize rec.Typ) = r.offBitsSrc - bitmapRsize rec.Typ :=
    subU32_of_le (by omega) b2
  have e3 : subU32 (r.offBitsSrc - bitmapRsize rec.Typ) r.BmiSrc.BiSize =
      r.offBitsSrc - bitmapRsize rec.Typ - r.BmiSrc.BiSize := subU32_of_le (by omega) (by omega)
  have ehdr : bitmapHeaderPos p rec.Typ r.offBmiSrc = p + r.offBmiSrc := by
    unfold bitmapHeaderPos
    rw [e1, hfix]
    omega
  have epos : bitmapPixelPos p rec.Typ c r.offBmiSrc r.offBitsSrc r.BmiSrc.BiSize =
      p + r.offBmiSrc + (40 + c) + (r.offBitsSrc - bitmapRsize rec.Typ - r.BmiSrc.BiSize) := by
    unfold bitmapPixelPos
    rw [ehdr, e2, e3]
  rw [ehdr] at hbmi
  rw [epos] at hbits hrd
  have emin : min r.cbBitsSrc (s.length - (p + r.offBmiSrc + (40 + c) +
      (r.offBitsSrc - bitmapRsize rec.Typ - r.BmiSrc.BiSize))) = r.cbBitsSrc := by
    apply Nat.min_eq_left
    omega
  rw [emin] at hbits hrd
  rw [Nat.sub_self, List.replicate_zero, List.append_nil] at hbits
  exact ⟨hbmi, hbits, hrd⟩

set_option maxRecDepth 100000 in
/-- C2: the claim fails on the code. For the 152-byte EMR_BITBLT record `bitbltWithGap`
(offBmiSrc = 104, that is four bytes of undefined space before the bitmap
header, BiSize = 40, offBitsSrc = 144, cbBitsSrc = 4) `readBitbltRecord`
succeeds, reads the header at recordStart + offBmiSrc (BiSize = 40), and
returns BitsSrc = [5, 6, 7, 8], the four bytes at recordStart + 148, while the
four bytes at recordStart + offBitsSrc are [1, 2, 3, 4]: the second seek
subtracts rsize = 100 instead of offBmiSrc. -/
theorem readBitbltRecord_gap_misplaced :
    (readBitbltRecord 0 152 ⟨bitbltWithGap, 0 + 8⟩).map
        (fun x => (x.1.offBmiSrc, x.1.BmiSrc.BiSize, x.1.offBitsSrc, x.1.cbBitsSrc,
          x.1.BitsSrc)) =
      .ok (104, 40, 144, 4, [5, 6, 7, 8]) ∧
    (bitbltWithGap.drop (0 + 144)).take 4 = [1, 2, 3, 4] ∧
    bitbltWithGap.length = 152 := by
  refine ⟨?_, ?_, ?_⟩ <;> rfl

/-! ## Bitmap-transfer records: where the cursor is left -/

set_option maxRecDepth 100000 in
/-- C3, counterexample: an EMR_BITBLT record with offBmiSrc = 0 and declared byteSize
104 decodes and leaves the cursor 100 bytes past the record's start, and an
EMR_STRETCHDIBITS record with declared byteSize 132 and eight bytes of
trailing padding decodes and leaves the cursor 124 bytes past its start. -/
theorem bitmap_cursor_not_at_byteSize :
    (readBitbltRecord 0 104 ⟨bitbltNoBitmapPadded, 0 + 8⟩).map
        (fun x => (x.1.Size, x.1.offBmiSrc, x.2.i)) = .ok (104, 0, 100) ∧
    (readStretchdibitsRecord 0 132 ⟨stretchdibitsPadded, 0 + 8⟩).map
        (fun x => (x.1.Size, x.1.BitsSrc, x.2.i)) = .ok (132, [1, 2, 3, 4], 124) ∧
    bitbltNoBitmapPadded.length = 104 ∧ stretchdibitsPadded.length = 132 := by
  refine ⟨?_, ?_, ?_, ?_⟩ <;> rfl

theorem CommonBitmapRecord.read_cursor {c : Nat} {rec : Record} {s : List Nat} {p : Nat}
    {r : CommonBitmapRecord} {rd2 : Reader}
    (h : CommonBitmapRecord.read c rec ⟨s, p + 8⟩ = .ok (r, rd2))
    (hty : rec.Typ = EMR_BITBLT ∨ rec.Typ = EMR_STRETCHBLT) :
    (r.offBmiSrc = 0 → rd2.i = p + bitmapRsize rec.Typ) ∧
    (r.offBmiSrc = bitmapRsize rec.Typ → r.BmiSrc.BiSize = 40 + c →
      bitmapRsize rec.Typ + (40 + c) ≤ r.offBitsSrc →
      p + r.offBitsSrc + r.cbBitsSrc ≤ s.length →
      rd2.i = p + r.offBitsSrc + r.cbBitsSrc) := by
  have hfix : bitmapFixedLen rec.Typ = bitmapRsize rec.Typ := by
    unfold bitmapFixedLen bitmapRsize
    rcases hty with hb | hs
    · rw [hb]; decide
    · rw [hs]; decide
  constructor
  · intro h0
    obtain ⟨_, _, _, _, hz, _⟩ := CommonBitmapRecord.read_ok h
    rw [(hz h0).1, hfix]
  · intro h1 h2 h3 h4
    obtain ⟨_, _, hrd⟩ := CommonBitmapRecord.read_BitsSrc h hty (by omega) (by omega)
      (by rw [h1, h2]; omega)
    rw [hrd, h1, h2]
    show p + bitmapRsize rec.Typ + (40 + c) + (r.offBitsSrc - bitmapRsize rec.Typ - (40 + c)) +
      r.cbBitsSrc = p + r.offBitsSrc + r.cbBitsSrc
    omega

/-- C3, amended: a successful decode leaves the cursor at the end of the last section
it read, whatever byteSize `size` the common header declares. For EMR_BITBLT
and EMR_STRETCHBLT without bitmap (offBmiSrc = 0) that is recordStart + 100
and recordStart + 108; for these two with the bitmap header directly after
the fixed fields (offBmiSrc = 100 or 108, BiSize the size of the header read)
and for EMR_STRETCHDIBITS with offBmiSrc >= 80, cbBmiSrc = 40, the pixel
section after the header and inside the buffer, it is
recordStart + offBitsSrc + cbBitsSrc. So the cursor is `size` bytes past the
record's start exactly when `size` is that position. -/
theorem bitmap_cursor_after_decode :
    (∀ (c size : Nat) (s : List Nat) (p : Nat) (r : CommonBitmapRecord) (rd2 : Reader),
      readBitbltRecord c size ⟨s, p + 8⟩ = .ok (r, rd2) →
        (r.offBmiSrc = 0 → rd2.i = p + 100 ∧ (rd2.i = p + size ↔ size = 100)) ∧
        (r.offBmiSrc = 100 → r.BmiSrc.BiSize = 40 + c → 100 + (40 + c) ≤ r.offBitsSrc →
          p + r.offBitsSrc + r.cbBitsSrc ≤ s.length →
          rd2.i = p + r.offBitsSrc + r.cbBitsSrc ∧
            (rd2.i = p + size ↔ size = r.offBitsSrc + r.cbBitsSrc))) ∧
    (∀ (c size : Nat) (s : List Nat) (p : Nat) (r : CommonBitmapRecord) (rd2 : Reader),
      readStretchbltRecord c size ⟨s, p + 8⟩ = .ok (r, rd2) →
        (r.offBmiSrc = 0 → rd2.i = p + 108 ∧ (rd2.i = p + size ↔ size = 108)) ∧
        (r.offBmiSrc = 108 → r.BmiSrc.BiSize = 40 + c → 108 + (40 + c) ≤ r.offBitsSrc →
          p + r.offBitsSrc + r.cbBitsSrc ≤ s.length →
          rd2.i = p + r.offBitsSrc + r.cbBitsSrc ∧
            (rd2.i = p + size ↔ size = r.offBitsSrc + r.cbBitsSrc))) ∧
    (∀ (c size : Nat) (s : List Nat) (p : Nat) (r : CommonBitmapRecord) (rd2 : Reader),
      readStretchdibitsRecord c size ⟨s, p + 8⟩ = .ok (r, rd2) →
        80 ≤ r.offBmiSrc → r.cbBmiSrc = 40 → r.offBmiSrc + 40 ≤ r.offBitsSrc →
        p + r.offBitsSrc + r.cbBitsSrc ≤ s.length →
        rd2.i = p + r.offBitsSrc + r.cbBitsSrc ∧
          (rd2.i = p + size ↔ size = r.offBitsSrc + r.cbBitsSrc)) := by
  refine ⟨?_, ?_, ?_⟩
  · intro c size s p r rd2 h
    have hc := CommonBitmapRecord.read_cursor h (Or.inl rfl)
    have hr : bitmapRsize EMR_BITBLT = 100 := by decide
    simp only [hr] at hc
    refine ⟨fun h0 => ?_, fun h1 h2 h3 h4 => ?_⟩
    · have := hc.1 h0
      exact ⟨this, by omega⟩
    · have := hc.2 h1 h2 h3 h4
      exact ⟨this, by omega⟩
  · intro c size s p r rd2 h
    have hc := CommonBitmapRecord.read_cursor h (Or.inr rfl)
    have hr : bitmapRsize EMR_STRETCHBLT = 108 := by decide
    simp only [hr] at hc
    refine ⟨fun h0 => ?_, fun h1 h2 h3 h4 => ?_⟩
    · have := hc.1 h0
      exact ⟨this, by omega⟩
    · have := hc.2 h1 h2 h3 h4
      exact ⟨this, by omega⟩
  · intro c size s p r rd2 h h1 h2 h3 h4
    obtain ⟨_, hrd⟩ := readStretchdibitsRecord_BitsSrc h h1 (by omega) (by omega) h4
    have : rd2.i = p + r.offBitsSrc + r.cbBitsSrc := by
      rw [hrd, h2]
      show p + r.offBitsSrc - (40 - 40) + r.cbBitsSrc = p + r.offBitsSrc + r.cbBitsSrc
      omega
    exact ⟨this, by omega⟩

set_option maxRecDepth 100000 in
/-- C3, witness: the amended statement at three records that decode. `bitbltNoBitmapPadded`
(no bitmap, declared 104 bytes) leaves the cursor at 0 + 100;
`bitbltTwoPixels` (declared 148 bytes, no padding) leaves it at 0 + 140 + 8,
which is the declared size; `stretchdibitsPadded` (declared 132 bytes) leaves
it at 0 + 120 + 4. -/
theorem bitmap_cursor_after_decode_witness :
    (readBitbltRecord 0 104 ⟨bitbltNoBitmapPadded, 0 + 8⟩ =
        .ok (bitbltNoBitmapPaddedRecord, ⟨bitbltNoBitmapPadded, 100⟩) ∧
      ((⟨bitbltNoBitmapPadded, 100⟩ : Reader).i = 0 + 100 ∧
        ((⟨bitbltNoBitmapPadded, 100⟩ : Reader).i = 0 + 104 ↔ 104 = 100))) ∧
    (readBitbltRecord 0 148 ⟨bitbltTwoPixels, 0 + 8⟩ =
        .ok (bitbltTwoPixelsRecord, ⟨bitbltTwoPixels, 148⟩) ∧
      ((⟨bitbltTwoPixels, 148⟩ : Reader).i =
          0 + bitbltTwoPixelsRecord.offBitsSrc + bitbltTwoPixelsRecord.cbBitsSrc ∧
        ((⟨bitbltTwoPixels, 148⟩ : Reader).i = 0 + 148 ↔
          148 = bitbltTwoPixelsRecord.offBitsSrc + bitbltTwoPixelsRecord.cbBitsSrc))) ∧
    (readStretchdibitsRecord 0 132 ⟨stretchdibitsPadded, 0 + 8⟩ =
        .ok (stretchdibitsPaddedRecord, ⟨stretchdibitsPadded, 124⟩) ∧
      ((⟨stretchdibitsPadded, 124⟩ : Reader).i =
          0 + stretchdibitsPaddedRecord.offBitsSrc + stretchdibitsPaddedRecord.cbBitsSrc ∧
        ((⟨stretchdibitsPadded, 124⟩ : Reader).i = 0 + 132 ↔
          132 = stretchdibitsPaddedRecord.offBitsSrc + stretchdibitsPaddedRecord.cbBitsSrc))) :=
  ⟨⟨rfl, (bitmap_cursor_after_decode.1 0 104 bitbltNoBitmapPadded 0 bitbltNoBitmapPaddedRecord
      ⟨bitbltNoBitmapPadded, 100⟩ rfl).1 rfl⟩,
    ⟨rfl, (bitmap_cursor_after_decode.1 0 148 bitbltTwoPixels 0 bitbltTwoPixelsRecord
      ⟨bitbltTwoPixels, 148⟩ rfl).2 rfl rfl (by decide) (by decide)⟩,
    ⟨rfl, bitmap_cursor_after_decode.2.2 0 132 stretchdibitsPadded 0 stretchdibitsPaddedRecord
      ⟨stretchdibitsPadded, 124⟩ rfl (by decide) rfl (by decide) (by decide)⟩⟩

/-! ## Bitmap-transfer records: a buffer that ends inside the pixel bytes -/

set_option maxRecDepth 100000 in
/-- C4: the claim fails on the code. With one of the four declared pixel bytes in the
buffer, `readStretchdibitsRecord` and `readBitbltRecord` return no error but
a record with cbBitsSrc = 4 and BitsSrc = [5, 0, 0, 0]: the byte that is
there, followed by the zeroes of the fresh slice. -/
theorem bitmap_short_pixels_no_error :
    (readStretchdibitsRecord 0 124 ⟨stretchdibitsTruncated, 0 + 8⟩).map
        (fun x => (x.1.offBitsSrc, x.1.cbBitsSrc, x.1.BitsSrc)) = .ok (120, 4, [5, 0, 0, 0]) ∧
    (readBitbltRecord 0 144 ⟨bitbltTruncated, 0 + 8⟩).map
        (fun x => (x.1.offBitsSrc, x.1.cbBitsSrc, x.1.BitsSrc)) = .ok (140, 4, [5, 0, 0, 0]) ∧
    stretchdibitsTruncated.length = 121 ∧ bitbltTruncated.length = 141 := by
  refine ⟨?_, ?_, ?_, ?_⟩ <;> rfl

/-- The other half of the behaviour on a short buffer: a successful decode of an
EMR_STRETCHDIBITS record had at least one byte left where it read the pixel
bytes, and `BitsSrc` is the bytes that were there followed by zeroes; with no
byte left there the decode is an error. -/
theorem readStretchdibitsRecord_short {c size : Nat} {s : List Nat} {p : Nat}
    {r : CommonBitmapRecord} {rd2 : Reader}
    (h : readStretchdibitsRecord c size ⟨s, p + 8⟩ = .ok (r, rd2)) :
    stretchdibitsPixelPos p r.offBmiSrc r.cbBmiSrc r.offBitsSrc < s.length ∧
    r.BitsSrc.length = r.cbBitsSrc := by
  obtain ⟨_, _, _, _, hlt, hbits, _⟩ := readStretchdibitsRecord_ok h
  refine ⟨hlt, ?_⟩
  rw [hbits, List.length_append, List.length_replicate, List.length_take, List.length_drop]
  omega

/-! ## The repacking loop of `CommonBitmapRecord.read` -/

set_option maxRecDepth 100000 in
/-- C5: the claim fails on the code. For the source [10, 20, 30, 255, 40, 50, 60, 255]
the loop of `CommonBitmapRecord.read` yields [20, 30, 255, 50, 60, 255], not
[30, 20, 10, 60, 50, 40]: output pixel k is bytes 4k+1, 4k+2, 4k+3 of the
source, so the first byte of every pixel is dropped and the fourth one is
kept; the same through `readBitbltRecord` on a record with these pixels. -/
theorem repack_keeps_fourth_byte :
    repack 8 [10, 20, 30, 255, 40, 50, 60, 255] = .ok [20, 30, 255, 50, 60, 255] ∧
    (readBitbltRecord 0 148 ⟨bitbltTwoPixels, 0 + 8⟩).map
        (fun x => (x.1.BmiSrc.BiBitCount, x.1.BitsSrc, x.1.BitsSrc24)) =
      .ok (32, [10, 20, 30, 255, 40, 50, 60, 255], [20, 30, 255, 50, 60, 255]) := by
  refine ⟨?_, ?_⟩ <;> rfl

theorem getByte_append (pre post : List Nat) (k : Nat) (v : Nat) (h : post[k]? = some v) :
    getByte (pre ++ post) (pre.length + k) = .ok v := by
  unfold getByte
  rw [List.getElem?_append_right (by omega)]
  have e : pre.length + k - pre.length = k := by omega
  rw [e, h]

theorem setByte_append (out zs : List Nat) (k v : Nat) (h : k < zs.length) :
    setByte (out ++ zs) (out.length + k) v = .ok (out ++ zs.set k v) := by
  unfold setByte
  rw [if_pos (by rw [List.length_append]; omega), List.set_append_right _ _ (by omega)]
  have e : out.length + k - out.length = k := by omega
  rw [e]

theorem repackLoop_whole (fuel : Nat) : ∀ (pre post out : List Nat),
    post.length % 4 = 0 → post.length ≤ 4 * fuel →
    repackLoop (pre ++ post) fuel pre.length out.length
        (out ++ List.replicate (post.length / 4 * 3) 0) =
      .ok (out ++ lastThreeOfFour post) := by
  induction fuel with
  | zero =>
    intro pre post out _ hf
    have hp : post = [] := List.eq_nil_of_length_eq_zero (by omega)
    subst hp
    simp [repackLoop, lastThreeOfFour]
  | succ n ih =>
    intro pre post out h4 hf
    match post, h4, hf with
    | [], _, _ => simp [repackLoop, lastThreeOfFour]
    | [_], h4, _ => simp at h4
    | [_, _], h4, _ => simp at h4
    | [_, _, _], h4, _ => simp at h4
    | a :: b :: c :: d :: rest, h4, hf =>
      have hlen : (a :: b :: c :: d :: rest).length = rest.length + 4 := by simp
      have hrep : List.replicate ((a :: b :: c :: d :: rest).length / 4 * 3) 0 =
          0 :: 0 :: 0 :: List.replicate (rest.length / 4 * 3) 0 := by
        have e : (a :: b :: c :: d :: rest).length / 4 * 3 = rest.length / 4 * 3 + 1 + 1 + 1 := by
          rw [hlen]; omega
        rw [e, List.replicate_succ, List.replicate_succ, List.replicate_succ]
      rw [hrep]
      unfold repackLoop
      rw [if_pos (by rw [List.length_append, hlen]; omega)]
      have g1 := getByte_append pre (a :: b :: c :: d :: rest) 1 b (by simp)
      have g2 := getByte_append pre (a :: b :: c :: d :: rest) 2 c (by simp)
      have g3 := getByte_append pre (a :: b :: c :: d :: rest) 3 d (by simp)
      have s1 := setByte_append out (0 :: 0 :: 0 :: List.replicate (rest.length / 4 * 3) 0) 0 b
        (by simp)
      have s2 := setByte_append out (b :: 0 :: 0 :: List.replicate (rest.length / 4 * 3) 0) 1 c
        (by simp)
      have s3 := setByte_append out (b :: c :: 0 :: List.replicate (rest.length / 4 * 3) 0) 2 d
        (by simp)
      simp only [Nat.add_zero, List.set_cons_zero, List.set_cons_succ] at s1 s2 s3
      simp only [g1, s1, g2, s2, g3, s3, bind, Except.bind]
      have hrest := ih (pre ++ [a, b, c, d]) rest (out ++ [b, c, d]) (by rw [hlen] at h4; omega)
        (by rw [hlen] at hf; omega)
      simp only [List.length_append, List.length_cons, List.length_nil, List.append_assoc,
        List.cons_append, List.nil_append, Nat.zero_add, Nat.reduceAdd] at hrest
      rw [hrest]
      simp [lastThreeOfFour]

/-- For a source of whole 4-byte pixels whose tripled length fits 32 bits the loop of
`CommonBitmapRecord.read` ends without an index panic and `BitsSrc24` is, for
every pixel in order, bytes 4k+1, 4k+2, 4k+3 of the source. -/
theorem repack_whole (src : List Nat) (h4 : src.length % 4 = 0) (hlt : src.length * 3 < 2 ^ 32) :
    repack src.length src = .ok (lastThreeOfFour src) := by
  unfold repack
  have e : src.length * 3 % 2 ^ 32 / 4 = src.length / 4 * 3 := by
    rw [Nat.mod_eq_of_lt hlt]
    omega
  rw [e]
  have := repackLoop_whole src.length [] src [] h4 (by omega)
  simpa using this

/-! ## The text payload: where the two sections are read -/

theorem Len_ok {rd rd2 : Reader} {n : Nat} (h : Len rd = .ok (n, rd2)) :
    rd2 = rd ∧ n = rd.Len := by
  unfold Len at h
  injection h with h; injection h with h1 h2
  exact ⟨h2.symm, h1.symm⟩

theorem Reader.Len_eq (rd : Reader) : rd.Len = rd.s.length - rd.i := by
  unfold Reader.Len
  split <;> omega

theorem Seek_ok {d : Int} {rd rd2 : Reader} {u : Unit} (h : Seek d rd = .ok (u, rd2))
    (hd : 0 ≤ (rd.i : Int) + d) : rd2 = ⟨rd.s, ((rd.i : Int) + d).toNat⟩ := by
  unfold Seek at h
  rw [if_neg (by omega)] at h
  injection h with h; injection h with h1 h2
  exact h2.symm

theorem readEmrText_ok {s : List Nat} {p q : Nat} {r : EmrText} {rd2 : Reader}
    (h : readEmrText ((s.length : Int) - (p : Int)) ⟨s, q⟩ = .ok (r, rd2)) :
    q + 40 ≤ s.length ∧
    r.Chars = leNat ((s.drop (q + 8)).take 4) ∧
    r.offString = leNat ((s.drop (q + 12)).take 4) ∧
    r.offDx = leNat ((s.drop (q + 36)).take 4) ∧
    (r.Chars = 0 ∨
      (p + r.offString + 2 * r.Chars ≤ s.length ∧ p + r.offDx + 4 * r.Chars ≤ s.length ∧
        rd2 = ⟨s, p + r.offDx + 4 * r.Chars⟩)) ∧
    r.OutputString = utf16Decode (uint16s ((s.drop (p + r.offString)).take (2 * r.Chars))) ∧
    r.OutputDx = int32s ((s.drop (p + r.offDx)).take (4 * r.Chars)) := by
  unfold readEmrText at h
  rw [Dec.bind_ok] at h; obtain ⟨_, r1, h1, h⟩ := h
  rw [Dec.bind_ok] at h; obtain ⟨Chars, r2, h2, h⟩ := h
  rw [Dec.bind_ok] at h; obtain ⟨offString, r3, h3, h⟩ := h
  rw [Dec.bind_ok] at h; obtain ⟨_, r4, h4, h⟩ := h
  rw [Dec.bind_ok] at h; obtain ⟨_, r5, h5, h⟩ := h
  rw [Dec.bind_ok] at h; obtain ⟨offDx, r6, h6, h⟩ := h
  rw [Dec.bind_ok] at h; obtain ⟨len1, r7, h7, h⟩ := h
  rw [Dec.bind_ok] at h; obtain ⟨_, r8, h8, h⟩ := h
  rw [Dec.bind_ok] at h; obtain ⟨b, r9, h9, h⟩ := h
  rw [Dec.bind_ok] at h; obtain ⟨len2, r10, h10, h⟩ := h
  rw [Dec.bind_ok] at h; obtain ⟨_, r11, h11, h⟩ := h
  rw [Dec.bind_ok] at h; obtain ⟨dx, r12, h12, h⟩ := h
  rw [Dec.pure_ok] at h
  obtain ⟨rfl, rfl⟩ := h
  obtain ⟨rfl, _⟩ := readPOINT_ok h1
  obtain ⟨rfl, _, eChars⟩ := readUint32_ok h2
  obtain ⟨rfl, _, eStr⟩ := readUint32_ok h3
  obtain ⟨rfl, _, _⟩ := readUint32_ok h4
  obtain ⟨rfl, _⟩ := readRECT_ok h5
  obtain ⟨rfl, hfix, eDx⟩ := readUint32_ok h6
  simp only at hfix eChars eStr eDx
  obtain ⟨rfl, rfl⟩ := Len_ok h7
  have hs1 := Seek_ok h8 (by
    rw [Reader.Len_eq]
    simp only
    omega)
  have e1 : (((q + 8 + 4 + 4 + 4 + 16 + 4 : Nat) : Int) + ((offString : Int) -
      ((s.length : Int) - (p : Int) -
        ((Reader.Len ⟨s, q + 8 + 4 + 4 + 4 + 16 + 4⟩ : Nat) : Int)))).toNat = p + offString := by
    rw [Reader.Len_eq]
    simp only
    omega
  simp only at hs1
  rw [e1] at hs1
  subst hs1
  obtain ⟨rfl, hstr, rfl⟩ := ReadFull_map_ok (2 * Chars) uint16s h9
  simp only at hstr
  obtain ⟨rfl, rfl⟩ := Len_ok h10
  obtain ⟨rfl, hdx, rfl⟩ := ReadFull_map_ok (4 * Chars) int32s h12
  simp only [Nat.add_assoc, Nat.reduceAdd] at eStr eDx
  refine ⟨by omega, eChars, eStr, eDx, ?_, rfl, ?_⟩
  · by_cases hc : Chars = 0
    · exact Or.inl hc
    · right
      have hstr2 : p + offString + 2 * Chars ≤ s.length := by omega
      have hs2 := Seek_ok h11 (by
        rw [Reader.Len_eq]
        simp only
        omega)
      have e2 : (((p + offString + 2 * Chars : Nat) : Int) + ((offDx : Int) -
          ((s.length : Int) - (p : Int) -
            ((Reader.Len ⟨s, p + offString + 2 * Chars⟩ : Nat) : Int)))).toNat = p + offDx := by
        rw [Reader.Len_eq]
        simp only
        omega
      simp only at hs2
      rw [e2] at hs2
      subst hs2
      simp only at hdx
      have hdx2 : p + offDx + 4 * Chars ≤ s.length := by omega
      exact ⟨hstr2, hdx2, rfl⟩
  · by_cases hc : Chars = 0
    · subst hc
      simp
    · have hstr2 : p + offString + 2 * Chars ≤ s.length := by omega
      have hs2 := Seek_ok h11 (by
        rw [Reader.Len_eq]
        simp only
        omega)
      have e2 : (((p + offString + 2 * Chars : Nat) : Int) + ((offDx : Int) -
          ((s.length : Int) - (p : Int) -
            ((Reader.Len ⟨s, p + offString + 2 * Chars⟩ : Nat) : Int)))).toNat = p + offDx := by
        rw [Reader.Len_eq]
        simp only
        omega
      simp only at hs2
      rw [e2] at hs2
      subst hs2
      rfl

/-- C6: let the record start at `p`, so that `offset` is `len(buffer) - p`, and let
`readEmrText`, entered at any position `q`, return the payload `r`. Then
OutputString is the UTF-16 decoding of the Chars little-endian 16-bit units
at p + offString and OutputDx is the Chars little-endian 32-bit integers at
p + offDx, whatever the order of the two sections and the space between
them. (For Chars > 0 a successful decode implies that both sections lie
inside the buffer, so that condition of the claim need not be assumed.) -/
theorem readEmrText_sections (s : List Nat) (p q : Nat) (r : EmrText) (rd2 : Reader)
    (h : readEmrText ((s.length : Int) - (p : Int)) ⟨s, q⟩ = .ok (r, rd2)) :
    r.OutputString = utf16Decode (uint16s ((s.drop (p + r.offString)).take (2 * r.Chars))) ∧
    r.OutputDx = int32s ((s.drop (p + r.offDx)).take (4 * r.Chars)) ∧
    (r.Chars ≠ 0 →
      p + r.offString + 2 * r.Chars ≤ s.length ∧ p + r.offDx + 4 * r.Chars ≤ s.length) := by
  obtain ⟨_, _, _, _, hfit, hstr, hdx⟩ := readEmrText_ok h
  refine ⟨hstr, hdx, fun hc => ?_⟩
  rcases hfit with h0 | ⟨h1, h2, _⟩
  · exact absurd h0 hc
  · exact ⟨h1, h2⟩

set_option maxRecDepth 100000 in
/-- C6, witness: `textDxBeforeString` decodes, with a backward seek from the end of the
string at 92 to the advances at 76. -/
theorem readEmrText_sections_witness :
    readEmrText ((textDxBeforeString.length : Int) - ((0 : Nat) : Int))
        ⟨textDxBeforeString, 36⟩ =
      .ok (textDxBeforeStringPayload, ⟨textDxBeforeString, 84⟩) ∧
    (textDxBeforeStringPayload.OutputString =
        utf16Decode (uint16s ((textDxBeforeString.drop
          (0 + textDxBeforeStringPayload.offString)).take
            (2 * textDxBeforeStringPayload.Chars))) ∧
      textDxBeforeStringPayload.OutputDx =
        int32s ((textDxBeforeString.drop (0 + textDxBeforeStringPayload.offDx)).take
          (4 * textDxBeforeStringPayload.Chars)) ∧
      (textDxBeforeStringPayload.Chars ≠ 0 →
        0 + textDxBeforeStringPayload.offString + 2 * textDxBeforeStringPayload.Chars ≤
            textDxBeforeString.length ∧
          0 + textDxBeforeStringPayload.offDx + 4 * textDxBeforeStringPayload.Chars ≤
            textDxBeforeString.length)) :=
  ⟨rfl, readEmrText_sections textDxBeforeString 0 36 textDxBeforeStringPayload
    ⟨textDxBeforeString, 84⟩ rfl⟩

/-! ## The text payload: when the decode succeeds and when it fails -/

theorem Dec.bind_of_ok {α β : Type} {x : Dec α} (f : α → Dec β) {rd rd1 : Reader} {a : α}
    (hx : x rd = .ok (a, rd1)) : (x >>= f) rd = f a rd1 := by
  simp only [bind, StateT.bind, Except.bind, hx]

theorem ReadFull_of_le {n : Nat} {s : List Nat} {i : Nat} (h : i + n ≤ s.length) :
    ReadFull n ⟨s, i⟩ = .ok ((s.drop i).take n, ⟨s, i + n⟩) := by
  unfold ReadFull
  by_cases hn : n = 0
  · subst hn
    simp
  · rw [if_neg hn, if_neg (by simp only; omega), if_neg (by simp only; omega)]

theorem ReadFull_map_of_le {α : Type} (f : List Nat → α) {n : Nat} {s : List Nat} {i : Nat}
    (h : i + n ≤ s.length) :
    (ReadFull n >>= fun bs => (pure (f bs) : Dec α)) ⟨s, i⟩ =
      .ok (f ((s.drop i).take n), ⟨s, i + n⟩) := by
  rw [Dec.bind_of_ok _ (ReadFull_of_le h)]
  rfl

theorem readUint32_of_le {s : List Nat} {i : Nat} (h : i + 4 ≤ s.length) :
    readUint32 ⟨s, i⟩ = .ok (leNat ((s.drop i).take 4), ⟨s, i + 4⟩) :=
  ReadFull_map_of_le leNat h

theorem readPOINT_of_le {s : List Nat} {i : Nat} (h : i + 8 ≤ s.length) :
    ∃ v, readPOINT ⟨s, i⟩ = .ok (v, ⟨s, i + 8⟩) :=
  ⟨_, ReadFull_map_of_le _ h⟩

theorem readRECT_of_le {s : List Nat} {i : Nat} (h : i + 16 ≤ s.length) :
    ∃ v, readRECT ⟨s, i⟩ = .ok (v, ⟨s, i + 16⟩) :=
  ⟨_, ReadFull_map_of_le _ h⟩

theorem readUint16s_of_le {n : Nat} {s : List Nat} {i : Nat} (h : i + 2 * n ≤ s.length) :
    readUint16s n ⟨s, i⟩ = .ok (uint16s ((s.drop i).take (2 * n)), ⟨s, i + 2 * n⟩) :=
  ReadFull_map_of_le uint16s h

theorem readInt32s_of_le {n : Nat} {s : List Nat} {i : Nat} (h : i + 4 * n ≤ s.length) :
    readInt32s n ⟨s, i⟩ = .ok (int32s ((s.drop i).take (4 * n)), ⟨s, i + 4 * n⟩) :=
  ReadFull_map_of_le int32s h

theorem Seek_to {s : List Nat} {i : Nat} {d : Int} {j : Nat} (h : (i : Int) + d = (j : Int)) :
    Seek d ⟨s, i⟩ = .ok ((), ⟨s, j⟩) := by
  unfold Seek
  simp only
  rw [if_neg (by omega), h]
  rfl

/-- The decode of a text payload succeeds when its 40 bytes of fixed fields and its
two sections lie inside the buffer. The record starts at `p`, the payload at
`q`; Chars, offString and offDx are the fields at `q + 8`, `q + 12` and
`q + 36`. -/
theorem readEmrText_of_sections (s : List Nat) (p q : Nat) (hq : q + 40 ≤ s.length)
    (hstr : p + leNat ((s.drop (q + 12)).take 4) + 2 * leNat ((s.drop (q + 8)).take 4) ≤
      s.length)
    (hdx : p + leNat ((s.drop (q + 36)).take 4) + 4 * leNat ((s.drop (q + 8)).take 4) ≤
      s.length) :
    ∃ r rd2, readEmrText ((s.length : Int) - (p : Int)) ⟨s, q⟩ = .ok (r, rd2) := by
  unfold readEmrText
  have a1 : q + 8 ≤ s.length := by omega
  obtain ⟨v1, e1⟩ := readPOINT_of_le a1
  rw [Dec.bind_of_ok _ e1]
  have a2 : q + 8 + 4 ≤ s.length := by omega
  rw [Dec.bind_of_ok _ (readUint32_of_le a2)]
  have a3 : q + 8 + 4 + 4 ≤ s.length := by omega
  rw [Dec.bind_of_ok _ (readUint32_of_le a3)]
  have a4 : q + 8 + 4 + 4 + 4 ≤ s.length := by omega
  rw [Dec.bind_of_ok _ (readUint32_of_le a4)]
  have a5 : q + 8 + 4 + 4 + 4 + 16 ≤ s.length := by omega
  obtain ⟨v5, e5⟩ := readRECT_of_le a5
  rw [Dec.bind_of_ok _ e5]
  have a6 : q + 8 + 4 + 4 + 4 + 16 + 4 ≤ s.length := by omega
  rw [Dec.bind_of_ok _ (readUint32_of_le a6)]
  have n1 : q + 8 + 4 = q + 12 := by omega
  have n2 : q + 8 + 4 + 4 + 4 + 16 = q + 36 := by omega
  rw [n1, n2]
  rw [Dec.bind_of_ok _ (rfl : Len ⟨s, q + 36 + 4⟩ = .ok (_, _))]
  rw [Dec.bind_of_ok _ (Seek_to (j := p + leNat ((s.drop (q + 12)).take 4)) (by
    rw [Reader.Len_eq]
    simp only
    omega))]
  rw [Dec.bind_of_ok _ (readUint16s_of_le hstr)]
  rw [Dec.bind_of_ok _ (rfl : Len ⟨s, _⟩ = .ok (_, _))]
  rw [Dec.bind_of_ok _ (Seek_to (j := p + leNat ((s.drop (q + 36)).take 4)) (by
    rw [Reader.Len_eq]
    simp only
    omega))]
  rw [Dec.bind_of_ok _ (readInt32s_of_le hdx)]
  exact ⟨_, _, rfl⟩

set_option maxRecDepth 100000 in
/-- C7, counterexample: with Chars = 1 and offDx = 0 `readEmrText` returns a payload,
not an error; its OutputDx is [84], the 32-bit integer at the start of the
record (the record's type tag). -/
theorem readEmrText_zero_offDx_no_error :
    (readEmrText ((textNoDx.length : Int) - ((0 : Nat) : Int)) ⟨textNoDx, 36⟩).map
        (fun x => (x.1.Chars, x.1.offDx, x.1.OutputString, x.1.OutputDx)) =
      .ok (1, 0, [65], [84]) := by
  rfl

/-- C7, amended: with a non-zero character count and offDx = 0 `readEmrText` returns a
payload whenever the 40 bytes of fixed fields, the string section and the
first 4 * Chars bytes of the record lie inside the buffer; OutputDx is then
the Chars 32-bit integers that start at the record's start. -/
theorem readEmrText_zero_offDx (s : List Nat) (p q : Nat) (hq : q + 40 ≤ s.length)
    (hc : leNat ((s.drop (q + 8)).take 4) ≠ 0)
    (h0 : leNat ((s.drop (q + 36)).take 4) = 0)
    (hstr : p + leNat ((s.drop (q + 12)).take 4) + 2 * leNat ((s.drop (q + 8)).take 4) ≤
      s.length)
    (hdx : p + 4 * leNat ((s.drop (q + 8)).take 4) ≤ s.length) :
    ∃ r rd2, readEmrText ((s.length : Int) - (p : Int)) ⟨s, q⟩ = .ok (r, rd2) ∧
      r.Chars = leNat ((s.drop (q + 8)).take 4) ∧ r.Chars ≠ 0 ∧ r.offDx = 0 ∧
      r.OutputDx = int32s ((s.drop p).take (4 * r.Chars)) := by
  obtain ⟨r, rd2, h⟩ := readEmrText_of_sections s p q hq hstr (by rw [h0]; omega)
  obtain ⟨_, eC, _, eD, _, _, eDx⟩ := readEmrText_ok h
  refine ⟨r, rd2, h, eC, by rw [eC]; exact hc, by rw [eD]; exact h0, ?_⟩
  rw [eDx, eD, h0, Nat.add_zero]

set_option maxRecDepth 100000 in
/-- C7, witness: the amended statement at `textNoDx`. -/
theorem readEmrText_zero_offDx_witness :
    ∃ r rd2, readEmrText ((textNoDx.length : Int) - ((0 : Nat) : Int)) ⟨textNoDx, 36⟩ =
        .ok (r, rd2) ∧
      r.Chars = leNat ((textNoDx.drop (36 + 8)).take 4) ∧ r.Chars ≠ 0 ∧ r.offDx = 0 ∧
      r.OutputDx = int32s ((textNoDx.drop 0).take (4 * r.Chars)) :=
  readEmrText_zero_offDx textNoDx 0 36 (by decide) (by decide) (by decide) (by decide)
    (by decide)

set_option maxRecDepth 100000 in
/-- C8, counterexample: the record of `textPastRecord` declares byteSize 84 and its
string section ends at offString + 2 * Chars = 86; the buffer holds the next
record after it, and `readEmrText` returns a payload, whose second character
is read from the first two bytes of the next record. -/
theorem readEmrText_past_record_no_error :
    leNat ((textPastRecord.drop 4).take 4) = 84 ∧ textPastRecord.length = 100 ∧
    (readEmrText ((textPastRecord.length : Int) - ((0 : Nat) : Int)) ⟨textPastRecord, 36⟩).map
        (fun x => (x.1.Chars, x.1.offString, x.1.offDx, x.1.OutputString, x.1.OutputDx)) =
      .ok (2, 82, 76, [0, 14], [7, 9]) := by
  refine ⟨?_, ?_, ?_⟩ <;> rfl

/-- C8, amended: `readEmrText` is not given the record's byteSize and checks the two
sections against the end of the buffer only. With a non-zero character count
it fails when recordStart + offString + 2 * Chars or
recordStart + offDx + 4 * Chars exceeds the length of the buffer; when the
fixed fields and both sections lie inside the buffer it returns a payload,
wherever the record ends. -/
theorem readEmrText_section_bounds (s : List Nat) (p q : Nat) :
    (leNat ((s.drop (q + 8)).take 4) ≠ 0 →
      (s.length < p + leNat ((s.drop (q + 12)).take 4) + 2 * leNat ((s.drop (q + 8)).take 4) ∨
        s.length <
          p + leNat ((s.drop (q + 36)).take 4) + 4 * leNat ((s.drop (q + 8)).take 4)) →
      ∃ e, readEmrText ((s.length : Int) - (p : Int)) ⟨s, q⟩ = .error e) ∧
    (q + 40 ≤ s.length →
      p + leNat ((s.drop (q + 12)).take 4) + 2 * leNat ((s.drop (q + 8)).take 4) ≤ s.length →
      p + leNat ((s.drop (q + 36)).take 4) + 4 * leNat ((s.drop (q + 8)).take 4) ≤ s.length →
      ∃ r rd2, readEmrText ((s.length : Int) - (p : Int)) ⟨s, q⟩ = .ok (r, rd2)) := by
  refine ⟨fun hc hpast => ?_, fun hq hstr hdx => readEmrText_of_sections s p q hq hstr hdx⟩
  cases h : readEmrText ((s.length : Int) - (p : Int)) ⟨s, q⟩ with
  | error e => exact ⟨e, rfl⟩
  | ok v =>
    obtain ⟨r, rd2⟩ := v
    obtain ⟨_, eC, eS, eD, hfit, _, _⟩ := readEmrText_ok h
    rw [← eC, ← eS, ← eD] at hpast
    rw [← eC] at hc
    rcases hfit with h0 | ⟨h1, h2, _⟩
    · exact absurd h0 hc
    · omega

set_option maxRecDepth 100000 in
/-- C8, witness: the decode of `textPastBuffer`, whose advance section ends at 88 in a
buffer of 84 bytes, is an error, and the decode of `textPastRecord`, whose
sections lie inside the buffer, returns a payload. -/
theorem readEmrText_section_bounds_witness :
    (∃ e, readEmrText ((textPastBuffer.length : Int) - ((0 : Nat) : Int))
      ⟨textPastBuffer, 36⟩ = .error e) ∧
    (∃ r rd2, readEmrText ((textPastRecord.length : Int) - ((0 : Nat) : Int))
      ⟨textPastRecord, 36⟩ = .ok (r, rd2)) :=
  ⟨(readEmrText_section_bounds textPastBuffer 0 36).1 (by decide) (Or.inr (by decide)),
    (readEmrText_section_bounds textPastRecord 0 36).2 (by decide) (by decide) (by decide)⟩

/-! ## The text payload: the lengths of the string and of the advances -/

theorem uint16s_length (bs : List Nat) : (uint16s bs).length = bs.length / 2 := by
  induction bs using uint16s.induct with
  | case1 b0 b1 rest ih =>
    simp only [uint16s, List.length_cons, ih]
    omega
  | case2 bs hne =>
    match bs, hne with
    | [], _ => simp [uint16s]
    | [_], _ => simp [uint16s]
    | b0 :: b1 :: rest, hne => exact absurd rfl (hne b0 b1 rest)

theorem int32s_length (bs : List Nat) : (int32s bs).length = bs.length / 4 := by
  induction bs using int32s.induct with
  | case1 b0 b1 b2 b3 rest ih =>
    simp only [int32s, List.length_cons, ih]
    omega
  | case2 bs hne =>
    match bs, hne with
    | [], _ => simp [int32s]
    | [_], _ => simp [int32s]
    | [_, _], _ => simp [int32s]
    | [_, _, _], _ => simp [int32s]
    | b0 :: b1 :: b2 :: b3 :: rest, hne => exact absurd rfl (hne b0 b1 b2 b3 rest)

theorem utf16Decode_cons_plain (r : Nat) (rest : List Nat) (hr : r < surr1 ∨ surr3 ≤ r) :
    utf16Decode (r :: rest) = r :: utf16Decode rest := by
  cases rest <;> simp [utf16Decode, hr]

theorem utf16Decode_length_le (l : List Nat) : (utf16Decode l).length ≤ l.length := by
  induction l using utf16Decode.induct with
  | case1 => simp [utf16Decode]
  | case2 r rest hr ih =>
    rw [utf16Decode_cons_plain r rest hr]
    simp only [List.length_cons]
    omega
  | case3 r hr =>
    simp [utf16Decode, hr]
  | case4 r hr r2 rest2 hp ih =>
    rw [utf16Decode, if_neg hr]
    simp only [if_pos hp, List.length_cons]
    omega
  | case5 r hr r2 rest2 hp ih =>
    rw [utf16Decode, if_neg hr]
    simp only [if_neg hp, List.length_cons] at ih ⊢
    omega

theorem utf16Decode_length_eq_iff (l : List Nat) :
    (utf16Decode l).length = l.length ↔ hasSurrogatePair l = false := by
  induction l using utf16Decode.induct with
  | case1 => simp [utf16Decode, hasSurrogatePair]
  | case2 r rest hr ih =>
    rw [utf16Decode_cons_plain r rest hr]
    have hnp : ∀ b, ¬ (surr1 ≤ r ∧ r < surr2 ∧ surr2 ≤ b ∧ b < surr3) := by
      intro b hb
      unfold surr1 surr2 surr3 at *
      omega
    cases rest with
    | nil => simp [utf16Decode, hasSurrogatePair]
    | cons b rest2 =>
      rw [hasSurrogatePair]
      simp only [List.length_cons, Nat.add_right_cancel_iff, decide_eq_false (hnp b),
        Bool.false_or] at ih ⊢
      exact ih
  | case3 r hr =>
    simp [utf16Decode, hr, hasSurrogatePair]
  | case4 r hr r2 rest2 hp ih =>
    rw [utf16Decode, if_neg hr]
    have hle := utf16Decode_length_le rest2
    rw [hasSurrogatePair]
    simp only [if_pos hp, List.length_cons, decide_eq_true hp, Bool.true_or]
    constructor
    · intro h; omega
    · intro h; exact absurd h (by simp)
  | case5 r hr r2 rest2 hp ih =>
    rw [utf16Decode, if_neg hr]
    rw [hasSurrogatePair]
    simp only [if_neg hp, List.length_cons, Nat.add_right_cancel_iff, decide_eq_false hp,
      Bool.false_or] at ih ⊢
    exact ih

set_option maxRecDepth 100000 in
/-- C9, counterexample: the two code units of `textSurrogatePair` form a surrogate
pair; the payload has Chars = 2 and two advances, but OutputString is the
single character U+1F600. -/
theorem readEmrText_surrogate_pair_shorter :
    (readEmrText ((textSurrogatePair.length : Int) - ((0 : Nat) : Int))
        ⟨textSurrogatePair, 36⟩).map
        (fun x => (x.1.Chars, x.1.OutputString, x.1.OutputString.length, x.1.OutputDx.length)) =
      .ok (2, [0x1F600], 1, 2) := by
  rfl

/-- C9, amended: for every payload that `readEmrText` returns, the length of OutputDx
is Chars, the length of OutputString in characters is at most Chars, and it
is Chars exactly when the string section holds no surrogate pair (a unit of
D800..DBFF directly followed by one of DC00..DFFF), each pair being decoded
to one character. -/
theorem readEmrText_lengths (s : List Nat) (p q : Nat) (r : EmrText) (rd2 : Reader)
    (h : readEmrText ((s.length : Int) - (p : Int)) ⟨s, q⟩ = .ok (r, rd2)) :
    r.OutputDx.length = r.Chars ∧ r.OutputString.length ≤ r.Chars ∧
    (r.OutputString.length = r.Chars ↔
      hasSurrogatePair (uint16s ((s.drop (p + r.offString)).take (2 * r.Chars))) = false) := by
  obtain ⟨_, _, _, _, hfit, hstr, hdx⟩ := readEmrText_ok h
  have hU : (uint16s ((s.drop (p + r.offString)).take (2 * r.Chars))).length = r.Chars := by
    rw [uint16s_length, List.length_take, List.length_drop]
    rcases hfit with h0 | ⟨h1, _, _⟩
    · rw [h0]
      simp
    · rw [Nat.min_eq_left (by omega)]
      omega
  have hD : (int32s ((s.drop (p + r.offDx)).take (4 * r.Chars))).length = r.Chars := by
    rw [int32s_length, List.length_take, List.length_drop]
    rcases hfit with h0 | ⟨_, h2, _⟩
    · rw [h0]
      simp
    · rw [Nat.min_eq_left (by omega)]
      omega
  rw [hstr, hdx]
  refine ⟨hD, ?_, ?_⟩
  · have := utf16Decode_length_le (uint16s ((s.drop (p + r.offString)).take (2 * r.Chars)))
    omega
  · have := utf16Decode_length_eq_iff (uint16s ((s.drop (p + r.offString)).take (2 * r.Chars)))
    rw [hU] at this
    exact this

set_option maxRecDepth 100000 in
/-- C9, witness: the amended statement at `textSurrogatePair`. -/
theorem readEmrText_lengths_witness :
    readEmrText ((textSurrogatePair.length : Int) - ((0 : Nat) : Int))
        ⟨textSurrogatePair, 36⟩ =
      .ok (textSurrogatePairPayload, ⟨textSurrogatePair, 88⟩) ∧
    (textSurrogatePairPayload.OutputDx.length = textSurrogatePairPayload.Chars ∧
      textSurrogatePairPayload.OutputString.length ≤ textSurrogatePairPayload.Chars ∧
      (textSurrogatePairPayload.OutputString.length = textSurrogatePairPayload.Chars ↔
        hasSurrogatePair (uint16s ((textSurrogatePair.drop
          (0 + textSurrogatePairPayload.offString)).take
            (2 * textSurrogatePairPayload.Chars))) = false)) :=
  ⟨rfl, readEmrText_lengths textSurrogatePair 0 36 textSurrogatePairPayload
    ⟨textSurrogatePair, 88⟩ rfl⟩

/-! ## Container assembly: the records of a file -/

theorem ReadFile.store_foldl_Records {H E O : Type} (recs : List (Recorder H E O))
    (file : EmfFile H E O) :
    (recs.foldl ReadFile.store file).Records =
      file.Records ++ recs.filter Recorder.isGeneric := by
  induction recs generalizing file with
  | nil => simp
  | cons x xs ih =>
    rw [List.foldl_cons, ih]
    cases x with
    | header h0 => simp [ReadFile.store, Recorder.isGeneric, Recorder.isHeader]
    | eof e => simp [ReadFile.store, Recorder.isGeneric, Recorder.isHeader, Recorder.isEof]
    | other o => simp [ReadFile.store, Recorder.isGeneric, Recorder.isHeader, Recorder.isEof]

theorem ReadFile.loop_eq {H E O : Type} (readRecord : Dec (Recorder H E O)) (fuel : Nat)
    (file : EmfFile H E O) (rd : Reader) :
    ReadFile.loop readRecord fuel file rd =
      match decodeAll readRecord fuel rd with
      | .error e => .error e
      | .ok recs => .ok (recs.foldl ReadFile.store file) := by
  induction fuel generalizing file rd with
  | zero =>
    unfold ReadFile.loop decodeAll
    split <;> rfl
  | succ n ih =>
    unfold ReadFile.loop decodeAll
    split
    · cases hr : readRecord rd with
      | error e => rfl
      | ok v =>
        obtain ⟨rec, rd1⟩ := v
        simp only [ih]
        cases decodeAll readRecord n rd1 with
        | error e => rfl
        | ok recs => rfl
    · rfl

/-- The iteration budget does not change a result: what `decodeAll` returns with some
budget it returns with every larger one. -/
theorem decodeAll_mono {H E O : Type} (readRecord : Dec (Recorder H E O)) (fuel k : Nat)
    (rd : Reader) (recs : List (Recorder H E O))
    (h : decodeAll readRecord fuel rd = .ok recs) :
    decodeAll readRecord (fuel + k) rd = .ok recs := by
  induction fuel generalizing rd recs with
  | zero =>
    unfold decodeAll at h
    split at h
    · exact absurd h (by simp)
    · next hlen =>
      cases k with
      | zero => unfold decodeAll; rw [if_neg hlen]; exact h
      | succ k => rw [Nat.zero_add]; unfold decodeAll; rw [if_neg hlen]; exact h
  | succ n ih =>
    have e : n + 1 + k = (n + k) + 1 := by omega
    rw [e]
    unfold decodeAll at h ⊢
    split
    · next hlen =>
      rw [if_pos hlen] at h
      cases hr : readRecord rd with
      | error e0 => rw [hr] at h; exact absurd h (by simp)
      | ok v =>
        obtain ⟨rec, rd1⟩ := v
        rw [hr] at h
        simp only at h ⊢
        cases hd : decodeAll readRecord n rd1 with
        | error e0 => rw [hd] at h; exact absurd h (by simp)
        | ok recs1 =>
          rw [hd] at h
          rw [ih rd1 recs1 hd]
          exact h
    · next hlen =>
      rw [if_neg hlen] at h
      exact h

/-- The iteration budget does not change a result of `ReadFile`: a file returned with
some budget is returned with every larger one. -/
theorem ReadFile_mono {H E O : Type} (readRecord : Dec (Recorder H E O)) (fuel k : Nat)
    (data : List Nat) (file : EmfFile H E O)
    (h : ReadFile readRecord fuel data = .ok file) :
    ReadFile readRecord (fuel + k) data = .ok file := by
  unfold ReadFile at h ⊢
  rw [ReadFile.loop_eq] at h ⊢
  cases hd : decodeAll readRecord fuel ⟨data, 0⟩ with
  | error e => rw [hd] at h; exact absurd h (by simp)
  | ok recs =>
    rw [hd] at h
    rw [decodeAll_mono readRecord fuel k _ recs hd]
    exact h

set_option maxRecDepth 100000 in
/-- C10, counterexample: in `fileRecordAfterEof` an Eof record is followed by twelve
more bytes; `ReadFile` decodes them as a further record, which appears in
Records. -/
theorem ReadFile_record_after_eof :
    ReadFile readRecord 3 fileRecordAfterEof =
      .ok fileRecordAfterEofResult ∧
    decodeAll readRecord 3 ⟨fileRecordAfterEof, 0⟩ =
      .ok [.header ⟨1, 88⟩, .eof ⟨14, 20⟩, .other ⟨37, 12⟩] := by
  refine ⟨?_, ?_⟩ <;> rfl

/-- C10, amended: `ReadFile` does not stop at an Eof record. Whenever it returns a file,
the loop has decoded the whole record sequence of the buffer, up to its last
byte; Records is the subsequence of the records that are neither Header nor
Eof records, so a generic record that follows an Eof record is an element of
Records like one that precedes it, and no Eof record is an element of
Records. -/
theorem ReadFile_past_eof {H E O : Type} (readRecord : Dec (Recorder H E O)) (fuel : Nat)
    (data : List Nat) (file : EmfFile H E O)
    (h : ReadFile readRecord fuel data = .ok file) :
    ∃ recs, decodeAll readRecord fuel ⟨data, 0⟩ = .ok recs ∧
      file.Records = recs.filter Recorder.isGeneric ∧
      (∀ pre e post, recs = pre ++ .eof e :: post →
        ∀ x ∈ post, x.isGeneric = true → x ∈ file.Records) ∧
      (∀ x ∈ file.Records, x.isEof = false) := by
  unfold ReadFile at h
  rw [ReadFile.loop_eq] at h
  cases hd : decodeAll readRecord fuel ⟨data, 0⟩ with
  | error e => rw [hd] at h; exact absurd h (by simp)
  | ok recs =>
    rw [hd] at h
    injection h with h
    have hrec : file.Records = recs.filter Recorder.isGeneric := by
      rw [← h, ReadFile.store_foldl_Records]
      rfl
    refine ⟨recs, rfl, hrec, ?_, ?_⟩
    · intro pre e post hsplit x hx hg
      rw [hrec, List.mem_filter]
      refine ⟨?_, hg⟩
      rw [hsplit]
      simp [hx]
    · intro x hx
      rw [hrec, List.mem_filter] at hx
      have hg := hx.2
      unfold Recorder.isGeneric at hg
      cases x with
      | header h0 => rfl
      | eof e => simp [Recorder.isHeader, Recorder.isEof] at hg
      | other o => rfl

set_option maxRecDepth 100000 in
/-- C10, witness: the amended statement at `fileRecordAfterEof`. -/
theorem ReadFile_past_eof_witness :
    ∃ recs, decodeAll readRecord 3 ⟨fileRecordAfterEof, 0⟩ = .ok recs ∧
      fileRecordAfterEofResult.Records = recs.filter Recorder.isGeneric ∧
      (∀ pre e post, recs = pre ++ .eof e :: post →
        ∀ x ∈ post, x.isGeneric = true → x ∈ fileRecordAfterEofResult.Records) ∧
      (∀ x ∈ fileRecordAfterEofResult.Records, x.isEof = false) :=
  ReadFile_past_eof readRecord 3 fileRecordAfterEof fileRecordAfterEofResult rfl

/-! ## Container assembly: header, end of file and errors -/

theorem decodeAll_Decodes {H E O : Type} (readRecord : Dec (Recorder H E O)) (fuel : Nat)
    (rd : Reader) (recs : List (Recorder H E O))
    (h : decodeAll readRecord fuel rd = .ok recs) :
    ∃ rd2, Decodes readRecord rd recs rd2 ∧ rd2.Len = 0 := by
  induction fuel generalizing rd recs with
  | zero =>
    unfold decodeAll at h
    split at h
    · exact absurd h (by simp)
    · next hlen =>
      injection h with h
      subst h
      exact ⟨rd, Decodes.done rd, by omega⟩
  | succ n ih =>
    unfold decodeAll at h
    split at h
    · next hlen =>
      cases hr : readRecord rd with
      | error e0 => rw [hr] at h; exact absurd h (by simp)
      | ok v =>
        obtain ⟨rec, rd1⟩ := v
        rw [hr] at h
        simp only at h
        cases hd : decodeAll readRecord n rd1 with
        | error e0 => rw [hd] at h; exact absurd h (by simp)
        | ok recs1 =>
          rw [hd] at h
          injection h with h
          subst h
          obtain ⟨rd2, hdec, hlen2⟩ := ih rd1 recs1 hd
          exact ⟨rd2, Decodes.next rd rd1 rd2 rec recs1 hlen hr hdec, hlen2⟩
    · next hlen =>
      injection h with h
      subst h
      exact ⟨rd, Decodes.done rd, by omega⟩

theorem Decodes_decodeAll_error {H E O : Type} (readRecord : Dec (Recorder H E O))
    (rd rd2 : Reader) (recs : List (Recorder H E O)) (e : Err)
    (hdec : Decodes readRecord rd recs rd2) (hlen : rd2.Len > 0)
    (herr : readRecord rd2 = .error e) (fuel : Nat) (hfuel : recs.length < fuel) :
    decodeAll readRecord fuel rd = .error e := by
  induction hdec generalizing fuel with
  | done rd0 =>
    cases fuel with
    | zero => exact absurd hfuel (by simp)
    | succ n =>
      unfold decodeAll
      rw [if_pos hlen, herr]
  | next rd0 rd1 rd3 rec recs0 hlen0 hok _ ih =>
    cases fuel with
    | zero => exact absurd hfuel (by simp)
    | succ n =>
      unfold decodeAll
      rw [if_pos hlen0, hok]
      simp only
      rw [ih hlen herr n (by simp only [List.length_cons] at hfuel; omega)]

theorem ReadFile.store_foldl_Header {H E O : Type} (recs : List (Recorder H E O))
    (file : EmfFile H E O) :
    (recs.foldl ReadFile.store file).Header =
      match (recs.filterMap Recorder.header?).getLast? with
      | some h => some h
      | none => file.Header := by
  induction recs using List.reverseRecOn with
  | nil => simp
  | append_singleton xs x ih =>
    rw [List.foldl_append, List.foldl_cons, List.foldl_nil, List.filterMap_append]
    cases x with
    | header h0 => simp [ReadFile.store, Recorder.header?]
    | eof e =>
      simp only [ReadFile.store, Recorder.header?, List.filterMap_cons, List.filterMap_nil,
        List.append_nil]
      exact ih
    | other o =>
      simp only [ReadFile.store, Recorder.header?, List.filterMap_cons, List.filterMap_nil,
        List.append_nil]
      exact ih

theorem ReadFile.store_foldl_Eof {H E O : Type} (recs : List (Recorder H E O))
    (file : EmfFile H E O) :
    (recs.foldl ReadFile.store file).Eof =
      match (recs.filterMap Recorder.eof?).getLast? with
      | some e => some e
      | none => file.Eof := by
  induction recs using List.reverseRecOn with
  | nil => simp
  | append_singleton xs x ih =>
    rw [List.foldl_append, List.foldl_cons, List.foldl_nil, List.filterMap_append]
    cases x with
    | eof e => simp [ReadFile.store, Recorder.eof?]
    | header h0 =>
      simp only [ReadFile.store, Recorder.eof?, List.filterMap_cons, List.filterMap_nil,
        List.append_nil]
      exact ih
    | other o =>
      simp only [ReadFile.store, Recorder.eof?, List.filterMap_cons, List.filterMap_nil,
        List.append_nil]
      exact ih

/-- What a successful `ReadFile` returns, in terms of the record sequence of the
buffer: the loop has decoded it up to the last byte; `Header` is the last
header record of it, `Eof` the last end-of-file record, `Records` the
subsequence of the other records. -/
theorem ReadFile_ok {H E O : Type} (readRecord : Dec (Recorder H E O)) (fuel : Nat)
    (data : List Nat) (file : EmfFile H E O)
    (h : ReadFile readRecord fuel data = .ok file) :
    ∃ recs rd, Decodes readRecord ⟨data, 0⟩ recs rd ∧ rd.Len = 0 ∧
      file.Header = (recs.filterMap Recorder.header?).getLast? ∧
      file.Eof = (recs.filterMap Recorder.eof?).getLast? ∧
      file.Records = recs.filter Recorder.isGeneric := by
  unfold ReadFile at h
  rw [ReadFile.loop_eq] at h
  cases hd : decodeAll readRecord fuel ⟨data, 0⟩ with
  | error e => rw [hd] at h; exact absurd h (by simp)
  | ok recs =>
    rw [hd] at h
    injection h with h
    obtain ⟨rd, hdec, hlen⟩ := decodeAll_Decodes readRecord fuel ⟨data, 0⟩ recs hd
    refine ⟨recs, rd, hdec, hlen, ?_, ?_, ?_⟩
    · rw [← h, ReadFile.store_foldl_Header]
      cases (recs.filterMap Recorder.header?).getLast? <;> rfl
    · rw [← h, ReadFile.store_foldl_Eof]
      cases (recs.filterMap Recorder.eof?).getLast? <;> rfl
    · rw [← h, ReadFile.store_foldl_Records]
      rfl

set_option maxRecDepth 100000 in
/-- C11, counterexample: `fileTwoHeaders` holds two header records, of 88 and of 100
bytes; the `Header` that `ReadFile` returns is the second one, and the second
one is not an element of `Records`, which is empty. -/
theorem ReadFile_two_headers :
    ReadFile readRecord 3 fileTwoHeaders = .ok fileTwoHeadersResult ∧
    decodeAll readRecord 3 ⟨fileTwoHeaders, 0⟩ =
      .ok [.header ⟨1, 88⟩, .header ⟨1, 100⟩, .eof ⟨14, 20⟩] ∧
    fileTwoHeadersResult.Header = some ⟨1, 100⟩ ∧ fileTwoHeadersResult.Records = [] := by
  refine ⟨?_, ?_, ?_, ?_⟩ <;> rfl

/-- C11, amended: for every buffer that `ReadFile` reads successfully, `EmfFile.Header` is
the last header record of the record sequence of the buffer (each header
record replaces the one stored before), absent when the sequence holds none,
and no header record is an element of `EmfFile.Records`. -/
theorem ReadFile_last_header {H E O : Type} (readRecord : Dec (Recorder H E O)) (fuel : Nat)
    (data : List Nat) (file : EmfFile H E O)
    (h : ReadFile readRecord fuel data = .ok file) :
    ∃ recs rd, Decodes readRecord ⟨data, 0⟩ recs rd ∧ rd.Len = 0 ∧
      file.Header = (recs.filterMap Recorder.header?).getLast? ∧
      (∀ x ∈ file.Records, x.isHeader = false) := by
  obtain ⟨recs, rd, hdec, hlen, hH, _, hR⟩ := ReadFile_ok readRecord fuel data file h
  refine ⟨recs, rd, hdec, hlen, hH, ?_⟩
  intro x hx
  rw [hR, List.mem_filter] at hx
  have hg := hx.2
  unfold Recorder.isGeneric at hg
  cases x with
  | header h0 => simp [Recorder.isHeader] at hg
  | eof e => rfl
  | other o => rfl

set_option maxRecDepth 100000 in
/-- C11, witness: the amended statement at `fileTwoHeaders`. -/
theorem ReadFile_last_header_witness :
    ∃ recs rd, Decodes readRecord ⟨fileTwoHeaders, 0⟩ recs rd ∧ rd.Len = 0 ∧
      fileTwoHeadersResult.Header = (recs.filterMap Recorder.header?).getLast? ∧
      (∀ x ∈ fileTwoHeadersResult.Records, x.isHeader = false) :=
  ReadFile_last_header readRecord 3 fileTwoHeaders fileTwoHeadersResult rfl

/-- C13: `ReadFile` is all-or-nothing. If, after any number of records decoded one after
another from the start of the buffer, bytes are left and `readRecord` returns
an error, then `ReadFile` returns that error and no file (for every iteration
budget that reaches the failing record); and when `ReadFile` returns a file,
the records of the buffer have all been decoded without error, up to its
last byte. -/
theorem ReadFile_all_or_nothing {H E O : Type} (readRecord : Dec (Recorder H E O))
    (fuel : Nat) (data : List Nat) :
    (∀ recs rd e, Decodes readRecord ⟨data, 0⟩ recs rd → rd.Len > 0 →
      readRecord rd = .error e → recs.length < fuel →
      ReadFile readRecord fuel data = .error e) ∧
    (∀ file, ReadFile readRecord fuel data = .ok file →
      ∃ recs rd, Decodes readRecord ⟨data, 0⟩ recs rd ∧ rd.Len = 0) := by
  constructor
  · intro recs rd e hdec hlen herr hfuel
    unfold ReadFile
    rw [ReadFile.loop_eq,
      Decodes_decodeAll_error readRecord ⟨data, 0⟩ rd recs e hdec hlen herr fuel hfuel]
  · intro file h
    obtain ⟨recs, rd, hdec, hlen, _⟩ := ReadFile_ok readRecord fuel data file h
    exact ⟨recs, rd, hdec, hlen⟩

set_option maxRecDepth 100000 in
/-- C13, witness: in `fileTruncatedSecond` the header record decodes and the four bytes
after it do not; `ReadFile` returns the error of the second call. -/
theorem ReadFile_all_or_nothing_witness :
    Decodes readRecord ⟨fileTruncatedSecond, 0⟩ [.header ⟨1, 88⟩] ⟨fileTruncatedSecond, 88⟩ ∧
    readRecord ⟨fileTruncatedSecond, 88⟩ = .error .EOF ∧
    ReadFile readRecord 2 fileTruncatedSecond = .error .EOF :=
  ⟨Decodes.next _ _ _ _ _ (by decide) rfl (Decodes.done _), rfl,
    (ReadFile_all_or_nothing readRecord 2 fileTruncatedSecond).1 [.header ⟨1, 88⟩]
      ⟨fileTruncatedSecond, 88⟩ .EOF
      (Decodes.next _ _ _ _ _ (by decide) rfl (Decodes.done _)) (by decide) rfl (by decide)⟩

theorem getLast?_filterMap_isSome {α β : Type} (f : α → Option β) (l : List α) :
    ((l.filterMap f).getLast?).isSome = true ↔ ∃ x ∈ l, (f x).isSome = true := by
  constructor
  · intro h
    cases hl : (l.filterMap f).getLast? with
    | none => rw [hl] at h; exact absurd h (by simp)
    | some y =>
      have hy : y ∈ l.filterMap f := List.mem_of_getLast?_eq_some hl
      rw [List.mem_filterMap] at hy
      obtain ⟨x, hx, hfx⟩ := hy
      exact ⟨x, hx, by rw [hfx]; rfl⟩
  · rintro ⟨x, hx, hfx⟩
    cases hf : f x with
    | none => rw [hf] at hfx; exact absurd hfx (by simp)
    | some y =>
      have hy : y ∈ l.filterMap f := List.mem_filterMap.mpr ⟨x, hx, hf⟩
      cases hl : (l.filterMap f).getLast? with
      | none =>
        rw [List.getLast?_eq_none_iff] at hl
        rw [hl] at hy
        exact absurd hy (by simp)
      | some z => rfl

theorem Recorder.header?_isSome {H E O : Type} (x : Recorder H E O) :
    (x.header?).isSome = x.isHeader := by
  cases x <;> rfl

theorem Recorder.eof?_isSome {H E O : Type} (x : Recorder H E O) :
    (x.eof?).isSome = x.isEof := by
  cases x <;> rfl

theorem initContext_cases {G : Type} (newGC : Rectangle → G) (w h : Int) :
    initContext newGC w h = .error .hugeImage ∨
    initContext newGC w h = .ok
      { gc := newGC (imageRect 0 0 w h), Tr := Matrix.identity, img := imageRect 0 0 w h,
        w := w, h := h, mm := MM_TEXT, objects := [], wo := none, vo := none, we := none,
        ve := none } := by
  unfold initContext NewRGBA
  by_cases hc : (imageRect 0 0 w h).Dx < 0 ∨ (imageRect 0 0 w h).Dy < 0 ∨
      2 ^ 63 ≤ 4 * (imageRect 0 0 w h).Dx * (imageRect 0 0 w h).Dy
  · left
    rw [if_pos hc]
    rfl
  · right
    rw [if_neg hc]
    rfl

theorem EmfFile.drawSetup_some {G E O : Type} (newGC : Rectangle → G)
    (f : EmfFile HeaderRecord E O) (hdr : HeaderRecord) (hH : f.Header = some hdr) :
    EmfFile.drawSetup newGC f = .error .hugeImage ∨
    ∃ ctx0, initContext newGC (hdr.Original.Bounds.Width + 1) (hdr.Original.Bounds.Height + 1) =
        .ok ctx0 ∧
      EmfFile.drawSetup newGC f = .ok
        (if hdr.Original.Bounds.Left ≠ 0 ∨ hdr.Original.Bounds.Top ≠ 0 then
          ctx0.Translate (float64.ofInt hdr.Original.Bounds.Left).neg
            (float64.ofInt hdr.Original.Bounds.Top).neg
        else ctx0) := by
  unfold EmfFile.drawSetup
  rw [hH]
  rcases initContext_cases newGC (hdr.Original.Bounds.Width + 1)
    (hdr.Original.Bounds.Height + 1) with he | hok
  · left
    simp only [he, bind, Except.bind]
  · right
    refine ⟨_, hok, ?_⟩
    simp only [hok, bind, Except.bind]
    split <;> rfl

theorem EmfFile.Draw_nil_iff {G E O : Type} (newGC : Rectangle → G)
    (draw : Recorder HeaderRecord E O → context G → context G)
    (f : EmfFile HeaderRecord E O) :
    f.Draw newGC draw = .error .nilDereference ↔ f.Header = none := by
  unfold EmfFile.Draw
  cases hH : f.Header with
  | none => simp [EmfFile.drawSetup, hH, bind, Except.bind]
  | some hdr =>
    rcases EmfFile.drawSetup_some newGC f hdr hH with he | ⟨ctx0, _, hok⟩
    · simp [he, bind, Except.bind]
    · simp [hok, bind, Except.bind, pure, Except.pure]

set_option maxRecDepth 100000 in
/-- C12, counterexample: for the empty buffer, and for a buffer that holds one generic
record only, `ReadFile` returns without error a file that has no Header and
no Eof record; `Draw` on it is a nil pointer dereference. -/
theorem ReadFile_without_header :
    ReadFile readRecordHeader 0 [] = .ok { Header := none, Records := [], Eof := none } ∧
    ReadFile readRecordHeader 1 fileOnlyGeneric =
      .ok { Header := none, Records := [.other ⟨37, 12⟩], Eof := none } ∧
    EmfFile.Draw (fun _ => ()) (fun _ ctx => ctx)
      ({ Header := none, Records := [], Eof := none } : EmfFile HeaderRecord Record Record) =
      .error .nilDereference := by
  refine ⟨?_, ?_, ?_⟩ <;> rfl

/-- C12, amended: a file that `ReadFile` returns without error has a Header exactly when
the record sequence of the buffer holds a header record, and an Eof record
exactly when it holds an end-of-file record; `ReadFile` itself checks
neither. `Draw` dereferences the Header: it ends in a nil pointer
dereference exactly on a file without Header. -/
theorem ReadFile_header_eof_presence {E O : Type}
    (readRecord : Dec (Recorder HeaderRecord E O)) (fuel : Nat) (data : List Nat)
    (file : EmfFile HeaderRecord E O)
    (h : ReadFile readRecord fuel data = .ok file) :
    ∃ recs rd, Decodes readRecord ⟨data, 0⟩ recs rd ∧ rd.Len = 0 ∧
      (file.Header.isSome = true ↔ ∃ x ∈ recs, x.isHeader = true) ∧
      (file.Eof.isSome = true ↔ ∃ x ∈ recs, x.isEof = true) ∧
      (∀ (G : Type) (newGC : Rectangle → G)
        (draw : Recorder HeaderRecord E O → context G → context G),
        file.Draw newGC draw = .error .nilDereference ↔ file.Header = none) := by
  obtain ⟨recs, rd, hdec, hlen, hH, hE, _⟩ := ReadFile_ok readRecord fuel data file h
  refine ⟨recs, rd, hdec, hlen, ?_, ?_, fun G newGC draw => EmfFile.Draw_nil_iff newGC draw file⟩
  · rw [hH, getLast?_filterMap_isSome]
    simp only [Recorder.header?_isSome]
  · rw [hE, getLast?_filterMap_isSome]
    simp only [Recorder.eof?_isSome]

set_option maxRecDepth 100000 in
/-- C12, witness: the amended statement at `fileDrawOrder`, which holds a header and an
end-of-file record. -/
theorem ReadFile_header_eof_presence_witness :
    ∃ recs rd, Decodes readRecordHeader ⟨fileDrawOrder, 0⟩ recs rd ∧ rd.Len = 0 ∧
      (fileDrawOrderResult.Header.isSome = true ↔ ∃ x ∈ recs, x.isHeader = true) ∧
      (fileDrawOrderResult.Eof.isSome = true ↔ ∃ x ∈ recs, x.isEof = true) ∧
      (∀ (G : Type) (newGC : Rectangle → G)
        (draw : Recorder HeaderRecord Record Record → context G → context G),
        fileDrawOrderResult.Draw newGC draw = .error .nilDereference ↔
          fileDrawOrderResult.Header = none) :=
  ReadFile_header_eof_presence readRecordHeader 4 fileDrawOrder fileDrawOrderResult rfl

theorem EmfFile.drawLoop_eq_foldl {G R : Type} (draw : R → context G → context G)
    (recs : List R) (ctx : context G) :
    EmfFile.drawLoop draw recs ctx = recs.foldl (fun c r => draw r c) ctx := by
  induction recs generalizing ctx with
  | nil => rfl
  | cons x xs ih => exact ih (draw x ctx)

theorem EmfFile.drawLoop_noteRecord {R : Type} (recs : List R) (ctx : context (List R)) :
    (EmfFile.drawLoop noteRecord recs ctx).gc = ctx.gc ++ recs := by
  induction recs generalizing ctx with
  | nil => simp [EmfFile.drawLoop]
  | cons x xs ih =>
    rw [EmfFile.drawLoop, ih]
    simp [noteRecord]

/-! ## The type `float64`: results that are exact -/

theorem pow2_eq (p : Int) : pow2 p = (2 : ℚ) ^ p := by
  unfold pow2
  split
  · next h =>
    obtain ⟨n, rfl⟩ := Int.eq_ofNat_of_zero_le h
    simp
  · next h =>
    have h1 : 0 ≤ -p := by omega
    obtain ⟨n, hn⟩ := Int.eq_ofNat_of_zero_le h1
    have hp : p = -(n : Int) := by omega
    rw [hn, hp]
    simp [zpow_neg]

theorem ilog2_le (a : ℚ) (ha : 0 < a) : (2 : ℚ) ^ ilog2 a ≤ a := by
  unfold ilog2
  simp only
  split
  · next h => rw [← pow2_eq]; exact h
  · have hnum : 0 < a.num := Rat.num_pos.mpr ha
    have hn0 : a.num.natAbs ≠ 0 := by omega
    have h1 : 2 ^ a.num.natAbs.log2 ≤ a.num.natAbs := Nat.log2_self_le hn0
    have h2 : a.den < 2 ^ (a.den.log2 + 1) := Nat.lt_log2_self
    have h1q : (2 : ℚ) ^ a.num.natAbs.log2 ≤ (a.num.natAbs : ℚ) := by exact_mod_cast h1
    have h2q : (a.den : ℚ) ≤ (2 : ℚ) ^ (a.den.log2 + 1) := by exact_mod_cast h2.le
    have hden : (0 : ℚ) < a.den := by exact_mod_cast a.den_pos
    have hnumq : ((a.num.natAbs : ℕ) : ℚ) = (a.num : ℚ) := by
      have h : ((a.num.natAbs : ℕ) : Int) = a.num := Int.natAbs_of_nonneg hnum.le
      calc ((a.num.natAbs : ℕ) : ℚ) = (((a.num.natAbs : ℕ) : Int) : ℚ) := (Int.cast_natCast _).symm
        _ = (a.num : ℚ) := congrArg Int.cast h
    have ha' : a = (a.num : ℚ) / (a.den : ℚ) := (Rat.num_div_den a).symm
    have e : (2 : ℚ) ^ ((a.num.natAbs.log2 : Int) - (a.den.log2 : Int) - 1) =
        (2 : ℚ) ^ a.num.natAbs.log2 / (2 : ℚ) ^ (a.den.log2 + 1) := by
      rw [show ((a.num.natAbs.log2 : Int) - (a.den.log2 : Int) - 1) =
        (a.num.natAbs.log2 : Int) - ((a.den.log2 + 1 : ℕ) : Int) by push_cast; ring]
      rw [zpow_sub₀ (by norm_num : (2 : ℚ) ≠ 0), zpow_natCast, zpow_natCast]
    rw [e]
    rw [div_le_iff₀ (by positivity)]
    calc (2 : ℚ) ^ a.num.natAbs.log2 ≤ (a.num : ℚ) := by rw [← hnumq]; exact h1q
      _ = a * a.den := by rw [Rat.mul_den_eq_num]
      _ ≤ a * (2 : ℚ) ^ (a.den.log2 + 1) := by
        exact mul_le_mul_of_nonneg_left h2q ha.le

theorem roundHalfEven_intCast (z : Int) : roundHalfEven (z : ℚ) = z := by
  unfold roundHalfEven
  simp

theorem roundMag_dyadic (n j : ℕ) (hn0 : 0 < n) (hn : n < 2 ^ 53) (hj : j ≤ 1074) :
    roundMag ((n : ℚ) / 2 ^ j) = (n : ℚ) / 2 ^ j := by
  have ha : (0 : ℚ) < (n : ℚ) / 2 ^ j := by positivity
  have hlt : (n : ℚ) / 2 ^ j < (2 : ℚ) ^ ((53 : Int) - j) := by
    rw [zpow_sub₀ (by norm_num : (2 : ℚ) ≠ 0), zpow_natCast]
    have : (n : ℚ) < (2 : ℚ) ^ (53 : Int) := by
      have h1 : (n : ℚ) < (2 : ℚ) ^ (53 : ℕ) := by exact_mod_cast hn
      have h2 : (2 : ℚ) ^ (53 : Int) = (2 : ℚ) ^ (53 : ℕ) := by norm_cast
      rw [h2]; exact h1
    exact div_lt_div_of_pos_right this (by positivity)
  have he : ilog2 ((n : ℚ) / 2 ^ j) < 53 - (j : Int) := by
    have h1 := ilog2_le _ ha
    have h2 := lt_of_le_of_lt h1 hlt
    exact (zpow_lt_zpow_iff_right₀ (by norm_num : (1 : ℚ) < 2)).mp h2
  unfold roundMag
  simp only
  generalize ilog2 ((n : ℚ) / 2 ^ j) = e at he
  have hp : max e (-1022) - 52 ≤ -(j : Int) := by omega
  generalize max e (-1022) - 52 = p at hp
  obtain ⟨t, ht⟩ := Int.eq_ofNat_of_zero_le (show 0 ≤ -p - j by omega)
  have hpe : p = -((t + j : ℕ) : Int) := by push_cast; omega
  rw [pow2_eq, hpe]
  have e1 : (n : ℚ) / 2 ^ j / (2 : ℚ) ^ (-((t + j : ℕ) : Int)) = (((n * 2 ^ t : ℕ) : Int) : ℚ) := by
    rw [zpow_neg, zpow_natCast]
    push_cast
    field_simp
    ring
  rw [e1, roundHalfEven_intCast, zpow_neg, zpow_natCast]
  push_cast
  field_simp
  ring

theorem float64.round_dyadic (b : Bool) (n j : ℕ) (hn0 : 0 < n) (hn : n < 2 ^ 53)
    (hj : j ≤ 1074) :
    float64.round b ((n : ℚ) / 2 ^ j) = .fin (if b then -((n : ℚ) / 2 ^ j) else (n : ℚ) / 2 ^ j) := by
  have ha : (0 : ℚ) < (n : ℚ) / 2 ^ j := by positivity
  unfold float64.round
  rw [if_neg ha.ne.symm]
  simp only
  rw [roundMag_dyadic n j hn0 hn hj, if_neg, if_neg ha.ne.symm]
  rw [pow2_eq, not_le]
  calc (n : ℚ) / 2 ^ j ≤ n := div_le_self (by positivity) (one_le_pow₀ (by norm_num))
    _ < ((2 ^ 53 : ℕ) : ℚ) := by exact_mod_cast hn
    _ < (2 : ℚ) ^ (1024 : Int) := by norm_num

theorem float64.round_natCast (b : Bool) (n : ℕ) (hn0 : 0 < n) (hn : n < 2 ^ 53) :
    float64.round b (n : ℚ) = .fin (if b then -(n : ℚ) else (n : ℚ)) := by
  have h := float64.round_dyadic b n 0 hn0 hn (by norm_num)
  simpa using h

theorem float64.ofInt_eq (i : Int) (hi : i.natAbs < 2 ^ 53) : float64.ofInt i = .fin (i : ℚ) := by
  unfold float64.ofInt
  by_cases h0 : i = 0
  · subst h0
    simp [float64.round, float64.zero]
  · have hpos : 0 < i.natAbs := Int.natAbs_pos.mpr h0
    rw [float64.round_natCast _ _ hpos hi]
    congr 1
    by_cases hneg : i < 0
    · simp only [hneg, decide_True, if_true]
      have h : ((i.natAbs : ℕ) : Int) = -i := by omega
      have : ((i.natAbs : ℕ) : ℚ) = -(i : ℚ) := by
        calc ((i.natAbs : ℕ) : ℚ) = (((i.natAbs : ℕ) : Int) : ℚ) := (Int.cast_natCast _).symm
          _ = ((-i : Int) : ℚ) := congrArg Int.cast h
          _ = -(i : ℚ) := Int.cast_neg i
      rw [this]; ring
    · simp only [hneg, decide_False]
      have h : ((i.natAbs : ℕ) : Int) = i := by omega
      calc ((i.natAbs : ℕ) : ℚ) = (((i.natAbs : ℕ) : Int) : ℚ) := (Int.cast_natCast _).symm
        _ = (i : ℚ) := congrArg Int.cast h


theorem float64.round_of_eq (b : Bool) (a : ℚ) (n j : ℕ) (h : a = (n : ℚ) / 2 ^ j)
    (hn0 : 0 < n) (hn : n < 2 ^ 53) (hj : j ≤ 1074) :
    float64.round b a = .fin (if b then -a else a) := by
  rw [h]; exact float64.round_dyadic b n j hn0 hn hj

theorem float64.round_zero (b : Bool) : float64.round b 0 = float64.zero b := by
  simp [float64.round]

theorem float64.mul_fin (a b : ℚ) :
    float64.mul (.fin a) (.fin b) =
      float64.round (xor (decide (a < 0)) (decide (b < 0))) (|a| * |b|) := by
  simp [float64.mul, float64.isNaN, float64.isInf, float64.sign, float64.val]

theorem float64.div_fin (a b : ℚ) (hb : b ≠ 0) :
    float64.div (.fin a) (.fin b) =
      float64.round (xor (decide (a < 0)) (decide (b < 0))) (|a| / |b|) := by
  simp [float64.div, float64.isNaN, float64.isInf, float64.isZero, float64.sign, float64.val, hb]

theorem float64.add_fin (a b : ℚ) :
    float64.add (.fin a) (.fin b) =
      if a + b = 0 then float64.zero (decide (a < 0) && decide (b < 0))
      else float64.round (decide (a + b < 0)) |a + b| := by
  simp [float64.add, float64.isNaN, float64.isInf, float64.sign, float64.val]


theorem float64.round_intCast (z : Int) :
    float64.round (decide ((z : ℚ) < 0)) |(z : ℚ)| = float64.ofInt z := by
  unfold float64.ofInt
  have h1 : decide ((z : ℚ) < 0) = decide (z < 0) := by simp
  have h2 : |(z : ℚ)| = ((z.natAbs : ℕ) : ℚ) := by
    rw [Nat.cast_natAbs, Int.cast_abs]
  rw [h1, h2]

theorem float64.mul_intCast_one (a : Int) (ha : a.natAbs < 2 ^ 53) :
    float64.mul (.fin (a : ℚ)) (.fin 1) = .fin (a : ℚ) := by
  rw [float64.mul_fin]
  have h1 : decide ((1 : ℚ) < 0) = false := by norm_num
  rw [h1, Bool.xor_false, abs_one, mul_one, float64.round_intCast, float64.ofInt_eq a ha]

theorem float64.mul_fin_zero (a : ℚ) :
    float64.mul (.fin a) (.fin 0) = float64.zero (decide (a < 0)) := by
  rw [float64.mul_fin]
  simp [float64.round_zero]

theorem float64.mul_negZero_one : float64.mul .negZero (.fin 1) = .negZero := by
  simp [float64.mul, float64.isNaN, float64.isInf, float64.sign, float64.val,
    float64.round_zero, float64.zero]

theorem float64.mul_negZero_zero : float64.mul .negZero (.fin 0) = .negZero := by
  simp [float64.mul, float64.isNaN, float64.isInf, float64.sign, float64.val,
    float64.round_zero, float64.zero]

theorem float64.add_intCast (a b : Int) (h : (a + b).natAbs < 2 ^ 53) :
    float64.add (.fin (a : ℚ)) (.fin (b : ℚ)) = .fin ((a + b : Int) : ℚ) := by
  rw [float64.add_fin]
  have e : (a : ℚ) + (b : ℚ) = ((a + b : Int) : ℚ) := (Int.cast_add a b).symm
  by_cases h0 : a + b = 0
  · have h0q : (a : ℚ) + (b : ℚ) = 0 := by rw [e, h0]; simp
    rw [if_pos h0q, h0]
    have hs : (decide ((a : ℚ) < 0) && decide ((b : ℚ) < 0)) = false := by
      simp only [Int.cast_lt_zero, Bool.and_eq_false_imp, decide_eq_true_eq, decide_eq_false_iff_not]
      intro ha
      omega
    rw [hs]
    simp [float64.zero]
  · have h0q : ¬ ((a : ℚ) + (b : ℚ) = 0) := by
      rw [e]; exact_mod_cast h0
    rw [if_neg h0q, e, float64.round_intCast, float64.ofInt_eq _ h]

theorem float64.add_intCast_negZero (a : Int) (h : a.natAbs < 2 ^ 53) :
    float64.add (.fin (a : ℚ)) .negZero = .fin (a : ℚ) := by
  by_cases h0 : a = 0
  · subst h0
    simp [float64.add, float64.isNaN, float64.isInf, float64.sign, float64.val, float64.zero]
  · have h0q : ¬ ((a : ℚ) = 0) := by exact_mod_cast h0
    simp only [float64.add, float64.isNaN, float64.isInf, float64.val, add_zero, h0q]
    simp only [Bool.false_eq_true, or_self, if_false]
    rw [float64.round_intCast, float64.ofInt_eq _ h]

theorem float64.add_negZero_intCast (a : Int) (h : a.natAbs < 2 ^ 53) :
    float64.add .negZero (.fin (a : ℚ)) = .fin (a : ℚ) := by
  by_cases h0 : a = 0
  · subst h0
    simp [float64.add, float64.isNaN, float64.isInf, float64.sign, float64.val, float64.zero]
  · have h0q : ¬ ((a : ℚ) = 0) := by exact_mod_cast h0
    simp only [float64.add, float64.isNaN, float64.isInf, float64.val, zero_add, h0q]
    simp only [Bool.false_eq_true, or_self, if_false]
    rw [float64.round_intCast, float64.ofInt_eq _ h]

theorem float64.add_negZero_negZero : float64.add .negZero .negZero = .negZero := by
  simp [float64.add, float64.isNaN, float64.isInf, float64.sign, float64.val, float64.zero]

theorem float64.add_zero_intCast (b : Bool) (a : Int) (h : a.natAbs < 2 ^ 53) :
    float64.add (float64.zero b) (.fin (a : ℚ)) = .fin (a : ℚ) := by
  cases b
  · have := float64.add_intCast 0 a (by simpa using h)
    simpa [float64.zero] using this
  · simpa [float64.zero] using float64.add_negZero_intCast a h

theorem float64.add_intCast_zero (b : Bool) (a : Int) (h : a.natAbs < 2 ^ 53) :
    float64.add (.fin (a : ℚ)) (float64.zero b) = .fin (a : ℚ) := by
  cases b
  · have := float64.add_intCast a 0 (by simpa using h)
    simpa [float64.zero] using this
  · simpa [float64.zero] using float64.add_intCast_negZero a h

theorem float64.neg_ofInt (i : Int) (hi : i.natAbs < 2 ^ 53) :
    (float64.ofInt i).neg = if i = 0 then .negZero else .fin ((-i : Int) : ℚ) := by
  rw [float64.ofInt_eq i hi]
  simp [float64.neg]

/-- The entry `tx*1 + ty*0 + 0` that `Translate` stores from the identity. -/
theorem float64.translate_entry (l t : Int) (hl : l.natAbs < 2 ^ 53) (ht : t.natAbs < 2 ^ 53) :
    (((float64.ofInt l).neg.mul (.fin 1)).add ((float64.ofInt t).neg.mul (.fin 0))).add (.fin 0) =
      .fin ((-l : Int) : ℚ) := by
  have hl2 : (-l).natAbs < 2 ^ 53 := by simpa using hl
  have hB : ∃ b, (float64.ofInt t).neg.mul (.fin 0) = float64.zero b := by
    rw [float64.neg_ofInt t ht]
    by_cases h0 : t = 0
    · rw [if_pos h0]; exact ⟨true, float64.mul_negZero_zero⟩
    · rw [if_neg h0]; exact ⟨_, float64.mul_fin_zero _⟩
  obtain ⟨b, hb⟩ := hB
  rw [hb, float64.neg_ofInt l hl]
  by_cases h0 : l = 0
  · subst h0
    rw [if_pos rfl, float64.mul_negZero_one]
    cases b
    · simp only [float64.zero, Bool.false_eq_true, if_false]
      have h1 := float64.add_negZero_intCast 0 (by decide)
      have h2 := float64.add_intCast 0 0 (by decide)
      simp only [Int.cast_zero, add_zero] at h1 h2
      rw [h1, h2]; simp
    · simp only [float64.zero, if_true]
      rw [float64.add_negZero_negZero]
      have h1 := float64.add_negZero_intCast 0 (by decide)
      simp only [Int.cast_zero] at h1
      rw [h1]; simp
  · rw [if_neg h0, float64.mul_intCast_one _ hl2, float64.add_intCast_zero b _ hl2]
    have h2 := float64.add_intCast (-l) 0 (by simpa using hl)
    simp only [Int.cast_zero, add_zero] at h2
    exact h2

/-- The coordinate `x*1 + y*0 + (-x)` of the image of a point. -/
theorem float64.transform_entry (l t : Int) (hl : l.natAbs < 2 ^ 53)
    (ht : t.natAbs < 2 ^ 53) :
    (((float64.ofInt l).mul (.fin 1)).add ((float64.ofInt t).mul (.fin 0))).add
      (.fin ((-l : Int) : ℚ)) = .fin 0 ∧
    (((float64.ofInt t).mul (.fin 0)).add ((float64.ofInt l).mul (.fin 1))).add
      (.fin ((-l : Int) : ℚ)) = .fin 0 := by
  rw [float64.ofInt_eq l hl, float64.ofInt_eq t ht, float64.mul_intCast_one l hl,
    float64.mul_fin_zero, float64.add_intCast_zero _ l hl, float64.add_zero_intCast _ l hl]
  have h := float64.add_intCast l (-l) (by simp)
  simp only [add_neg_cancel, Int.cast_zero] at h
  exact ⟨h, h⟩

/-! ## Rendering: the raster and the transformation -/

theorem imageRect_of_nonneg (w h : Int) (hw : 0 ≤ w) (hh : 0 ≤ h) :
    imageRect 0 0 w h = ⟨0, 0, w, h⟩ := by
  have h1 : ¬ (0 > w) := by omega
  have h2 : ¬ (0 > h) := by omega
  simp [imageRect, h1, h2]

theorem initContext_of_nonneg {G : Type} (newGC : Rectangle → G) (w h : Int) (hw : 0 ≤ w)
    (hh : 0 ≤ h) (hsz : 4 * w * h < 2 ^ 63) :
    ∃ ctx, initContext newGC w h = .ok ctx := by
  rcases initContext_cases newGC w h with he | hok
  · unfold initContext NewRGBA at he
    rw [imageRect_of_nonneg w h hw hh] at he
    have hc : ¬ ((⟨0, 0, w, h⟩ : Rectangle).Dx < 0 ∨ (⟨0, 0, w, h⟩ : Rectangle).Dy < 0 ∨
        2 ^ 63 ≤ 4 * (⟨0, 0, w, h⟩ : Rectangle).Dx * (⟨0, 0, w, h⟩ : Rectangle).Dy) := by
      simp only [Rectangle.Dx, Rectangle.Dy, Int.sub_zero]
      rintro (h1 | h1 | h1)
      · omega
      · omega
      · exact absurd h1 (not_le.mpr hsz)
    rw [if_neg hc] at he
    exact absurd he (by simp [bind, Except.bind, pure, Except.pure])
  · exact ⟨_, hok⟩

theorem EmfFile.drawSetup_ok {G E O : Type} (newGC : Rectangle → G)
    (f : EmfFile HeaderRecord E O) (hdr : HeaderRecord) (hH : f.Header = some hdr)
    (ctx : context G) (hs : EmfFile.drawSetup newGC f = .ok ctx) :
    ctx.w = hdr.Original.Bounds.Width + 1 ∧ ctx.h = hdr.Original.Bounds.Height + 1 ∧
    ctx.img = imageRect 0 0 ctx.w ctx.h ∧
    ctx.Tr = (if hdr.Original.Bounds.Left ≠ 0 ∨ hdr.Original.Bounds.Top ≠ 0 then
        Matrix.identity.Translate (float64.ofInt hdr.Original.Bounds.Left).neg
          (float64.ofInt hdr.Original.Bounds.Top).neg
      else Matrix.identity) := by
  rcases EmfFile.drawSetup_some newGC f hdr hH with he | ⟨ctx0, hinit, hok⟩
  · rw [he] at hs
    exact absurd hs (by simp)
  · rcases initContext_cases newGC (hdr.Original.Bounds.Width + 1)
      (hdr.Original.Bounds.Height + 1) with he0 | hok0
    · rw [he0] at hinit
      exact absurd hinit (by simp)
    · rw [hok0] at hinit
      injection hinit with hinit
      rw [hok] at hs
      injection hs with hs
      subst hs
      subst hinit
      split <;> simp [context.Translate]

/-- The set-up of `Draw` succeeds for a header whose bounds give a non-negative width
and height and a pixel buffer whose length fits an `int`. -/
theorem EmfFile.drawSetup_of_nonneg {G E O : Type} (newGC : Rectangle → G)
    (f : EmfFile HeaderRecord E O) (hdr : HeaderRecord) (hH : f.Header = some hdr)
    (h0 : 0 ≤ hdr.Original.Bounds.Right - hdr.Original.Bounds.Left + 1)
    (h1 : 0 ≤ hdr.Original.Bounds.Bottom - hdr.Original.Bounds.Top + 1)
    (h2 : 4 * (hdr.Original.Bounds.Right - hdr.Original.Bounds.Left + 1) *
      (hdr.Original.Bounds.Bottom - hdr.Original.Bounds.Top + 1) < 2 ^ 63) :
    ∃ ctx, EmfFile.drawSetup newGC f = .ok ctx := by
  obtain ⟨ctx0, hinit⟩ := initContext_of_nonneg newGC
    (hdr.Original.Bounds.Right - hdr.Original.Bounds.Left + 1)
    (hdr.Original.Bounds.Bottom - hdr.Original.Bounds.Top + 1) h0 h1 h2
  rcases EmfFile.drawSetup_some newGC f hdr hH with he | ⟨ctx1, _, hok⟩
  · unfold EmfFile.drawSetup at he
    rw [hH] at he
    have hinit2 : initContext newGC (hdr.Original.Bounds.Width + 1)
        (hdr.Original.Bounds.Height + 1) = .ok ctx0 := hinit
    simp only [hinit2, bind, Except.bind] at he
    split at he <;> exact absurd he (by simp [pure, Except.pure])
  · exact ⟨_, hok⟩

set_option maxRecDepth 100000 in
/-- C15, counterexample: for the header bounds (left 5, top 0, right 0, bottom 0) `Draw`
calls `initContext` with the width 0 - 5 + 1 = -4 and the height 1, and the
raster it allocates, `image.Rect(0, 0, -4, 1)`, is 4 pixels wide and 1 high. -/
theorem Draw_inverted_bounds_raster :
    (EmfFile.drawSetup (fun _ => ()) fileInvertedBounds).map
      (fun ctx => (ctx.w, ctx.h, ctx.img.Dx, ctx.img.Dy)) = .ok (-4, 1, 4, 1) := by
  rfl

/-- C15, amended: for every header, `Draw` calls `initContext` with
w = right - left + 1 and h = bottom - top + 1 (with `Width()` = right - left and
`Height()` = bottom - top) and, when the allocation succeeds, the raster is
`image.Rect(0, 0, w, h)`: for w >= 0 and h >= 0 it is exactly w by h pixels
with its origin at (0, 0). When moreover 4 * w * h fits an `int` the allocation
does not panic. -/
theorem Draw_raster_size {G E O : Type} (newGC : Rectangle → G)
    (f : EmfFile HeaderRecord E O) (hdr : HeaderRecord) (hH : f.Header = some hdr) :
    (∀ ctx, EmfFile.drawSetup newGC f = .ok ctx →
      ctx.w = hdr.Original.Bounds.Right - hdr.Original.Bounds.Left + 1 ∧
      ctx.h = hdr.Original.Bounds.Bottom - hdr.Original.Bounds.Top + 1 ∧
      ctx.img = imageRect 0 0 ctx.w ctx.h ∧
      (0 ≤ ctx.w → 0 ≤ ctx.h →
        ctx.img.Dx = hdr.Original.Bounds.Right - hdr.Original.Bounds.Left + 1 ∧
        ctx.img.Dy = hdr.Original.Bounds.Bottom - hdr.Original.Bounds.Top + 1 ∧
        ctx.img.MinX = 0 ∧ ctx.img.MinY = 0)) ∧
    (0 ≤ hdr.Original.Bounds.Right - hdr.Original.Bounds.Left + 1 →
      0 ≤ hdr.Original.Bounds.Bottom - hdr.Original.Bounds.Top + 1 →
      4 * (hdr.Original.Bounds.Right - hdr.Original.Bounds.Left + 1) *
        (hdr.Original.Bounds.Bottom - hdr.Original.Bounds.Top + 1) < 2 ^ 63 →
      ∃ ctx, EmfFile.drawSetup newGC f = .ok ctx) := by
  constructor
  · intro ctx hs
    obtain ⟨hw, hh, himg, _⟩ := EmfFile.drawSetup_ok newGC f hdr hH ctx hs
    have hw2 : ctx.w = hdr.Original.Bounds.Right - hdr.Original.Bounds.Left + 1 := by
      rw [hw]; rfl
    have hh2 : ctx.h = hdr.Original.Bounds.Bottom - hdr.Original.Bounds.Top + 1 := by
      rw [hh]; rfl
    refine ⟨hw2, hh2, himg, fun h0 h1 => ?_⟩
    have e : ctx.img = ⟨0, 0, ctx.w, ctx.h⟩ := by
      rw [himg]
      exact imageRect_of_nonneg _ _ h0 h1
    rw [e]
    simp only [Rectangle.Dx, Rectangle.Dy, Int.sub_zero, and_true]
    exact ⟨hw2, hh2⟩
  · intro h0 h1 h2
    exact EmfFile.drawSetup_of_nonneg newGC f hdr hH h0 h1 h2

set_option maxRecDepth 100000 in
/-- C15, witness: for the header bounds (0, 0, 99, 49) of `fileDrawOrderResult` the
raster is exactly 100 by 50 pixels. -/
theorem Draw_raster_size_witness :
    (EmfFile.drawSetup (fun _ => ()) fileDrawOrderResult).map
      (fun ctx => (ctx.w, ctx.h, ctx.img.Dx, ctx.img.Dy)) = .ok (100, 50, 100, 50) ∧
    (∃ ctx, EmfFile.drawSetup (fun _ => ()) fileDrawOrderResult = .ok ctx) :=
  ⟨rfl, (Draw_raster_size (fun _ => ()) fileDrawOrderResult
    { Typ := 1, Size := 88, Original := ⟨⟨0, 0, 99, 49⟩⟩ } rfl).2
      (by decide) (by decide) (by decide)⟩

theorem context.applyTransformation_extents {G : Type} (ctx : context G) (we ve : SizeL)
    (hwe : ctx.we = some we) (hve : ctx.ve = some ve) :
    ctx.applyTransformation =
      if ctx.mm = MM_ISOTROPIC ∨ ctx.mm = MM_ANISOTROPIC then
        ctx.Scale ((float64.ofInt ve.Cx).div (float64.ofInt we.Cx))
          ((float64.ofInt ve.Cy).div (float64.ofInt we.Cy))
      else ctx.Scale ((float64.ofInt ctx.w).div (float64.ofInt we.Cx))
          ((float64.ofInt ctx.h).div (float64.ofInt we.Cy)) := by
  unfold context.applyTransformation
  rw [hwe, hve]

theorem float64.div_ofInt_100_200 :
    (float64.ofInt 100).div (float64.ofInt 200) = .fin (1 / 2) := by
  rw [float64.ofInt_eq 100 (by decide), float64.ofInt_eq 200 (by decide),
    float64.div_fin _ _ (by norm_num),
    float64.round_of_eq _ _ 1 1 (by norm_num) (by norm_num) (by norm_num) (by norm_num)]
  norm_num

theorem float64.div_ofInt_100_100 :
    (float64.ofInt 100).div (float64.ofInt 100) = .fin 1 := by
  rw [float64.ofInt_eq 100 (by decide),
    float64.div_fin _ _ (by norm_num),
    float64.round_of_eq _ _ 1 0 (by norm_num) (by norm_num) (by norm_num) (by norm_num)]
  norm_num

theorem float64.div_ofInt_neg4_2 :
    (float64.ofInt (-4)).div (float64.ofInt 2) = .fin (-2) := by
  rw [float64.ofInt_eq (-4) (by decide), float64.ofInt_eq 2 (by decide),
    float64.div_fin _ _ (by norm_num),
    float64.round_of_eq _ _ 2 0 (by norm_num) (by norm_num) (by norm_num) (by norm_num)]
  norm_num

theorem float64.div_ofInt_4_2 :
    (float64.ofInt 4).div (float64.ofInt 2) = .fin 2 := by
  rw [float64.ofInt_eq 4 (by decide), float64.ofInt_eq 2 (by decide),
    float64.div_fin _ _ (by norm_num),
    float64.round_of_eq _ _ 2 0 (by norm_num) (by norm_num) (by norm_num) (by norm_num)]
  norm_num

theorem float64.div_ofInt_1_1 :
    (float64.ofInt 1).div (float64.ofInt 1) = .fin 1 := by
  rw [float64.ofInt_eq 1 (by decide),
    float64.div_fin _ _ (by norm_num),
    float64.round_of_eq _ _ 1 0 (by norm_num) (by norm_num) (by norm_num) (by norm_num)]
  norm_num

/-- A quotient by zero: an infinity when the dividend is not zero, a NaN when it is. -/
theorem float64.div_ofInt_zero :
    (float64.ofInt 100).div (float64.ofInt 0) = .inf false ∧
    (float64.ofInt (-100)).div (float64.ofInt 0) = .inf true ∧
    (float64.ofInt 0).div (float64.ofInt 0) = .nan := by
  rw [float64.ofInt_eq 100 (by decide), float64.ofInt_eq (-100) (by decide),
    float64.ofInt_eq 0 (by decide)]
  refine ⟨?_, ?_, ?_⟩ <;>
    simp [float64.div, float64.isNaN, float64.isInf, float64.isZero, float64.sign]

theorem float64.mul_half_one : (float64.fin (1 / 2)).mul (.fin 1) = .fin (1 / 2) := by
  rw [float64.mul_fin,
    float64.round_of_eq _ _ 1 1 (by norm_num) (by norm_num) (by norm_num) (by norm_num)]
  norm_num

theorem float64.mul_one_one : (float64.fin 1).mul (.fin 1) = .fin 1 := by
  have h := float64.mul_intCast_one 1 (by decide)
  simpa using h

theorem float64.zero_false : float64.zero false = .fin 0 := rfl

/-- The transformation that the factors 100/200 and 100/100 make of the identity. -/
theorem Matrix.identity_Scale_half_one :
    Matrix.identity.Scale ((float64.ofInt 100).div (float64.ofInt 200))
      ((float64.ofInt 100).div (float64.ofInt 100)) =
      ⟨.fin (1 / 2), .fin 0, .fin 0, .fin 1, .fin 0, .fin 0⟩ := by
  rw [float64.div_ofInt_100_200, float64.div_ofInt_100_100]
  simp only [Matrix.Scale, Matrix.identity, float64.mul_half_one, float64.mul_one_one,
    float64.mul_fin_zero]
  norm_num [float64.zero]

/-- The image of the point (200, 100) under the transformation with the factors 1/2
and 1. -/
theorem Matrix.TransformPoint_half_one :
    (⟨.fin (1 / 2), .fin 0, .fin 0, .fin 1, .fin 0, .fin 0⟩ : Matrix).TransformPoint
      (float64.ofInt 200) (float64.ofInt 100) = (.fin 100, .fin 100) := by
  rw [float64.ofInt_eq 200 (by decide), float64.ofInt_eq 100 (by decide)]
  have h1 : (float64.fin ((200 : Int) : ℚ)).mul (.fin (1 / 2)) = .fin ((100 : Int) : ℚ) := by
    have ha : |(1 / 2 : ℚ)| = 1 / 2 := abs_of_pos (by norm_num)
    rw [float64.mul_fin, ha,
      float64.round_of_eq _ _ 100 0 (by norm_num) (by norm_num) (by norm_num) (by norm_num)]
    norm_num
  have h2 : ∀ a : Int, (float64.fin (a : ℚ)).mul (.fin 0) = float64.zero (decide (a < 0)) := by
    intro a
    rw [float64.mul_fin_zero]
    simp
  have h3 := float64.mul_intCast_one 100 (by decide)
  have h4 := float64.add_intCast_zero false 100 (by decide)
  have h5 := float64.add_zero_intCast false 100 (by decide)
  simp only [Matrix.TransformPoint, h1, h2, h3]
  have d1 : decide ((200 : Int) < 0) = false := by decide
  have d2 : decide ((100 : Int) < 0) = false := by decide
  rw [d1, d2, h4, h5]
  simp only [float64.zero_false] at h4
  rw [h4]
  norm_num

/-- The translation that `Draw` installs, for bounds whose left and top are `l` and `t`:
from the identity, `Translate(-float64(l), -float64(t))` gives the matrix
(1, 0, 0, 1, -l, -t). -/
theorem Matrix.identity_Translate (l t : Int) (hl : l.natAbs < 2 ^ 53)
    (ht : t.natAbs < 2 ^ 53) :
    Matrix.identity.Translate (float64.ofInt l).neg (float64.ofInt t).neg =
      ⟨.fin 1, .fin 0, .fin 0, .fin 1, .fin (-(l : ℚ)), .fin (-(t : ℚ))⟩ := by
  simp only [Matrix.Translate, Matrix.identity, float64.translate_entry l t hl ht,
    float64.translate_entry t l ht hl, Int.cast_neg]

/-- The translation by (-l, -t) maps the point (l, t) to (0, 0). -/
theorem Matrix.TransformPoint_translation (l t : Int) (hl : l.natAbs < 2 ^ 53)
    (ht : t.natAbs < 2 ^ 53) :
    (⟨.fin 1, .fin 0, .fin 0, .fin 1, .fin (-(l : ℚ)), .fin (-(t : ℚ))⟩ :
      Matrix).TransformPoint (float64.ofInt l) (float64.ofInt t) = (.fin 0, .fin 0) := by
  have h1 := (float64.transform_entry l t hl ht).1
  have h2 := (float64.transform_entry t l ht hl).2
  simp only [Int.cast_neg] at h1 h2
  simp only [Matrix.TransformPoint, h1, h2]

/-- The transformation of the context that `Draw` has set up: the translation by
(-left, -top) of the header bounds, which are 32-bit integers. -/
theorem EmfFile.drawSetup_Tr {G E O : Type} (newGC : Rectangle → G)
    (f : EmfFile HeaderRecord E O) (hdr : HeaderRecord) (hH : f.Header = some hdr)
    (hL : -2 ^ 31 ≤ hdr.Original.Bounds.Left ∧ hdr.Original.Bounds.Left < 2 ^ 31)
    (hT : -2 ^ 31 ≤ hdr.Original.Bounds.Top ∧ hdr.Original.Bounds.Top < 2 ^ 31)
    (ctx : context G) (hs : EmfFile.drawSetup newGC f = .ok ctx) :
    ctx.Tr = ⟨.fin 1, .fin 0, .fin 0, .fin 1, .fin (-(hdr.Original.Bounds.Left : ℚ)),
      .fin (-(hdr.Original.Bounds.Top : ℚ))⟩ := by
  obtain ⟨_, _, _, hTr⟩ := EmfFile.drawSetup_ok newGC f hdr hH ctx hs
  rw [hTr]
  split
  · exact Matrix.identity_Translate _ _ (by omega) (by omega)
  · next hn =>
    have h0 : hdr.Original.Bounds.Left = 0 ∧ hdr.Original.Bounds.Top = 0 := by
      constructor
      · by_contra hc; exact hn (Or.inl hc)
      · by_contra hc; exact hn (Or.inr hc)
    simp [Matrix.identity, h0.1, h0.2]

/-- The graphic context of the context that `Draw` has set up is the one made for the
raster. -/
theorem EmfFile.drawSetup_gc {G E O : Type} (newGC : Rectangle → G)
    (f : EmfFile HeaderRecord E O) (hdr : HeaderRecord) (hH : f.Header = some hdr)
    (ctx : context G) (hs : EmfFile.drawSetup newGC f = .ok ctx) :
    ctx.gc = newGC (imageRect 0 0 (hdr.Original.Bounds.Right - hdr.Original.Bounds.Left + 1)
      (hdr.Original.Bounds.Bottom - hdr.Original.Bounds.Top + 1)) := by
  rcases EmfFile.drawSetup_some newGC f hdr hH with he | ⟨ctx0, hinit, hok⟩
  · rw [he] at hs
    exact absurd hs (by simp)
  · rcases initContext_cases newGC (hdr.Original.Bounds.Width + 1)
      (hdr.Original.Bounds.Height + 1) with he0 | hok0
    · rw [he0] at hinit
      exact absurd hinit (by simp)
    · rw [hok0] at hinit
      injection hinit with hinit
      rw [hok] at hs
      injection hs with hs
      subst hs
      subst hinit
      split <;> rfl

/-- C16, counterexample: with the isotropic mapping mode, the window extent (200, 100)
and the viewport extent (100, 100), `applyTransformation` turns the identity
transformation into the one with the X factor 1/2 and the Y factor 1. -/
theorem applyTransformation_isotropic_two_factors :
    ((extentContext MM_ISOTROPIC).applyTransformation).Tr =
      ⟨.fin (1 / 2), .fin 0, .fin 0, .fin 1, .fin 0, .fin 0⟩ ∧
    ((extentContext MM_ISOTROPIC).applyTransformation).Tr.m0 ≠
      ((extentContext MM_ISOTROPIC).applyTransformation).Tr.m3 := by
  have e : ((extentContext MM_ISOTROPIC).applyTransformation).Tr =
      ⟨.fin (1 / 2), .fin 0, .fin 0, .fin 1, .fin 0, .fin 0⟩ := by
    have hc : (extentContext MM_ISOTROPIC).mm = MM_ISOTROPIC ∨
        (extentContext MM_ISOTROPIC).mm = MM_ANISOTROPIC := Or.inl rfl
    rw [context.applyTransformation_extents (extentContext MM_ISOTROPIC) ⟨200, 100⟩ ⟨100, 100⟩
      rfl rfl, if_pos hc]
    exact Matrix.identity_Scale_half_one
  refine ⟨e, ?_⟩
  rw [e]
  norm_num

/-- C16, amended: with the isotropic mapping mode and both extents set,
`applyTransformation` scales the X axis by the `float64` quotient
viewportExtent.Cx / windowExtent.Cx and the Y axis by the quotient
viewportExtent.Cy / windowExtent.Cy, for every window and viewport extent,
exactly as with the anisotropic mode; the two factors are equal only when the
two quotients are. -/
theorem applyTransformation_isotropic {G : Type} (ctx : context G) (we ve : SizeL)
    (hwe : ctx.we = some we) (hve : ctx.ve = some ve) (hmm : ctx.mm = MM_ISOTROPIC) :
    ctx.applyTransformation =
      ctx.Scale ((float64.ofInt ve.Cx).div (float64.ofInt we.Cx))
        ((float64.ofInt ve.Cy).div (float64.ofInt we.Cy)) ∧
    (ctx.applyTransformation).Tr =
      (({ ctx with mm := MM_ANISOTROPIC } : context G).applyTransformation).Tr := by
  constructor
  · rw [context.applyTransformation_extents ctx we ve hwe hve, if_pos (Or.inl hmm)]
  · rw [context.applyTransformation_extents ctx we ve hwe hve, if_pos (Or.inl hmm),
      context.applyTransformation_extents { ctx with mm := MM_ANISOTROPIC } we ve hwe hve,
      if_pos (Or.inr rfl)]
    rfl

/-- C16, witness: the amended statement at the context with the window extent
(200, 100) and the viewport extent (100, 100). -/
theorem applyTransformation_isotropic_witness :
    (extentContext MM_ISOTROPIC).applyTransformation =
      (extentContext MM_ISOTROPIC).Scale ((float64.ofInt 100).div (float64.ofInt 200))
        ((float64.ofInt 100).div (float64.ofInt 100)) ∧
    ((extentContext MM_ISOTROPIC).applyTransformation).Tr =
      (({ extentContext MM_ISOTROPIC with mm := MM_ANISOTROPIC } :
        context Unit).applyTransformation).Tr :=
  applyTransformation_isotropic (extentContext MM_ISOTROPIC) ⟨200, 100⟩ ⟨100, 100⟩ rfl rfl rfl

set_option maxRecDepth 100000 in
/-- C17, counterexample: for the header bounds (left 5, top 0, right 0, bottom 0) the
context has w = -4 and a raster 4 pixels wide; in the mode `MM_TEXT`, with the
window extent (2, 1), `applyTransformation` scales the X axis by -4 / 2 = -2,
not by rasterWidth / windowExtent.Cx = 4 / 2 = 2. -/
theorem applyTransformation_inverted_bounds_factor :
    ∃ ctx, invertedBoundsContext = .ok ctx ∧ ctx.mm = MM_TEXT ∧ ctx.w = -4 ∧
      ctx.img.Dx = 4 ∧ ctx.img.Dy = 1 ∧
      ctx.applyTransformation = ctx.Scale (.fin (-2)) (.fin 1) ∧
      (float64.ofInt ctx.img.Dx).div (float64.ofInt 2) = .fin 2 := by
  refine ⟨{ gc := (), img := ⟨-4, 0, 0, 1⟩, objects := [], w := -4, h := 1,
            Tr := Matrix.identity.Translate (float64.ofInt 5).neg (float64.ofInt 0).neg,
            wo := none, vo := none, we := some ⟨2, 1⟩, ve := some ⟨1, 1⟩, mm := MM_TEXT },
    rfl, rfl, rfl, rfl, rfl, ?_, float64.div_ofInt_4_2⟩
  rw [context.applyTransformation_extents _ ⟨2, 1⟩ ⟨1, 1⟩ rfl rfl, if_neg (by decide)]
  show context.Scale _ ((float64.ofInt (-4)).div (float64.ofInt 2))
    ((float64.ofInt 1).div (float64.ofInt 1)) = _
  rw [float64.div_ofInt_neg4_2, float64.div_ofInt_1_1]

/-- C17, amended: with both extents set, `applyTransformation` scales by the `float64`
quotients (viewportExtent.Cx / windowExtent.Cx,
viewportExtent.Cy / windowExtent.Cy) in the anisotropic mode, so that from the
identity transformation, with the window extent (200, 100) and the viewport
extent (100, 100), the point (200, 100) is mapped to (100, 100); in every mode
other than the isotropic and the anisotropic one it scales by
(w / windowExtent.Cx, h / windowExtent.Cy), `w` and `h` being the width and
height the context was made with, and another viewport extent gives the same
transformation. Where the raster is `image.Rect(0, 0, w, h)`, as `initContext`
makes it, and neither `w` nor `h` is negative, `w` and `h` are the width and
height of the raster. -/
theorem applyTransformation_factors {G : Type} (ctx : context G) (we ve : SizeL)
    (hwe : ctx.we = some we) (hve : ctx.ve = some ve) :
    (ctx.mm = MM_ANISOTROPIC →
      ctx.applyTransformation =
        ctx.Scale ((float64.ofInt ve.Cx).div (float64.ofInt we.Cx))
          ((float64.ofInt ve.Cy).div (float64.ofInt we.Cy)) ∧
      (ctx.Tr = Matrix.identity → we = ⟨200, 100⟩ → ve = ⟨100, 100⟩ →
        (ctx.applyTransformation).Tr.TransformPoint (float64.ofInt 200) (float64.ofInt 100) =
          (.fin 100, .fin 100))) ∧
    (ctx.mm ≠ MM_ISOTROPIC → ctx.mm ≠ MM_ANISOTROPIC →
      ctx.applyTransformation =
        ctx.Scale ((float64.ofInt ctx.w).div (float64.ofInt we.Cx))
          ((float64.ofInt ctx.h).div (float64.ofInt we.Cy)) ∧
      (∀ ve2 : SizeL, (({ ctx with ve := some ve2 } : context G).applyTransformation).Tr =
        (ctx.applyTransformation).Tr) ∧
      (ctx.img = imageRect 0 0 ctx.w ctx.h → 0 ≤ ctx.w → 0 ≤ ctx.h →
        ctx.img.Dx = ctx.w ∧ ctx.img.Dy = ctx.h ∧
        ctx.applyTransformation =
          ctx.Scale ((float64.ofInt ctx.img.Dx).div (float64.ofInt we.Cx))
            ((float64.ofInt ctx.img.Dy).div (float64.ofInt we.Cy)))) := by
  constructor
  · intro hmm
    have e : ctx.applyTransformation =
        ctx.Scale ((float64.ofInt ve.Cx).div (float64.ofInt we.Cx))
          ((float64.ofInt ve.Cy).div (float64.ofInt we.Cy)) := by
      rw [context.applyTransformation_extents ctx we ve hwe hve, if_pos (Or.inr hmm)]
    refine ⟨e, fun hTr h1 h2 => ?_⟩
    rw [e, h1, h2]
    show (ctx.Tr.Scale _ _).TransformPoint _ _ = _
    rw [hTr, Matrix.identity_Scale_half_one]
    exact Matrix.TransformPoint_half_one
  · intro h1 h2
    have hn : ¬ (ctx.mm = MM_ISOTROPIC ∨ ctx.mm = MM_ANISOTROPIC) := by
      rintro (h | h)
      · exact h1 h
      · exact h2 h
    have e : ctx.applyTransformation =
        ctx.Scale ((float64.ofInt ctx.w).div (float64.ofInt we.Cx))
          ((float64.ofInt ctx.h).div (float64.ofInt we.Cy)) := by
      rw [context.applyTransformation_extents ctx we ve hwe hve, if_neg hn]
    refine ⟨e, fun ve2 => ?_, fun himg h0 h1 => ?_⟩
    · rw [e, context.applyTransformation_extents { ctx with ve := some ve2 } we ve2 hwe rfl,
        if_neg hn]
      rfl
    · have hx : ctx.img.Dx = ctx.w := by
        rw [himg, imageRect_of_nonneg _ _ h0 h1]
        simp [Rectangle.Dx]
      have hy : ctx.img.Dy = ctx.h := by
        rw [himg, imageRect_of_nonneg _ _ h0 h1]
        simp [Rectangle.Dy]
      refine ⟨hx, hy, ?_⟩
      rw [hx, hy]
      exact e

/-- C17, witness: the amended statement at the context with the window extent
(200, 100) and the viewport extent (100, 100), in the anisotropic mode and in
the mode MM_TEXT, where the raster of 300 by 300 gives the factors 300 / 200
and 300 / 100. -/
theorem applyTransformation_factors_witness :
    ((extentContext MM_ANISOTROPIC).applyTransformation).Tr.TransformPoint
      (float64.ofInt 200) (float64.ofInt 100) = (.fin 100, .fin 100) ∧
    (extentContext MM_TEXT).applyTransformation =
      (extentContext MM_TEXT).Scale ((float64.ofInt 300).div (float64.ofInt 200))
        ((float64.ofInt 300).div (float64.ofInt 100)) ∧
    ((extentContext MM_TEXT).img.Dx = 300 ∧ (extentContext MM_TEXT).img.Dy = 300 ∧
      (extentContext MM_TEXT).applyTransformation =
        (extentContext MM_TEXT).Scale
          ((float64.ofInt (extentContext MM_TEXT).img.Dx).div (float64.ofInt 200))
          ((float64.ofInt (extentContext MM_TEXT).img.Dy).div (float64.ofInt 100))) :=
  ⟨((applyTransformation_factors (extentContext MM_ANISOTROPIC) ⟨200, 100⟩ ⟨100, 100⟩
      rfl rfl).1 rfl).2 rfl rfl rfl,
    ((applyTransformation_factors (extentContext MM_TEXT) ⟨200, 100⟩ ⟨100, 100⟩
      rfl rfl).2 (by decide) (by decide)).1,
    ((applyTransformation_factors (extentContext MM_TEXT) ⟨200, 100⟩ ⟨100, 100⟩
      rfl rfl).2 (by decide) (by decide)).2.2 rfl (by decide) (by decide)⟩

set_option maxRecDepth 100000 in
/-- C18, counterexample: for the header bounds (left 5, top 0, right 0, bottom 0) the
transformation that `Draw` installs maps the point (5, 0) to (0, 0), but the
raster is `image.Rect(0, 0, -4, 1)`, which spans x from -4 to 0 exclusive: its
origin is (-4, 0) and the point (0, 0) lies outside it. -/
theorem Draw_inverted_bounds_origin :
    ∃ ctx, EmfFile.drawSetup (fun _ => ()) fileInvertedBounds = .ok ctx ∧
      ctx.Tr.TransformPoint (float64.ofInt 5) (float64.ofInt 0) = (.fin 0, .fin 0) ∧
      ctx.img = ⟨-4, 0, 0, 1⟩ ∧ ctx.img.MinX ≠ 0 ∧ ¬ (0 < ctx.img.MaxX) := by
  refine ⟨{ gc := (), img := ⟨-4, 0, 0, 1⟩, objects := [], w := -4, h := 1,
            Tr := Matrix.identity.Translate (float64.ofInt 5).neg (float64.ofInt 0).neg,
            wo := none, vo := none, we := none, ve := none, mm := MM_TEXT },
    rfl, ?_, rfl, by decide, by decide⟩
  show (Matrix.identity.Translate (float64.ofInt 5).neg
    (float64.ofInt 0).neg).TransformPoint _ _ = _
  rw [Matrix.identity_Translate 5 0 (by decide) (by decide)]
  exact Matrix.TransformPoint_translation 5 0 (by decide) (by decide)

/-- C18, amended: for every header bounds (left, top, right, bottom), 32-bit integers,
the transformation that `Draw` has installed when it starts to apply the
records is the translation by (-left, -top): it maps the point (left, top) to
(0, 0), and it is the identity exactly when left = 0 and top = 0. The raster
is `image.Rect(0, 0, w, h)` with w = right - left + 1 and
h = bottom - top + 1; when neither is negative its origin is (0, 0), and when
moreover 4 * w * h fits an `int` the set-up does not panic. -/
theorem Draw_initial_transform {G E O : Type} (newGC : Rectangle → G)
    (f : EmfFile HeaderRecord E O) (hdr : HeaderRecord) (hH : f.Header = some hdr)
    (hL : -2 ^ 31 ≤ hdr.Original.Bounds.Left ∧ hdr.Original.Bounds.Left < 2 ^ 31)
    (hT : -2 ^ 31 ≤ hdr.Original.Bounds.Top ∧ hdr.Original.Bounds.Top < 2 ^ 31) :
    (∀ ctx, EmfFile.drawSetup newGC f = .ok ctx →
      ctx.Tr = ⟨.fin 1, .fin 0, .fin 0, .fin 1, .fin (-(hdr.Original.Bounds.Left : ℚ)),
        .fin (-(hdr.Original.Bounds.Top : ℚ))⟩ ∧
      ctx.Tr.TransformPoint (float64.ofInt hdr.Original.Bounds.Left)
        (float64.ofInt hdr.Original.Bounds.Top) = (.fin 0, .fin 0) ∧
      (ctx.Tr = Matrix.identity ↔
        hdr.Original.Bounds.Left = 0 ∧ hdr.Original.Bounds.Top = 0) ∧
      ctx.img = imageRect 0 0 (hdr.Original.Bounds.Right - hdr.Original.Bounds.Left + 1)
        (hdr.Original.Bounds.Bottom - hdr.Original.Bounds.Top + 1) ∧
      (0 ≤ hdr.Original.Bounds.Right - hdr.Original.Bounds.Left + 1 →
        0 ≤ hdr.Original.Bounds.Bottom - hdr.Original.Bounds.Top + 1 →
        ctx.img.MinX = 0 ∧ ctx.img.MinY = 0)) ∧
    (0 ≤ hdr.Original.Bounds.Right - hdr.Original.Bounds.Left + 1 →
      0 ≤ hdr.Original.Bounds.Bottom - hdr.Original.Bounds.Top + 1 →
      4 * (hdr.Original.Bounds.Right - hdr.Original.Bounds.Left + 1) *
        (hdr.Original.Bounds.Bottom - hdr.Original.Bounds.Top + 1) < 2 ^ 63 →
      ∃ ctx, EmfFile.drawSetup newGC f = .ok ctx) := by
  constructor
  · intro ctx hs
    have e := EmfFile.drawSetup_Tr newGC f hdr hH hL hT ctx hs
    obtain ⟨hw, hh, himg, _⟩ := EmfFile.drawSetup_ok newGC f hdr hH ctx hs
    have himg2 : ctx.img =
        imageRect 0 0 (hdr.Original.Bounds.Right - hdr.Original.Bounds.Left + 1)
          (hdr.Original.Bounds.Bottom - hdr.Original.Bounds.Top + 1) := by
      rw [himg, hw, hh]; rfl
    refine ⟨e, ?_, ?_, himg2, fun h0 h1 => ?_⟩
    · rw [e]
      exact Matrix.TransformPoint_translation _ _ (by omega) (by omega)
    · rw [e]
      simp only [Matrix.identity, Matrix.mk.injEq, float64.fin.injEq, true_and, neg_eq_zero,
        Int.cast_eq_zero]
    · rw [himg2, imageRect_of_nonneg _ _ h0 h1]
      exact ⟨rfl, rfl⟩
  · intro h0 h1 h2
    exact EmfFile.drawSetup_of_nonneg newGC f hdr hH h0 h1 h2

set_option maxRecDepth 100000 in
/-- C18, witness: the amended statement at the header bounds (10, 20, 109, 69): the set-up
returns, the point (10, 20) is mapped to (0, 0), and the raster has its origin
there. -/
theorem Draw_initial_transform_witness :
    ∃ ctx, EmfFile.drawSetup (fun _ => ()) fileShiftedBounds = .ok ctx ∧
      ctx.Tr = ⟨.fin 1, .fin 0, .fin 0, .fin 1, .fin (-((10 : Int) : ℚ)),
        .fin (-((20 : Int) : ℚ))⟩ ∧
      ctx.Tr.TransformPoint (float64.ofInt 10) (float64.ofInt 20) = (.fin 0, .fin 0) ∧
      (ctx.Tr = Matrix.identity ↔ (10 : Int) = 0 ∧ (20 : Int) = 0) ∧
      ctx.img = imageRect 0 0 (109 - 10 + 1) (69 - 20 + 1) ∧
      ((0 : Int) ≤ 109 - 10 + 1 → (0 : Int) ≤ 69 - 20 + 1 →
        ctx.img.MinX = 0 ∧ ctx.img.MinY = 0) := by
  obtain ⟨ctx, hs⟩ := (Draw_initial_transform (fun _ => ()) fileShiftedBounds
    { Typ := 1, Size := 88, Original := ⟨⟨10, 20, 109, 69⟩⟩ } rfl
      (by decide) (by decide)).2 (by decide) (by decide) (by decide)
  exact ⟨ctx, hs, (Draw_initial_transform (fun _ => ()) fileShiftedBounds
    { Typ := 1, Size := 88, Original := ⟨⟨10, 20, 109, 69⟩⟩ } rfl
      (by decide) (by decide)).1 ctx hs⟩

/-! ## Drawing the records in their order -/

set_option maxRecDepth 100000 in
/-- C14, counterexample: `ReadFile` reads `fileNoHeader` without error, and `Records`
holds its records of type 37 and 39; `Draw` on the file dereferences the nil
`Header` before its loop and applies neither of them. -/
theorem Draw_without_header_applies_no_record :
    ReadFile readRecordHeader 3 fileNoHeader = .ok fileNoHeaderResult ∧
    fileNoHeaderResult.Records = [.other ⟨37, 12⟩, .other ⟨39, 12⟩] ∧
    (fileNoHeaderResult.Draw (fun _ => []) noteRecord).map (fun ctx => ctx.gc) =
      .error .nilDereference := by
  refine ⟨?_, rfl, ?_⟩ <;> rfl

/-- C14, amended: for every buffer that `ReadFile` reads successfully, `Records` is the
subsequence of the record sequence of the buffer made of the records that are
neither Header nor Eof records, in their order. `Draw` is its set-up followed
by the `Draw` method of each element of `Records`, once each and in that
order, each applied to the context the one before has left. When the file has
a Header whose bounds give a width and a height that are not negative and a
pixel buffer whose length fits an `int`, `Draw` returns, and with methods that
only note the record they are applied to, the notes made are `Records` itself.
When the file has no Header, `Draw` ends in a nil pointer dereference and
applies no record. -/
theorem ReadFile_records_in_order {E O : Type}
    (readRecord : Dec (Recorder HeaderRecord E O)) (fuel : Nat) (data : List Nat)
    (file : EmfFile HeaderRecord E O)
    (h : ReadFile readRecord fuel data = .ok file) :
    ∃ recs rd, Decodes readRecord ⟨data, 0⟩ recs rd ∧ rd.Len = 0 ∧
      file.Records = recs.filter Recorder.isGeneric ∧
      (∀ (G : Type) (newGC : Rectangle → G)
        (draw : Recorder HeaderRecord E O → context G → context G),
        file.Draw newGC draw = (EmfFile.drawSetup newGC file).map
          (fun ctx0 => (recs.filter Recorder.isGeneric).foldl (fun c r => draw r c) ctx0)) ∧
      (∀ hdr, file.Header = some hdr →
        0 ≤ hdr.Original.Bounds.Right - hdr.Original.Bounds.Left + 1 →
        0 ≤ hdr.Original.Bounds.Bottom - hdr.Original.Bounds.Top + 1 →
        4 * (hdr.Original.Bounds.Right - hdr.Original.Bounds.Left + 1) *
          (hdr.Original.Bounds.Bottom - hdr.Original.Bounds.Top + 1) < 2 ^ 63 →
        (∀ (G : Type) (newGC : Rectangle → G)
          (draw : Recorder HeaderRecord E O → context G → context G),
          ∃ ctx0, EmfFile.drawSetup newGC file = .ok ctx0 ∧
            file.Draw newGC draw =
              .ok ((recs.filter Recorder.isGeneric).foldl (fun c r => draw r c) ctx0)) ∧
        (∀ (newGC : Rectangle → List (Recorder HeaderRecord E O)),
          ∃ ctx, file.Draw newGC noteRecord = .ok ctx ∧
            ctx.gc = newGC ⟨0, 0, hdr.Original.Bounds.Right - hdr.Original.Bounds.Left + 1,
                hdr.Original.Bounds.Bottom - hdr.Original.Bounds.Top + 1⟩ ++
              recs.filter Recorder.isGeneric)) ∧
      (file.Header = none → ∀ (G : Type) (newGC : Rectangle → G)
        (draw : Recorder HeaderRecord E O → context G → context G),
        file.Draw newGC draw = .error .nilDereference) := by
  obtain ⟨recs, rd, hdec, hlen, _, _, hR⟩ := ReadFile_ok readRecord fuel data file h
  have heq : ∀ (G : Type) (newGC : Rectangle → G)
      (draw : Recorder HeaderRecord E O → context G → context G),
      file.Draw newGC draw = (EmfFile.drawSetup newGC file).map
        (fun ctx0 => (recs.filter Recorder.isGeneric).foldl (fun c r => draw r c) ctx0) := by
    intro G newGC draw
    unfold EmfFile.Draw
    cases hs : EmfFile.drawSetup newGC file with
    | error e => rfl
    | ok ctx0 =>
      simp only [bind, Except.bind, pure, Except.pure, Except.map]
      rw [EmfFile.drawLoop_eq_foldl, hR]
  refine ⟨recs, rd, hdec, hlen, hR, heq, ?_, ?_⟩
  · intro hdr hH h0 h1 h2
    constructor
    · intro G newGC draw
      obtain ⟨ctx0, hs⟩ := EmfFile.drawSetup_of_nonneg newGC file hdr hH h0 h1 h2
      refine ⟨ctx0, hs, ?_⟩
      rw [heq, hs]
      rfl
    · intro newGC
      obtain ⟨ctx0, hs⟩ := EmfFile.drawSetup_of_nonneg newGC file hdr hH h0 h1 h2
      have hgc := EmfFile.drawSetup_gc newGC file hdr hH ctx0 hs
      rw [imageRect_of_nonneg _ _ h0 h1] at hgc
      refine ⟨EmfFile.drawLoop noteRecord file.Records ctx0, ?_, ?_⟩
      · unfold EmfFile.Draw
        rw [hs]
        rfl
      · rw [EmfFile.drawLoop_noteRecord, hgc, hR]
  · intro hH G newGC draw
    exact (EmfFile.Draw_nil_iff newGC draw file).mpr hH

set_option maxRecDepth 100000 in
/-- C14, witness: the amended statement at `fileDrawOrder`, whose records of type 37 and
39 stand before and after the end-of-file record; `Draw` returns there, and
the notes made are the two records in their order. -/
theorem ReadFile_records_in_order_witness :
    (∃ recs rd, Decodes readRecordHeader ⟨fileDrawOrder, 0⟩ recs rd ∧ rd.Len = 0 ∧
      fileDrawOrderResult.Records = recs.filter Recorder.isGeneric ∧
      (∀ (G : Type) (newGC : Rectangle → G)
        (draw : Recorder HeaderRecord Record Record → context G → context G),
        fileDrawOrderResult.Draw newGC draw =
          (EmfFile.drawSetup newGC fileDrawOrderResult).map
            (fun ctx0 => (recs.filter Recorder.isGeneric).foldl (fun c r => draw r c) ctx0)) ∧
      (∀ hdr, fileDrawOrderResult.Header = some hdr →
        0 ≤ hdr.Original.Bounds.Right - hdr.Original.Bounds.Left + 1 →
        0 ≤ hdr.Original.Bounds.Bottom - hdr.Original.Bounds.Top + 1 →
        4 * (hdr.Original.Bounds.Right - hdr.Original.Bounds.Left + 1) *
          (hdr.Original.Bounds.Bottom - hdr.Original.Bounds.Top + 1) < 2 ^ 63 →
        (∀ (G : Type) (newGC : Rectangle → G)
          (draw : Recorder HeaderRecord Record Record → context G → context G),
          ∃ ctx0, EmfFile.drawSetup newGC fileDrawOrderResult = .ok ctx0 ∧
            fileDrawOrderResult.Draw newGC draw =
              .ok ((recs.filter Recorder.isGeneric).foldl (fun c r => draw r c) ctx0)) ∧
        (∀ (newGC : Rectangle → List (Recorder HeaderRecord Record Record)),
          ∃ ctx, fileDrawOrderResult.Draw newGC noteRecord = .ok ctx ∧
            ctx.gc = newGC ⟨0, 0, hdr.Original.Bounds.Right - hdr.Original.Bounds.Left + 1,
                hdr.Original.Bounds.Bottom - hdr.Original.Bounds.Top + 1⟩ ++
              recs.filter Recorder.isGeneric)) ∧
      (fileDrawOrderResult.Header = none → ∀ (G : Type) (newGC : Rectangle → G)
        (draw : Recorder HeaderRecord Record Record → context G → context G),
        fileDrawOrderResult.Draw newGC draw = .error .nilDereference)) ∧
    (fileDrawOrderResult.Draw (fun _ => []) noteRecord).map (fun ctx => ctx.gc) =
      .ok [.other ⟨37, 12⟩, .other ⟨39, 12⟩] :=
  ⟨ReadFile_records_in_order readRecordHeader 4 fileDrawOrder fileDrawOrderResult rfl, rfl⟩

/-! ## Drawing a record and the record itself -/

/-- What `StretchdibitsRecord.Draw` does to the record: it stores the remainder of
`ctx.BitCount` modulo 2^16 in `BmiSrc.BiBitCount` and leaves every other field,
`BitsSrc` among them, as it was. -/
theorem StretchdibitsRecord.Draw_record
    (PixelConvert : List Nat → Int → Int → Int → Int → List Nat) (r : CommonBitmapRecord)
    (ctx : EmfContext) :
    (StretchdibitsRecord.Draw PixelConvert r ctx).1 =
      { r with BmiSrc := { r.BmiSrc with BiBitCount := (ctx.BitCount % 2 ^ 16).toNat } } ∧
    (StretchdibitsRecord.Draw PixelConvert r ctx).1.BitsSrc = r.BitsSrc := by
  exact ⟨rfl, rfl⟩

set_option maxRecDepth 100000 in
/-- C19: the claim fails on the code. A record whose bitmap header declares 32 bits per
pixel, drawn on a context of 24 bits per pixel, has BiBitCount = 24 after
`Draw`: the method has written the bit depth of the context into the record.
The first `Draw` calls `PixelConvert` with the source depth 32, a second
`Draw` of the same record with the source depth 24. -/
theorem StretchdibitsRecord_Draw_changes_record :
    stretchdibitsRecord32.BmiSrc.BiBitCount = 32 ∧
    (StretchdibitsRecord.Draw depthsOnly stretchdibitsRecord32 ⟨1, 24⟩).1.BmiSrc.BiBitCount =
      24 ∧
    (StretchdibitsRecord.Draw depthsOnly stretchdibitsRecord32 ⟨1, 24⟩).1 ≠
      stretchdibitsRecord32 ∧
    (StretchdibitsRecord.Draw depthsOnly stretchdibitsRecord32 ⟨1, 24⟩).2.BitsData = [32, 24] ∧
    (StretchdibitsRecord.Draw depthsOnly
      (StretchdibitsRecord.Draw depthsOnly stretchdibitsRecord32 ⟨1, 24⟩).1 ⟨1, 24⟩).2.BitsData =
      [24, 24] := by
  refine ⟨rfl, rfl, ?_, rfl, rfl⟩
  intro h
  have h2 := congrArg (fun x => x.BmiSrc.BiBitCount) h
  exact absurd h2 (by decide)

/-! ## The repacking loop: the indices it uses -/

theorem Except.bind_eq_ok {ε α β : Type} (x : Except ε α) (f : α → Except ε β) (b : β) :
    (x >>= f) = .ok b ↔ ∃ a, x = .ok a ∧ f a = .ok b := by
  cases x with
  | error e => simp [bind, Except.bind]
  | ok a => simp [bind, Except.bind]

theorem getByte_ok {src : List Nat} {i v : Nat} (h : getByte src i = .ok v) : i < src.length := by
  unfold getByte at h
  split at h
  · next hv =>
    by_contra hc
    rw [List.getElem?_eq_none (by omega)] at hv
    exact absurd hv (by simp)
  · exact absurd h (by simp)

theorem getByte_error {src : List Nat} {i : Nat} {e : Err} (h : getByte src i = .error e) :
    e = .indexOutOfRange := by
  unfold getByte at h
  split at h
  · exact absurd h (by simp)
  · injection h with h; exact h.symm

theorem setByte_ok {dst out : List Nat} {j v : Nat} (h : setByte dst j v = .ok out) :
    j < dst.length ∧ out.length = dst.length := by
  unfold setByte at h
  split at h
  · next hj =>
    injection h with h
    subst h
    exact ⟨hj, by simp⟩
  · exact absurd h (by simp)

theorem setByte_error {dst : List Nat} {j v : Nat} {e : Err} (h : setByte dst j v = .error e) :
    e = .indexOutOfRange := by
  unfold setByte at h
  split at h
  · exact absurd h (by simp)
  · injection h with h; exact h.symm

theorem repackLoop_ok_bounds (src : List Nat) (fuel : Nat) : ∀ (i j : Nat) (dst out : List Nat),
    repackLoop src fuel i j dst = .ok out →
    ∀ k, i + 4 * k < src.length → i + 4 * k + 3 < src.length ∧ j + 3 * k + 2 < dst.length := by
  induction fuel with
  | zero =>
    intro i j dst out h k hk
    unfold repackLoop at h
    split at h
    · exact absurd h (by simp)
    · omega
  | succ n ih =>
    intro i j dst out h k hk
    unfold repackLoop at h
    split at h
    · rw [Except.bind_eq_ok] at h; obtain ⟨v1, g1, h⟩ := h
      rw [Except.bind_eq_ok] at h; obtain ⟨d1, s1, h⟩ := h
      rw [Except.bind_eq_ok] at h; obtain ⟨v2, g2, h⟩ := h
      rw [Except.bind_eq_ok] at h; obtain ⟨d2, s2, h⟩ := h
      rw [Except.bind_eq_ok] at h; obtain ⟨v3, g3, h⟩ := h
      rw [Except.bind_eq_ok] at h; obtain ⟨d3, s3, h⟩ := h
      have b3 := getByte_ok g3
      obtain ⟨c1, l1⟩ := setByte_ok s1
      obtain ⟨c2, l2⟩ := setByte_ok s2
      obtain ⟨c3, l3⟩ := setByte_ok s3
      cases k with
      | zero => omega
      | succ k =>
        have := ih (i + 4) (j + 3) d3 out h k (by omega)
        omega
    · omega

theorem repackLoop_error (src : List Nat) (fuel : Nat) : ∀ (i j : Nat) (dst : List Nat) (e : Err),
    src.length ≤ i + 4 * fuel → repackLoop src fuel i j dst = .error e →
    e = .indexOutOfRange := by
  induction fuel with
  | zero =>
    intro i j dst e hf h
    unfold repackLoop at h
    rw [if_neg (by omega)] at h
    exact absurd h (by simp)
  | succ n ih =>
    intro i j dst e hf h
    unfold repackLoop at h
    split at h
    · cases g1 : getByte src (i + 1) with
      | error e1 => rw [g1] at h; injection h with h; rw [← h]; exact getByte_error g1
      | ok v1 =>
        rw [g1] at h
        simp only [bind, Except.bind] at h
        cases s1 : setByte dst j v1 with
        | error e1 => rw [s1] at h; injection h with h; rw [← h]; exact setByte_error s1
        | ok d1 =>
          rw [s1] at h
          simp only at h
          cases g2 : getByte src (i + 2) with
          | error e1 => rw [g2] at h; injection h with h; rw [← h]; exact getByte_error g2
          | ok v2 =>
            rw [g2] at h
            simp only at h
            cases s2 : setByte d1 (j + 1) v2 with
            | error e1 => rw [s2] at h; injection h with h; rw [← h]; exact setByte_error s2
            | ok d2 =>
              rw [s2] at h
              simp only at h
              cases g3 : getByte src (i + 3) with
              | error e1 => rw [g3] at h; injection h with h; rw [← h]; exact getByte_error g3
              | ok v3 =>
                rw [g3] at h
                simp only at h
                cases s3 : setByte d2 (j + 2) v3 with
                | error e1 => rw [s3] at h; injection h with h; rw [← h]; exact setByte_error s3
                | ok d3 =>
                  rw [s3] at h
                  simp only at h
                  exact ih (i + 4) (j + 3) d3 e (by omega) h
    · exact absurd h (by simp)

theorem repack_out_of_range (cb : Nat) (src : List Nat) (hlen : src.length = cb)
    (hcb : cb < 2 ^ 32) (hbad : cb % 4 ≠ 0 ∨ 2 ^ 32 ≤ 3 * cb) :
    repack cb src = .error .indexOutOfRange := by
  cases h : repack cb src with
  | error e =>
    unfold repack at h
    rw [repackLoop_error src src.length 0 0 _ e (by omega) h]
  | ok out =>
    exfalso
    unfold repack at h
    have hb := repackLoop_ok_bounds src src.length 0 0 _ out h
    rw [List.length_replicate] at hb
    rcases hbad with h4 | h3
    · have := hb (cb / 4) (by omega)
      omega
    · by_cases h4 : cb % 4 = 0
      · have := hb (cb / 4 - 1) (by omega)
        omega
      · have := hb (cb / 4) (by omega)
        omega

theorem repackLoopLog_fst (src : List Nat) (fuel : Nat) : ∀ (i j : Nat) (dst log : List Nat),
    (repackLoopLog src fuel i j dst log).map Prod.fst = repackLoop src fuel i j dst := by
  induction fuel with
  | zero =>
    intro i j dst log
    unfold repackLoopLog repackLoop
    by_cases hi : i < src.length
    · rw [if_pos hi, if_pos hi]; rfl
    · rw [if_neg hi, if_neg hi]; rfl
  | succ n ih =>
    intro i j dst log
    unfold repackLoopLog repackLoop
    by_cases hi : i < src.length
    · rw [if_pos hi, if_pos hi]
      cases getByte src (i + 1) with
      | error e1 => rfl
      | ok v1 =>
        simp only [bind, Except.bind]
        cases setByte dst j v1 with
        | error e1 => rfl
        | ok d1 =>
          simp only
          cases getByte src (i + 2) with
          | error e1 => rfl
          | ok v2 =>
            simp only
            cases setByte d1 (j + 1) v2 with
            | error e1 => rfl
            | ok d2 =>
              simp only
              cases getByte src (i + 3) with
              | error e1 => rfl
              | ok v3 =>
                simp only
                cases setByte d2 (j + 2) v3 with
                | error e1 => rfl
                | ok d3 =>
                  simp only
                  exact ih (i + 4) (j + 3) d3 _
    · rw [if_neg hi, if_neg hi]; rfl

theorem repackLoopLog_whole (fuel : Nat) : ∀ (pre post out log : List Nat),
    post.length % 4 = 0 → post.length ≤ 4 * fuel →
    repackLoopLog (pre ++ post) fuel pre.length out.length
        (out ++ List.replicate (post.length / 4 * 3) 0) log =
      .ok (out ++ lastThreeOfFour post,
        log ++ List.range' out.length (post.length / 4 * 3)) := by
  induction fuel with
  | zero =>
    intro pre post out log _ hf
    have hp : post = [] := List.eq_nil_of_length_eq_zero (by omega)
    subst hp
    simp [repackLoopLog, lastThreeOfFour]
  | succ n ih =>
    intro pre post out log h4 hf
    match post, h4, hf with
    | [], _, _ => simp [repackLoopLog, lastThreeOfFour]
    | [_], h4, _ => simp at h4
    | [_, _], h4, _ => simp at h4
    | [_, _, _], h4, _ => simp at h4
    | a :: b :: c :: d :: rest, h4, hf =>
      have hlen : (a :: b :: c :: d :: rest).length = rest.length + 4 := by simp
      have e : (a :: b :: c :: d :: rest).length / 4 * 3 = rest.length / 4 * 3 + 1 + 1 + 1 := by
        rw [hlen]; omega
      have hrep : List.replicate ((a :: b :: c :: d :: rest).length / 4 * 3) 0 =
          0 :: 0 :: 0 :: List.replicate (rest.length / 4 * 3) 0 := by
        rw [e, List.replicate_succ, List.replicate_succ, List.replicate_succ]
      have hrange : List.range' out.length ((a :: b :: c :: d :: rest).length / 4 * 3) =
          out.length :: (out.length + 1) :: (out.length + 2) ::
            List.range' (out.length + 3) (rest.length / 4 * 3) := by
        rw [e, List.range'_succ, List.range'_succ, List.range'_succ]
      rw [hrep, hrange]
      unfold repackLoopLog
      rw [if_pos (by rw [List.length_append, hlen]; omega)]
      have g1 := getByte_append pre (a :: b :: c :: d :: rest) 1 b (by simp)
      have g2 := getByte_append pre (a :: b :: c :: d :: rest) 2 c (by simp)
      have g3 := getByte_append pre (a :: b :: c :: d :: rest) 3 d (by simp)
      have s1 := setByte_append out (0 :: 0 :: 0 :: List.replicate (rest.length / 4 * 3) 0) 0 b
        (by simp)
      have s2 := setByte_append out (b :: 0 :: 0 :: List.replicate (rest.length / 4 * 3) 0) 1 c
        (by simp)
      have s3 := setByte_append out (b :: c :: 0 :: List.replicate (rest.length / 4 * 3) 0) 2 d
        (by simp)
      simp only [Nat.add_zero, List.set_cons_zero, List.set_cons_succ] at s1 s2 s3
      simp only [g1, s1, g2, s2, g3, s3, bind, Except.bind]
      have hrest := ih (pre ++ [a, b, c, d]) rest (out ++ [b, c, d])
        (log ++ [out.length, out.length + 1, out.length + 2])
        (by rw [hlen] at h4; omega) (by rw [hlen] at hf; omega)
      simp only [List.length_append, List.length_cons, List.length_nil, List.append_assoc,
        List.cons_append, List.nil_append, Nat.zero_add, Nat.reduceAdd] at hrest
      rw [hrest]
      simp [lastThreeOfFour]

theorem lastThreeOfFour_length (src : List Nat) (h4 : src.length % 4 = 0) :
    (lastThreeOfFour src).length = src.length / 4 * 3 := by
  induction src using lastThreeOfFour.induct with
  | case1 a b c d rest ih =>
    have h4r : rest.length % 4 = 0 := by
      simp only [List.length_cons] at h4
      omega
    simp only [lastThreeOfFour, List.length_cons, ih h4r]
    omega
  | case2 l hne =>
    match l, hne, h4 with
    | [], _, _ => simp [lastThreeOfFour]
    | [_], _, h4 => simp at h4
    | [_, _], _, h4 => simp at h4
    | [_, _, _], _, h4 => simp at h4
    | a :: b :: c :: d :: rest, hne, _ => exact absurd rfl (hne a b c d rest)

theorem repackLog_whole (src : List Nat) (h4 : src.length % 4 = 0)
    (hlt : 3 * src.length < 2 ^ 32) :
    repackLog src.length src =
      .ok (lastThreeOfFour src, List.range (src.length * 3 % 2 ^ 32 / 4)) := by
  unfold repackLog
  have e : src.length * 3 % 2 ^ 32 / 4 = src.length / 4 * 3 := by
    rw [Nat.mod_eq_of_lt (by omega)]
    omega
  rw [e, List.range_eq_range']
  have := repackLoopLog_whole src.length [] src [] [] h4 (by omega)
  simpa using this

theorem CommonBitmapRecord.read_BitsSrc_length {c : Nat} {rec : Record} {s : List Nat}
    {p : Nat} {r : CommonBitmapRecord} {rd2 : Reader}
    (h : CommonBitmapRecord.read c rec ⟨s, p + 8⟩ = .ok (r, rd2)) (h0 : r.offBmiSrc ≠ 0) :
    r.BitsSrc.length = r.cbBitsSrc ∧ repack r.cbBitsSrc r.BitsSrc = .ok r.BitsSrc24 := by
  obtain ⟨_, _, _, _, _, hne⟩ := CommonBitmapRecord.read_ok h
  obtain ⟨_, _, hlt, hbits, _, hrep⟩ := hne h0
  refine ⟨?_, hrep⟩
  rw [hbits, List.length_append, List.length_replicate, List.length_take, List.length_drop]
  omega

/-- C20: in the repacking loop of `CommonBitmapRecord.read`, with `BitsSrc` of length
cbBitsSrc and `BitsSrc24` of length (cbBitsSrc * 3 mod 2^32) / 4: when cbBitsSrc
is a multiple of 4 and 3 * cbBitsSrc < 2^32, no index is out of range and the
indices written are 0, 1, ..., len(BitsSrc24) - 1, each exactly once; when
cbBitsSrc is not a multiple of 4 or 3 * cbBitsSrc >= 2^32, the loop ends in an
index out of range. The loop runs whatever the bitmap header declares, so
every record with a bitmap that `CommonBitmapRecord.read` returns has a
cbBitsSrc of the first kind. -/
theorem repack_index_safety :
    (∀ (cb : Nat) (src : List Nat), src.length = cb → cb % 4 = 0 → 3 * cb < 2 ^ 32 →
      ∃ out log, repackLog cb src = .ok (out, log) ∧ repack cb src = .ok out ∧
        out.length = cb * 3 % 2 ^ 32 / 4 ∧ log = List.range (cb * 3 % 2 ^ 32 / 4) ∧
        (∀ k, k < cb * 3 % 2 ^ 32 / 4 → log.count k = 1) ∧
        (∀ k ∈ log, k < cb * 3 % 2 ^ 32 / 4)) ∧
    (∀ (cb : Nat) (src : List Nat), src.length = cb → cb < 2 ^ 32 →
      cb % 4 ≠ 0 ∨ 2 ^ 32 ≤ 3 * cb →
      repack cb src = .error .indexOutOfRange ∧ repackLog cb src = .error .indexOutOfRange) ∧
    (∀ (c : Nat) (rec : Record) (s : List Nat) (p : Nat) (r : CommonBitmapRecord)
      (rd2 : Reader), CommonBitmapRecord.read c rec ⟨s, p + 8⟩ = .ok (r, rd2) →
      r.offBmiSrc ≠ 0 → r.cbBitsSrc % 4 = 0 ∧ 3 * r.cbBitsSrc < 2 ^ 32) := by
  refine ⟨?_, ?_, ?_⟩
  · intro cb src hlen h4 hlt
    subst hlen
    have hlog := repackLog_whole src h4 hlt
    have hfst := repackLoopLog_fst src src.length 0 0
      (List.replicate (src.length * 3 % 2 ^ 32 / 4) 0) []
    have hrep : repack src.length src = .ok (lastThreeOfFour src) := by
      unfold repack
      rw [← hfst]
      unfold repackLog at hlog
      rw [hlog]
      rfl
    have e : src.length * 3 % 2 ^ 32 / 4 = src.length / 4 * 3 := by
      rw [Nat.mod_eq_of_lt (by omega)]
      omega
    refine ⟨_, _, hlog, hrep, ?_, rfl, ?_, ?_⟩
    · rw [lastThreeOfFour_length src h4, e]
    · intro k hk
      exact List.count_eq_one_of_mem (List.nodup_range _) (List.mem_range.mpr hk)
    · intro k hk
      exact List.mem_range.mp hk
  · intro cb src hlen hcb hbad
    have hrep := repack_out_of_range cb src hlen hcb hbad
    refine ⟨hrep, ?_⟩
    have hfst := repackLoopLog_fst src src.length 0 0
      (List.replicate (cb * 3 % 2 ^ 32 / 4) 0) []
    unfold repack at hrep
    rw [hrep] at hfst
    unfold repackLog
    cases hl : repackLoopLog src src.length 0 0 (List.replicate (cb * 3 % 2 ^ 32 / 4) 0) [] with
    | error e =>
      rw [hl] at hfst
      simp only [Except.map] at hfst
      injection hfst with hfst
      rw [hfst]
    | ok v =>
      rw [hl] at hfst
      simp only [Except.map] at hfst
      exact absurd hfst (by simp)
  · intro c rec s p r rd2 h h0
    obtain ⟨hlen, hrep⟩ := CommonBitmapRecord.read_BitsSrc_length h h0
    obtain ⟨_, _, _, hcb, _, _⟩ := CommonBitmapRecord.read_ok h
    by_contra hc
    have hbad : r.cbBitsSrc % 4 ≠ 0 ∨ 2 ^ 32 ≤ 3 * r.cbBitsSrc := by omega
    rw [repack_out_of_range r.cbBitsSrc r.BitsSrc hlen hcb hbad] at hrep
    exact absurd hrep (by simp)

set_option maxRecDepth 100000 in
/-- C20, witness: the loop on the eight bytes of two pixels writes the indices 0 to 5
once each; on a source of five bytes it ends in an index out of range; the
record decoded from `bitbltTwoPixels` has cbBitsSrc = 8. -/
theorem repack_index_safety_witness :
    (∃ out log, repackLog 8 [10, 20, 30, 255, 40, 50, 60, 255] = .ok (out, log) ∧
      repack 8 [10, 20, 30, 255, 40, 50, 60, 255] = .ok out ∧
      out.length = 8 * 3 % 2 ^ 32 / 4 ∧ log = List.range (8 * 3 % 2 ^ 32 / 4) ∧
      (∀ k, k < 8 * 3 % 2 ^ 32 / 4 → log.count k = 1) ∧
      (∀ k ∈ log, k < 8 * 3 % 2 ^ 32 / 4)) ∧
    (repack 5 [1, 2, 3, 4, 5] = .error .indexOutOfRange ∧
      repackLog 5 [1, 2, 3, 4, 5] = .error .indexOutOfRange) ∧
    (bitbltTwoPixelsRecord.cbBitsSrc % 4 = 0 ∧ 3 * bitbltTwoPixelsRecord.cbBitsSrc < 2 ^ 32) :=
  ⟨repack_index_safety.1 8 [10, 20, 30, 255, 40, 50, 60, 255] rfl (by decide) (by decide),
    repack_index_safety.2.1 5 [1, 2, 3, 4, 5] rfl (by decide) (Or.inl (by decide)),
    repack_index_safety.2.2 0 ⟨EMR_BITBLT, 148⟩ bitbltTwoPixels 0 bitbltTwoPixelsRecord
      ⟨bitbltTwoPixels, 148⟩ rfl (by decide)⟩

end Emf
